import Mathlib

/-!
# ingress-duplicator: the AppIngress reconciler

A shallow embedding of `internal/controller/appingress_controller.go`
(`AppIngressReconciler.Reconcile`) together with the resource types of
`api/v1alpha1/appingress_types.go`.

The reconciler talks to an API server through a client.  The client, the
finalizer helpers, `CreateOrUpdate` and `SetStatusCondition` come from
libraries the repository imports; they are modelled here as pure functions on
an explicit `Store`, following the contract the specification gives for them.
Every client call is appended to `Store.log`, and an environment `Env` decides
which calls fail for reasons outside the store (network, conflicts, ...).
-/

namespace IngressDuplicator

/-! ## Resource types -/

/-- Modelled from the spec: a timestamp (`metav1.Time`); `0` is the zero time. -/
abbrev Time := Nat

/-- Modelled from the spec: `IsZero` of an optional timestamp, true for an
unset timestamp and for the zero time. -/
def IsZero (t : Option Time) : Bool :=
  match t with
  | none => true
  | some v => v == 0

/-- Modelled from the spec: status of a condition, one of True, False, Unknown. -/
inductive ConditionStatus where
  | ConditionTrue
  | ConditionFalse
  | ConditionUnknown
deriving DecidableEq, Repr

/-- Modelled from the spec: a status condition
`{type, status, reason, message, lastTransitionTime}` (`metav1.Condition`). -/
structure Condition where
  type : String
  status : ConditionStatus
  observedGeneration : Int := 0
  lastTransitionTime : Time := 0
  reason : String
  message : String
deriving DecidableEq, Repr

/-- Modelled from the spec: object metadata (`metav1.ObjectMeta`), the fields
the reconciler and the store contract use. -/
structure ObjectMeta where
  name : String := ""
  namespace_ : String := ""
  labels : List (String × String) := []
  annotations : List (String × String) := []
  finalizers : List String := []
  deletionTimestamp : Option Time := none
  resourceVersion : Nat := 0
deriving DecidableEq, Repr

/-- Modelled from the spec: one rule of the opaque Ingress payload. -/
structure IngressRule where
  host : String := ""
  paths : List String := []
deriving DecidableEq, Repr

/-- Modelled from the spec: the opaque desired-state payload of the Derived
Resource (`networkingv1.IngressSpec`); the reconciler only copies it. -/
structure IngressSpec where
  ingressClassName : Option String := none
  rules : List IngressRule := []
deriving DecidableEq, Repr

/-- The template for creating an Ingress resource (`IngressTemplate`). -/
structure IngressTemplate extends ObjectMeta where
  spec : IngressSpec := {}
deriving DecidableEq, Repr

/-- The desired state of AppIngress (`AppIngressSpec`). -/
structure AppIngressSpec where
  template : IngressTemplate := {}
  targetNamespace : String := ""
deriving DecidableEq, Repr

/-- The observed state of AppIngress (`AppIngressStatus`). -/
structure AppIngressStatus where
  conditions : List Condition := []
deriving DecidableEq, Repr

/-- The Source Resource (`AppIngress`). -/
structure AppIngress extends ObjectMeta where
  spec : AppIngressSpec := {}
  status : AppIngressStatus := {}
deriving DecidableEq, Repr

/-- Modelled from the spec: the Derived Resource (`networkingv1.Ingress`). -/
structure Ingress extends ObjectMeta where
  spec : IngressSpec := {}
deriving DecidableEq, Repr

/-- Modelled from the spec: identity of a namespaced object. -/
structure NamespacedName where
  namespace_ : String
  name : String
deriving DecidableEq, Repr

/-- Modelled from the spec: the key of an object, its namespace and name. -/
def ObjectKeyFromObject (o : ObjectMeta) : NamespacedName :=
  { namespace_ := o.namespace_, name := o.name }

/-! ## Errors -/

/-- Modelled from the spec: the distinguishable kinds of store error. -/
inductive StatusReason where
  | NotFound
  | AlreadyExists
  | Conflict
  | Unknown
deriving DecidableEq, Repr

/-- Modelled from the spec: an error returned by a store call. -/
structure APIError where
  reason : StatusReason
  message : String
deriving DecidableEq, Repr

/-- Modelled from the spec: the text of an error (`err.Error()`). -/
def APIError.Error (e : APIError) : String := e.message

/-- Modelled from the spec: the distinguishable "not found" test
(`apierrors.IsNotFound`). -/
def IsNotFound (e : APIError) : Bool := decide (e.reason = StatusReason.NotFound)

/-- Modelled from the spec: the store's "not found" error. -/
def NewNotFound (name : String) : APIError :=
  { reason := StatusReason.NotFound, message := name ++ " not found" }

/-- Modelled from the spec: the store's "already exists" error. -/
def NewAlreadyExists (name : String) : APIError :=
  { reason := StatusReason.AlreadyExists, message := name ++ " already exists" }

/-- Modelled from the spec: the store's optimistic-concurrency conflict. -/
def NewConflict (name : String) : APIError :=
  { reason := StatusReason.Conflict, message := name ++ " has been modified" }

/-! ## Store client -/

/-- Modelled from the spec: the calls of the Store Client the reconciler
issues, with their arguments. -/
inductive Call where
  | getAppIngress (key : NamespacedName)
  | updateAppIngress (obj : AppIngress)
  | updateStatus (obj : AppIngress)
  | getNamespace (name : String)
  | getIngress (key : NamespacedName)
  | createIngress (obj : Ingress)
  | updateIngress (obj : Ingress)
  | deleteIngress (key : NamespacedName)
deriving DecidableEq, Repr

/-- Modelled from the spec: the surroundings of one invocation, namely which
store calls fail for a reason outside the store, and the clock readings taken
when the NamespaceValid and the IngressCreated condition are set. -/
structure Env where
  faults : Call → Option APIError
  nowNamespaceValid : Time
  nowIngressCreated : Time

/-- Modelled from the spec: the external store, holding Source Resources,
Derived Resources and namespaces, and the log of the calls made so far, each
with the error it returned (`none` for success). -/
structure Store where
  appIngresses : List AppIngress := []
  ingresses : List Ingress := []
  namespaces : List String := []
  log : List (Call × Option APIError) := []
deriving DecidableEq, Repr

/-- Appends a call and its outcome to the log. -/
def Store.record (st : Store) (c : Call) (err : Option APIError) : Store :=
  { st with log := st.log ++ [(c, err)] }

/-- The first object of a list with the given identity, if any. -/
def lookupObject {α : Type} (m : α → ObjectMeta) (l : List α) (key : NamespacedName) :
    Option α :=
  l.find? (fun a => decide (ObjectKeyFromObject (m a) = key))

/-- The list with the objects at `key` replaced by `stored`. -/
def replaceObject {α : Type} (m : α → ObjectMeta) (l : List α) (key : NamespacedName)
    (stored : α) : List α :=
  l.map (fun a => if ObjectKeyFromObject (m a) = key then stored else a)

/-- The list without the objects at `key`. -/
def removeObject {α : Type} (m : α → ObjectMeta) (l : List α) (key : NamespacedName) :
    List α :=
  l.filter (fun a => decide (ObjectKeyFromObject (m a) ≠ key))

/-- The stored Source Resource with the given identity, if any. -/
def Store.lookupAppIngress (st : Store) (key : NamespacedName) : Option AppIngress :=
  lookupObject AppIngress.toObjectMeta st.appIngresses key

/-- The stored Derived Resource with the given identity, if any. -/
def Store.lookupIngress (st : Store) (key : NamespacedName) : Option Ingress :=
  lookupObject Ingress.toObjectMeta st.ingresses key

/-- Modelled from the spec: `get` of a Source Resource; fills `obj` on success. -/
def GetAppIngress (env : Env) (st : Store) (key : NamespacedName) (obj : AppIngress) :
    Store × Option APIError × AppIngress :=
  let call := Call.getAppIngress key
  match env.faults call with
  | some e => (st.record call (some e), some e, obj)
  | none =>
    match st.lookupAppIngress key with
    | none => (st.record call (some (NewNotFound key.name)), some (NewNotFound key.name), obj)
    | some stored => (st.record call none, none, stored)

/-- Modelled from the spec: `update` of a Source Resource.  The status is a
subresource, so the stored status is kept; a stale token is a conflict; an
object marked for deletion whose finalizers become empty is removed. On
success `obj` is replaced by the stored object. -/
def UpdateAppIngress (env : Env) (st : Store) (obj : AppIngress) :
    Store × Option APIError × AppIngress :=
  let call := Call.updateAppIngress obj
  let key := ObjectKeyFromObject obj.toObjectMeta
  match env.faults call with
  | some e => (st.record call (some e), some e, obj)
  | none =>
    match st.lookupAppIngress key with
    | none => (st.record call (some (NewNotFound key.name)), some (NewNotFound key.name), obj)
    | some old =>
      if obj.resourceVersion ≠ old.resourceVersion then
        (st.record call (some (NewConflict key.name)), some (NewConflict key.name), obj)
      else
        let new : AppIngress := { obj with status := old.status }
        if new = old then (st.record call none, none, old)
        else
          let stored : AppIngress := { new with resourceVersion := old.resourceVersion + 1 }
          if !IsZero stored.deletionTimestamp && stored.finalizers.isEmpty then
            ({ st.record call none with
                appIngresses := removeObject AppIngress.toObjectMeta st.appIngresses key },
              none, stored)
          else
            ({ st.record call none with
                appIngresses := replaceObject AppIngress.toObjectMeta st.appIngresses key stored },
              none, stored)

/-- Modelled from the spec: `update` of the status subresource of a Source
Resource: only the status is written. On success `obj` is replaced by the
stored object. -/
def UpdateStatus (env : Env) (st : Store) (obj : AppIngress) :
    Store × Option APIError × AppIngress :=
  let call := Call.updateStatus obj
  let key := ObjectKeyFromObject obj.toObjectMeta
  match env.faults call with
  | some e => (st.record call (some e), some e, obj)
  | none =>
    match st.lookupAppIngress key with
    | none => (st.record call (some (NewNotFound key.name)), some (NewNotFound key.name), obj)
    | some old =>
      if obj.resourceVersion ≠ old.resourceVersion then
        (st.record call (some (NewConflict key.name)), some (NewConflict key.name), obj)
      else
        let new : AppIngress := { old with status := obj.status }
        if new = old then (st.record call none, none, old)
        else
          let stored : AppIngress := { new with resourceVersion := old.resourceVersion + 1 }
          ({ st.record call none with
              appIngresses := replaceObject AppIngress.toObjectMeta st.appIngresses key stored },
            none, stored)

/-- Modelled from the spec: `namespaceExists`, as a `get` of the namespace
that fails with "not found" when it is absent. -/
def GetNamespace (env : Env) (st : Store) (name : String) : Store × Option APIError :=
  let call := Call.getNamespace name
  match env.faults call with
  | some e => (st.record call (some e), some e)
  | none =>
    if name ∈ st.namespaces then (st.record call none, none)
    else (st.record call (some (NewNotFound name)), some (NewNotFound name))

/-- Modelled from the spec: `get` of a Derived Resource; fills `obj` on success. -/
def GetIngress (env : Env) (st : Store) (key : NamespacedName) (obj : Ingress) :
    Store × Option APIError × Ingress :=
  let call := Call.getIngress key
  match env.faults call with
  | some e => (st.record call (some e), some e, obj)
  | none =>
    match st.lookupIngress key with
    | none => (st.record call (some (NewNotFound key.name)), some (NewNotFound key.name), obj)
    | some stored => (st.record call none, none, stored)

/-- Modelled from the spec: `create` of a Derived Resource. -/
def CreateIngress (env : Env) (st : Store) (obj : Ingress) : Store × Option APIError :=
  let call := Call.createIngress obj
  let key := ObjectKeyFromObject obj.toObjectMeta
  match env.faults call with
  | some e => (st.record call (some e), some e)
  | none =>
    match st.lookupIngress key with
    | some _ =>
      (st.record call (some (NewAlreadyExists key.name)), some (NewAlreadyExists key.name))
    | none =>
      let stored : Ingress := { obj with resourceVersion := 1 }
      ({ st.record call none with ingresses := st.ingresses ++ [stored] }, none)

/-- Modelled from the spec: `update` of a Derived Resource, with the
optimistic-concurrency token. -/
def UpdateIngress (env : Env) (st : Store) (obj : Ingress) : Store × Option APIError :=
  let call := Call.updateIngress obj
  let key := ObjectKeyFromObject obj.toObjectMeta
  match env.faults call with
  | some e => (st.record call (some e), some e)
  | none =>
    match st.lookupIngress key with
    | none => (st.record call (some (NewNotFound key.name)), some (NewNotFound key.name))
    | some old =>
      if obj.resourceVersion ≠ old.resourceVersion then
        (st.record call (some (NewConflict key.name)), some (NewConflict key.name))
      else if obj = old then (st.record call none, none)
      else
        let stored : Ingress := { obj with resourceVersion := old.resourceVersion + 1 }
        ({ st.record call none with
            ingresses := replaceObject Ingress.toObjectMeta st.ingresses key stored }, none)

/-- Modelled from the spec: `delete` of a Derived Resource; fails with "not
found" when it is already absent. -/
def DeleteIngress (env : Env) (st : Store) (obj : Ingress) : Store × Option APIError :=
  let key := ObjectKeyFromObject obj.toObjectMeta
  let call := Call.deleteIngress key
  match env.faults call with
  | some e => (st.record call (some e), some e)
  | none =>
    match st.lookupIngress key with
    | none => (st.record call (some (NewNotFound key.name)), some (NewNotFound key.name))
    | some _ =>
      ({ st.record call none with
          ingresses := removeObject Ingress.toObjectMeta st.ingresses key }, none)

/-! ## Library helpers used by the reconciler -/

/-- Modelled from the spec: `hasFinalizer(obj, name)`. -/
def ContainsFinalizer (o : AppIngress) (finalizer : String) : Bool :=
  decide (finalizer ∈ o.finalizers)

/-- Modelled from the spec: `addFinalizer(obj, name)`, a no-op if present. -/
def AddFinalizer (o : AppIngress) (finalizer : String) : AppIngress :=
  if finalizer ∈ o.finalizers then o
  else { o with finalizers := o.finalizers ++ [finalizer] }

/-- Modelled from the spec: `removeFinalizer(obj, name)`, a no-op if absent. -/
def RemoveFinalizer (o : AppIngress) (finalizer : String) : AppIngress :=
  { o with finalizers := o.finalizers.filter (fun f => decide (f ≠ finalizer)) }

/-- Modelled from the spec: the condition stored for an existing condition
`existing` when `newCondition` of the same type is set: reason and message are
updated in place, `lastTransitionTime` moves only when the status changes. -/
def mergeCondition (existing newCondition : Condition) (now : Time) : Condition :=
  { type := existing.type
    status := newCondition.status
    observedGeneration := newCondition.observedGeneration
    lastTransitionTime :=
      if existing.status ≠ newCondition.status then
        (if newCondition.lastTransitionTime ≠ 0 then newCondition.lastTransitionTime else now)
      else existing.lastTransitionTime
    reason := newCondition.reason
    message := newCondition.message }

/-- Modelled from the spec: `setCondition(list, type, status, reason, message,
now)` (`meta.SetStatusCondition`): the first condition of the type is updated
in place; a new type is appended with `lastTransitionTime = now`. -/
def SetStatusCondition (conditions : List Condition) (newCondition : Condition) (now : Time) :
    List Condition :=
  match conditions with
  | [] =>
    [{ newCondition with
        lastTransitionTime :=
          if newCondition.lastTransitionTime = 0 then now
          else newCondition.lastTransitionTime }]
  | c :: cs =>
    if c.type = newCondition.type then mergeCondition c newCondition now :: cs
    else c :: SetStatusCondition cs newCondition now

/-- Modelled from the spec: the mutate step of create-or-update, which refuses
a mutation that changes the identity of the object. -/
def mutate (f : Ingress → Ingress) (key : NamespacedName) (obj : Ingress) :
    Option APIError × Ingress :=
  let obj := f obj
  if ObjectKeyFromObject obj.toObjectMeta ≠ key then
    (some { reason := StatusReason.Unknown,
            message := "MutateFn cannot mutate object name and/or object namespace" }, obj)
  else (none, obj)

/-- Modelled from the spec: create-or-update of the Derived Resource
(`controllerutil.CreateOrUpdate`): get the object; when it is not found,
mutate and create; otherwise mutate and, unless nothing changed, update. -/
def CreateOrUpdate (env : Env) (st : Store) (obj : Ingress) (f : Ingress → Ingress) :
    Store × Option APIError :=
  let key := ObjectKeyFromObject obj.toObjectMeta
  match GetIngress env st key obj with
  | (st, some err, obj) =>
    if !IsNotFound err then (st, some err)
    else
      match mutate f key obj with
      | (some err, _) => (st, some err)
      | (none, obj) => CreateIngress env st obj
  | (st, none, obj) =>
    let existing := obj
    match mutate f key obj with
    | (some err, _) => (st, some err)
    | (none, obj) =>
      if existing = obj then (st, none)
      else UpdateIngress env st obj

/-- Helper of the test suite: the first condition of the given type. -/
def findCondition (conditions : List Condition) (conditionType : String) : Option Condition :=
  conditions.find? (fun c => decide (c.type = conditionType))

/-! ## The reconciler -/

/-- Condition type reporting whether the target namespace exists. -/
def ConditionTypeNamespaceValid : String := "NamespaceValid"

/-- Condition type reporting whether the Ingress was created or updated. -/
def ConditionTypeIngressCreated : String := "IngressCreated"

/-- Finalizer for AppIngress cleanup. -/
def finalizerName : String := "ingress.example.com/cleanup"

/-- The mutation `Reconcile` hands to create-or-update: labels, annotations
and spec of the Ingress are overwritten with the template's. -/
def ingressMutateFn (appIngress : AppIngress) (ingress : Ingress) : Ingress :=
  { ingress with
    labels := appIngress.spec.template.labels
    annotations := appIngress.spec.template.annotations
    spec := appIngress.spec.template.spec }

/-- The identity `(template.name, targetNamespace)` of the Derived Resource
of a Source Resource. -/
def derivedKey (appIngress : AppIngress) : NamespacedName :=
  { namespace_ := appIngress.spec.targetNamespace, name := appIngress.spec.template.name }

/-- The in-memory Source Resource with `newCondition` set on its status. -/
def setCondition (appIngress : AppIngress) (newCondition : Condition) (now : Time) :
    AppIngress :=
  { appIngress with
    status := { conditions := SetStatusCondition appIngress.status.conditions newCondition now } }

/-- The reconciliation loop for AppIngress resources
(`AppIngressReconciler.Reconcile`): the store after the invocation and the
error returned (`none` is success). -/
def Reconcile (env : Env) (st : Store) (req : NamespacedName) : Store × Option APIError :=
  -- Get AppIngress
  match GetAppIngress env st req {} with
  | (st, some err, _) =>
    if IsNotFound err then (st, none) else (st, some err)
  | (st, none, appIngress) =>
    -- Handle deletion
    if !IsZero appIngress.deletionTimestamp then
      if ContainsFinalizer appIngress finalizerName then
        -- Try to delete the Ingress
        let ingress : Ingress :=
          { name := appIngress.spec.template.name
            namespace_ := appIngress.spec.targetNamespace }
        match DeleteIngress env st ingress with
        | (st, derr) =>
          match derr.filter (fun err => !IsNotFound err) with
          | some err => (st, some err)
          | none =>
            -- Remove finalizer to allow AppIngress deletion
            let appIngress := RemoveFinalizer appIngress finalizerName
            match UpdateAppIngress env st appIngress with
            | (st, some err, _) => (st, some err)
            | (st, none, _) => (st, none)
      else
        -- Finalizer already removed, nothing to do
        (st, none)
    else
      -- Add finalizer if it doesn't exist
      match (if !ContainsFinalizer appIngress finalizerName then
               UpdateAppIngress env st (AddFinalizer appIngress finalizerName)
             else (st, none, appIngress)) with
      | (st, some err, _) => (st, some err)
      | (st, none, appIngress) =>
        -- Check if target namespace exists
        match GetNamespace env st appIngress.spec.targetNamespace with
        | (st, some err) =>
          if IsNotFound err then
            let appIngress := setCondition appIngress
              { type := ConditionTypeNamespaceValid
                status := ConditionStatus.ConditionFalse
                reason := "NotFound"
                message := "Target namespace does not exist" } env.nowNamespaceValid
            match UpdateStatus env st appIngress with
            | (st, some err, _) => (st, some err)
            | (st, none, _) => (st, none)
          else (st, some err)
        | (st, none) =>
          -- Set namespace valid condition
          let appIngress := setCondition appIngress
            { type := ConditionTypeNamespaceValid
              status := ConditionStatus.ConditionTrue
              reason := "Valid"
              message := "Target namespace exists" } env.nowNamespaceValid
          -- Create/Update Ingress
          let ingress : Ingress :=
            { name := appIngress.spec.template.name
              namespace_ := appIngress.spec.targetNamespace }
          -- Create or update ingress - skip owner reference for cross-namespace objects
          match CreateOrUpdate env st ingress (ingressMutateFn appIngress) with
          | (st, some err) =>
            let appIngress := setCondition appIngress
              { type := ConditionTypeIngressCreated
                status := ConditionStatus.ConditionFalse
                reason := "Error"
                message := "Failed to create/update Ingress: " ++ err.Error } env.nowIngressCreated
            match UpdateStatus env st appIngress with
            | (st, some err, _) => (st, some err)
            | (st, none, _) => (st, some err)
          | (st, none) =>
            -- Update success condition
            let appIngress := setCondition appIngress
              { type := ConditionTypeIngressCreated
                status := ConditionStatus.ConditionTrue
                reason := "Created"
                message := "Ingress created/updated successfully" } env.nowIngressCreated
            match UpdateStatus env st appIngress with
            | (st, some err, _) => (st, some err)
            | (st, none, _) => (st, none)

/-! ## Names for the values `Reconcile` works with -/

/-- The condition `Reconcile` sets when the target namespace is not found. -/
def namespaceNotFoundCondition : Condition :=
  { type := ConditionTypeNamespaceValid
    status := ConditionStatus.ConditionFalse
    reason := "NotFound"
    message := "Target namespace does not exist" }

/-- The condition `Reconcile` sets when the target namespace exists. -/
def namespaceValidCondition : Condition :=
  { type := ConditionTypeNamespaceValid
    status := ConditionStatus.ConditionTrue
    reason := "Valid"
    message := "Target namespace exists" }

/-- The condition `Reconcile` sets when create-or-update fails with `err`. -/
def ingressErrorCondition (err : APIError) : Condition :=
  { type := ConditionTypeIngressCreated
    status := ConditionStatus.ConditionFalse
    reason := "Error"
    message := "Failed to create/update Ingress: " ++ err.Error }

/-- The condition `Reconcile` sets when create-or-update succeeds. -/
def ingressCreatedCondition : Condition :=
  { type := ConditionTypeIngressCreated
    status := ConditionStatus.ConditionTrue
    reason := "Created"
    message := "Ingress created/updated successfully" }

/-- The object literal `Reconcile` builds for the Derived Resource of a Source
Resource: only name and namespace are set. -/
def ingressFor (appIngress : AppIngress) : Ingress :=
  { name := appIngress.spec.template.name
    namespace_ := appIngress.spec.targetNamespace }


/-! ## Actions of the external actor, and example states -/

/-- Modelled from the spec: the external actor's update of the template's
spec payload of the Source Resource at `req`. -/
def updateTemplateSpec (st : Store) (req : NamespacedName) (P : IngressSpec) : Store :=
  match st.lookupAppIngress req with
  | none => st
  | some a =>
    let edited : AppIngress :=
      { a with
        spec := { a.spec with template := { a.spec.template with spec := P } }
        resourceVersion := a.resourceVersion + 1 }
    { st with appIngresses := replaceObject AppIngress.toObjectMeta st.appIngresses req edited }

/-- An environment in which no store call fails from outside. -/
def quietEnv : Env :=
  { faults := fun _ => none, nowNamespaceValid := 10, nowIngressCreated := 11 }

/-- A later environment in which no store call fails from outside. -/
def laterEnv : Env :=
  { faults := fun _ => none, nowNamespaceValid := 20, nowIngressCreated := 21 }

/-- Identity of the example Source Resource. -/
def exampleReq : NamespacedName := { namespace_ := "default", name := "s1" }

/-- The Source Resource of scenario B: brand new, target namespace `ns1`. -/
def exampleSource : AppIngress :=
  { name := "s1"
    namespace_ := "default"
    spec :=
      { template := { name := "ing1", spec := { rules := [{ host := "example.com" }] } }
        targetNamespace := "ns1" } }

/-- A store holding the example Source Resource and its target namespace. -/
def exampleStore : Store :=
  { appIngresses := [exampleSource], namespaces := ["ns1"] }

/-- The example Source Resource after a first reconcile and a deletion
request: it carries the cleanup finalizer and a deletion timestamp. -/
def deletingSource : AppIngress :=
  { exampleSource with
    finalizers := [finalizerName]
    deletionTimestamp := some 5
    resourceVersion := 2 }

/-- The Derived Resource of the example Source Resource. -/
def exampleIngress : Ingress :=
  { name := "ing1"
    namespace_ := "ns1"
    resourceVersion := 1
    spec := { rules := [{ host := "example.com" }] } }

/-- A store in which the example Source Resource is being deleted and its
Derived Resource exists. -/
def deletingStore : Store :=
  { appIngresses := [deletingSource], ingresses := [exampleIngress], namespaces := ["ns1"] }

/-- A store in which the example Source Resource is being deleted and its
Derived Resource is already gone. -/
def goneStore : Store :=
  { appIngresses := [deletingSource], namespaces := ["ns1"] }

/-- An error that is not "not found". -/
def refused : APIError := { reason := StatusReason.Unknown, message := "connection refused" }

/-- An environment in which every delete of a Derived Resource is refused. -/
def refusedDeleteEnv : Env :=
  { faults := fun c =>
      match c with
      | Call.deleteIngress _ => some refused
      | _ => none
    nowNamespaceValid := 10
    nowIngressCreated := 11 }

/-- The example Source Resource after a successful reconcile: it carries the
finalizer and both conditions with status True. -/
def reconciledSource : AppIngress :=
  { exampleSource with
    finalizers := [finalizerName]
    resourceVersion := 2
    status :=
      { conditions :=
          [{ namespaceValidCondition with lastTransitionTime := 10 },
           { ingressCreatedCondition with lastTransitionTime := 11 }] } }

/-- A store in which the example Source Resource was reconciled and its
target namespace has since been removed. -/
def namespaceGoneStore : Store :=
  { appIngresses := [reconciledSource], ingresses := [exampleIngress], namespaces := [] }

/-- A store in which the example Source Resource was reconciled and its
target namespace and Derived Resource exist. -/
def reconciledStore : Store :=
  { appIngresses := [reconciledSource], ingresses := [exampleIngress], namespaces := ["ns1"] }

/-- The conflict error the store reports for the example Source Resource. -/
def statusConflict : APIError := NewConflict "s1"

/-- An environment in which every create of a Derived Resource is refused. -/
def refusedCreateEnv : Env :=
  { faults := fun c =>
      match c with
      | Call.createIngress _ => some refused
      | _ => none
    nowNamespaceValid := 10
    nowIngressCreated := 11 }

/-- An environment in which every create of a Derived Resource is refused and
every status update meets a conflict. -/
def refusedCreateConflictEnv : Env :=
  { faults := fun c =>
      match c with
      | Call.createIngress _ => some refused
      | Call.updateStatus _ => some statusConflict
      | _ => none
    nowNamespaceValid := 10
    nowIngressCreated := 11 }

/-- An error of an earlier attempt. -/
def timedOut : APIError := { reason := StatusReason.Unknown, message := "request timed out" }

/-- The example Source Resource after a reconcile whose create-or-update
failed with `timedOut`. -/
def failedSource : AppIngress :=
  { exampleSource with
    finalizers := [finalizerName]
    resourceVersion := 2
    status :=
      { conditions :=
          [{ namespaceValidCondition with lastTransitionTime := 10 },
           { ingressErrorCondition timedOut with lastTransitionTime := 11 }] } }

/-- A store holding `failedSource`, its target namespace and no Derived Resource. -/
def failedStore : Store :=
  { appIngresses := [failedSource], namespaces := ["ns1"] }

/-- A later environment in which every create of a Derived Resource is refused. -/
def laterRefusedCreateEnv : Env :=
  { faults := fun c =>
      match c with
      | Call.createIngress _ => some refused
      | _ => none
    nowNamespaceValid := 20
    nowIngressCreated := 21 }

/-- The Source Resource `failedSource` after a further reconcile whose
create-or-update failed with `refused`: the message changed, the transition
time did not. -/
def failedAgainSource : AppIngress :=
  { failedSource with
    resourceVersion := 3
    status :=
      { conditions :=
          [{ namespaceValidCondition with lastTransitionTime := 10 },
           { ingressErrorCondition refused with lastTransitionTime := 11 }] } }

/-! ## Failures of store calls -/

/-- A logged store call that failed. -/
def failed (x : Call × Option APIError) : Bool := x.2.isSome

/-- The three benign failures: "not found" on fetching the Source Resource,
on deleting the Derived Resource, or on looking up the target namespace. -/
def benignFailure (x : Call × Option APIError) : Bool :=
  match x with
  | (Call.getAppIngress _, some e) => IsNotFound e
  | (Call.deleteIngress _, some e) => IsNotFound e
  | (Call.getNamespace _, some e) => IsNotFound e
  | _ => false

/-- The failure create-or-update absorbs: "not found" on its get of the
Derived Resource, which it answers with a create. -/
def benignGetIngress (x : Call × Option APIError) : Bool :=
  match x with
  | (Call.getIngress _, some e) => IsNotFound e
  | _ => false

/-- A failed store call whose error is not one of the three benign failures. -/
def nonBenignFailure (x : Call × Option APIError) : Bool :=
  failed x && !benignFailure x

/-- A failed store call whose error is neither one of the three benign
failures nor the "not found" create-or-update absorbs. -/
def realFailure (x : Call × Option APIError) : Bool :=
  failed x && !benignFailure x && !benignGetIngress x

/-- Modelled from the spec: the external actor's change of the template's
name of the Source Resource at `req`. -/
def updateTemplateName (st : Store) (req : NamespacedName) (name : String) : Store :=
  match st.lookupAppIngress req with
  | none => st
  | some a =>
    let edited : AppIngress :=
      { a with
        spec := { a.spec with template := { a.spec.template with name := name } }
        resourceVersion := a.resourceVersion + 1 }
    { st with appIngresses := replaceObject AppIngress.toObjectMeta st.appIngresses req edited }

/-- Modelled from the spec: the external actor's change of the target
namespace of the Source Resource at `req`. -/
def updateTargetNamespace (st : Store) (req : NamespacedName) (ns : String) : Store :=
  match st.lookupAppIngress req with
  | none => st
  | some a =>
    let edited : AppIngress :=
      { a with
        spec := { a.spec with targetNamespace := ns }
        resourceVersion := a.resourceVersion + 1 }
    { st with appIngresses := replaceObject AppIngress.toObjectMeta st.appIngresses req edited }

/-- A store holding the example Source Resource and two namespaces. -/
def twoNamespaceStore : Store :=
  { appIngresses := [exampleSource], namespaces := ["ns1", "ns2"] }

/-- The propagation policy on the calls of one invocation and its result:
either the invocation succeeded and no call really failed, or it returned the
error of a call that really failed; and a failed update of the Source Resource
is what the invocation returned. -/
def Propagated (calls : List (Call × Option APIError)) (res : Option APIError) : Prop :=
  ((res = none ∧ ∀ x ∈ calls, realFailure x = false) ∨
    (∃ c e, res = some e ∧ (c, some e) ∈ calls ∧ realFailure (c, some e) = true)) ∧
  (∀ o e, (Call.updateAppIngress o, some e) ∈ calls → res = some e)

/-- The calls on Derived Resources are no deletes, and creates and updates of
objects with identity `key` only. -/
def IngressCallsAt (key : NamespacedName) (calls : List (Call × Option APIError)) : Prop :=
  ∀ x ∈ calls,
    (∀ k r, x ≠ (Call.deleteIngress k, r)) ∧
    (∀ o r, x = (Call.createIngress o, r) ∨ x = (Call.updateIngress o, r) →
      ObjectKeyFromObject o.toObjectMeta = key)

/-! ## Facts about the store -/

theorem lookupObject_key {α : Type} (m : α → ObjectMeta) (l : List α) (key : NamespacedName)
    (a : α) (h : lookupObject m l key = some a) : ObjectKeyFromObject (m a) = key := by
  have := List.find?_some h
  simpa using this

theorem lookupObject_replaceObject_self {α : Type} (m : α → ObjectMeta) (l : List α)
    (key : NamespacedName) (old s : α) (h : lookupObject m l key = some old)
    (hk : ObjectKeyFromObject (m s) = key) :
    lookupObject m (replaceObject m l key s) key = some s := by
  induction l with
  | nil => simp [lookupObject] at h
  | cons a l ih =>
    by_cases ha : ObjectKeyFromObject (m a) = key
    · simp [lookupObject, replaceObject, ha, hk]
    · have h2 : lookupObject m l key = some old := by
        simpa [lookupObject, ha] using h
      have := ih h2
      simpa [lookupObject, replaceObject, ha] using this

theorem lookupObject_replaceObject_other {α : Type} (m : α → ObjectMeta) (l : List α)
    (key key2 : NamespacedName) (s : α) (hk : ObjectKeyFromObject (m s) = key)
    (hne : key2 ≠ key) :
    lookupObject m (replaceObject m l key s) key2 = lookupObject m l key2 := by
  have h2 : ¬ ObjectKeyFromObject (m s) = key2 := by rw [hk]; exact fun h => hne h.symm
  simp only [lookupObject, replaceObject]
  induction l with
  | nil => rfl
  | cons a l ih =>
    by_cases ha : ObjectKeyFromObject (m a) = key
    · have h1 : ¬ ObjectKeyFromObject (m a) = key2 := by rw [ha]; exact fun h => hne h.symm
      rw [List.map_cons, if_pos ha, List.find?_cons_of_neg _ (by simpa using h2),
        List.find?_cons_of_neg _ (by simpa using h1)]
      exact ih
    · rw [List.map_cons, if_neg ha]
      by_cases hb : ObjectKeyFromObject (m a) = key2
      · rw [List.find?_cons_of_pos _ (by simpa using hb),
          List.find?_cons_of_pos _ (by simpa using hb)]
      · rw [List.find?_cons_of_neg _ (by simpa using hb),
          List.find?_cons_of_neg _ (by simpa using hb)]
        exact ih

theorem lookupObject_removeObject_self {α : Type} (m : α → ObjectMeta) (l : List α)
    (key : NamespacedName) : lookupObject m (removeObject m l key) key = none := by
  simp [lookupObject, removeObject, List.find?_eq_none]

theorem lookupObject_removeObject_other {α : Type} (m : α → ObjectMeta) (l : List α)
    (key key2 : NamespacedName) (hne : key2 ≠ key) :
    lookupObject m (removeObject m l key) key2 = lookupObject m l key2 := by
  simp only [lookupObject, removeObject]
  induction l with
  | nil => rfl
  | cons a l ih =>
    by_cases ha : ObjectKeyFromObject (m a) = key
    · have h1 : ¬ ObjectKeyFromObject (m a) = key2 := by rw [ha]; exact fun h => hne h.symm
      rw [List.filter_cons_of_neg (by simpa using ha),
        List.find?_cons_of_neg _ (by simpa using h1)]
      exact ih
    · rw [List.filter_cons_of_pos (by simpa using ha)]
      by_cases hb : ObjectKeyFromObject (m a) = key2
      · rw [List.find?_cons_of_pos _ (by simpa using hb),
          List.find?_cons_of_pos _ (by simpa using hb)]
      · rw [List.find?_cons_of_neg _ (by simpa using hb),
          List.find?_cons_of_neg _ (by simpa using hb)]
        exact ih

theorem lookupObject_append_self {α : Type} (m : α → ObjectMeta) (l : List α)
    (key : NamespacedName) (s : α) (h : lookupObject m l key = none)
    (hk : ObjectKeyFromObject (m s) = key) :
    lookupObject m (l ++ [s]) key = some s := by
  unfold lookupObject at *
  rw [List.find?_append, h]
  simp [hk]

theorem lookupObject_append_other {α : Type} (m : α → ObjectMeta) (l : List α)
    (key key2 : NamespacedName) (s : α) (hk : ObjectKeyFromObject (m s) = key)
    (hne : key2 ≠ key) :
    lookupObject m (l ++ [s]) key2 = lookupObject m l key2 := by
  have h2 : ¬ ObjectKeyFromObject (m s) = key2 := by rw [hk]; exact fun h => hne h.symm
  unfold lookupObject
  rw [List.find?_append]
  cases List.find? (fun a => decide (ObjectKeyFromObject (m a) = key2)) l <;> simp [h2]

@[simp] theorem Store.record_appIngresses (st : Store) (c : Call) (e : Option APIError) :
    (st.record c e).appIngresses = st.appIngresses := rfl

@[simp] theorem Store.record_ingresses (st : Store) (c : Call) (e : Option APIError) :
    (st.record c e).ingresses = st.ingresses := rfl

@[simp] theorem Store.record_namespaces (st : Store) (c : Call) (e : Option APIError) :
    (st.record c e).namespaces = st.namespaces := rfl

@[simp] theorem Store.record_log (st : Store) (c : Call) (e : Option APIError) :
    (st.record c e).log = st.log ++ [(c, e)] := rfl

@[simp] theorem Store.record_lookupAppIngress (st : Store) (c : Call) (e : Option APIError)
    (k : NamespacedName) : (st.record c e).lookupAppIngress k = st.lookupAppIngress k := rfl

@[simp] theorem Store.record_lookupIngress (st : Store) (c : Call) (e : Option APIError)
    (k : NamespacedName) : (st.record c e).lookupIngress k = st.lookupIngress k := rfl

/-! ### `GetAppIngress` -/

theorem GetAppIngress_store (env : Env) (st : Store) (key : NamespacedName) (obj : AppIngress) :
    (GetAppIngress env st key obj).1 =
      st.record (Call.getAppIngress key) (GetAppIngress env st key obj).2.1 := by
  simp only [GetAppIngress]
  repeat' split
  all_goals rfl

theorem GetAppIngress_ok (env : Env) (st : Store) (key : NamespacedName) (obj : AppIngress)
    (h : (GetAppIngress env st key obj).2.1 = none) :
    st.lookupAppIngress key = some (GetAppIngress env st key obj).2.2 := by
  simp only [GetAppIngress] at h ⊢
  cases hf : env.faults (Call.getAppIngress key) <;> simp only [hf] at h ⊢
  · cases hl : st.lookupAppIngress key <;> simp only [hl] at h ⊢
    simp at h
  · simp at h

theorem GetAppIngress_found (env : Env) (st : Store) (key : NamespacedName)
    (obj src : AppIngress) (hf : env.faults (Call.getAppIngress key) = none)
    (hl : st.lookupAppIngress key = some src) :
    GetAppIngress env st key obj = (st.record (Call.getAppIngress key) none, none, src) := by
  simp only [GetAppIngress, hf, hl]

/-! ### `UpdateAppIngress` -/

theorem UpdateAppIngress_ingresses (env : Env) (st : Store) (obj : AppIngress) :
    (UpdateAppIngress env st obj).1.ingresses = st.ingresses := by
  unfold UpdateAppIngress
  simp only
  repeat' split
  all_goals rfl

theorem UpdateAppIngress_namespaces (env : Env) (st : Store) (obj : AppIngress) :
    (UpdateAppIngress env st obj).1.namespaces = st.namespaces := by
  unfold UpdateAppIngress
  simp only
  repeat' split
  all_goals rfl

theorem UpdateAppIngress_log (env : Env) (st : Store) (obj : AppIngress) :
    (UpdateAppIngress env st obj).1.log =
      st.log ++ [(Call.updateAppIngress obj, (UpdateAppIngress env st obj).2.1)] := by
  unfold UpdateAppIngress
  simp only
  repeat' split
  all_goals rfl

theorem UpdateAppIngress_err (env : Env) (st : Store) (obj : AppIngress) (e : APIError)
    (h : (UpdateAppIngress env st obj).2.1 = some e) :
    (UpdateAppIngress env st obj).1.appIngresses = st.appIngresses := by
  unfold UpdateAppIngress at h ⊢
  simp only at h ⊢
  repeat' split
  all_goals first | rfl | skip
  all_goals simp_all

theorem UpdateAppIngress_succeeds (env : Env) (st : Store) (obj old : AppIngress)
    (hf : env.faults (Call.updateAppIngress obj) = none)
    (hl : st.lookupAppIngress (ObjectKeyFromObject obj.toObjectMeta) = some old)
    (hrv : obj.resourceVersion = old.resourceVersion) :
    (UpdateAppIngress env st obj).2.1 = none := by
  simp only [UpdateAppIngress, hf, hl, hrv, ne_eq, not_true_eq_false, if_false]
  repeat' split
  all_goals rfl

theorem UpdateAppIngress_ok (env : Env) (st : Store) (obj : AppIngress)
    (h : (UpdateAppIngress env st obj).2.1 = none) :
    ∃ old, st.lookupAppIngress (ObjectKeyFromObject obj.toObjectMeta) = some old ∧
      (UpdateAppIngress env st obj).2.2.status = old.status ∧
      (UpdateAppIngress env st obj).2.2.spec = obj.spec ∧
      (UpdateAppIngress env st obj).2.2.name = obj.name ∧
      (UpdateAppIngress env st obj).2.2.namespace_ = obj.namespace_ ∧
      (UpdateAppIngress env st obj).2.2.finalizers = obj.finalizers ∧
      (UpdateAppIngress env st obj).2.2.deletionTimestamp = obj.deletionTimestamp ∧
      ((UpdateAppIngress env st obj).1.lookupAppIngress (ObjectKeyFromObject obj.toObjectMeta)
          = some (UpdateAppIngress env st obj).2.2 ∨
        (UpdateAppIngress env st obj).1.lookupAppIngress (ObjectKeyFromObject obj.toObjectMeta)
          = none) := by
  simp only [UpdateAppIngress] at h ⊢
  cases hf : env.faults (Call.updateAppIngress obj) with
  | some e => simp [hf] at h
  | none =>
    cases hl : st.lookupAppIngress (ObjectKeyFromObject obj.toObjectMeta) with
    | none => simp [hf, hl] at h
    | some old =>
      by_cases hrv : obj.resourceVersion = old.resourceVersion
      · refine ⟨old, rfl, ?_⟩
        simp only [hf, hl, hrv, ne_eq, not_true_eq_false, if_false]
        by_cases hno : ({ obj with status := old.status } : AppIngress) = old
        · simp only [hno, if_true, Store.record_lookupAppIngress, hl, true_or, and_true,
            true_and]
          refine ⟨?_, ?_, ?_, ?_, ?_⟩ <;> rw [← hno]
        · simp only [hno, if_false]
          split
          · refine ⟨rfl, rfl, rfl, rfl, rfl, rfl, Or.inr ?_⟩
            exact lookupObject_removeObject_self _ _ _
          · refine ⟨rfl, rfl, rfl, rfl, rfl, rfl, Or.inl ?_⟩
            exact lookupObject_replaceObject_self _ _ _ old _ hl rfl
      · simp [hf, hl, hrv] at h

/-- A successful update of an object that is not being deleted, or that keeps
a finalizer, leaves the returned object in the store. -/
theorem UpdateAppIngress_kept (env : Env) (st : Store) (obj : AppIngress)
    (h : (UpdateAppIngress env st obj).2.1 = none)
    (hk : IsZero obj.deletionTimestamp = true ∨ obj.finalizers ≠ []) :
    (UpdateAppIngress env st obj).1.lookupAppIngress (ObjectKeyFromObject obj.toObjectMeta)
      = some (UpdateAppIngress env st obj).2.2 := by
  simp only [UpdateAppIngress] at h ⊢
  cases hf : env.faults (Call.updateAppIngress obj) with
  | some e => simp [hf] at h
  | none =>
    cases hl : st.lookupAppIngress (ObjectKeyFromObject obj.toObjectMeta) with
    | none => simp [hf, hl] at h
    | some old =>
      by_cases hrv : obj.resourceVersion = old.resourceVersion
      · simp only [hf, hl, hrv, ne_eq, not_true_eq_false, if_false]
        by_cases hno : ({ obj with status := old.status } : AppIngress) = old
        · simp only [hno, if_true, Store.record_lookupAppIngress, hl]
        · simp only [hno, if_false]
          have hc : (!IsZero obj.deletionTimestamp && obj.finalizers.isEmpty) = false := by
            rcases hk with hk | hk
            · simp [hk]
            · cases hfin : obj.finalizers with
              | nil => exact absurd hfin hk
              | cons a l => simp
          simp only [hc]
          exact lookupObject_replaceObject_self _ _ _ old _ hl rfl
      · simp [hf, hl, hrv] at h

/-- A successful update that changes the finalizers of an object marked for
deletion to the empty list removes the object from the store. -/
theorem UpdateAppIngress_removed (env : Env) (st : Store) (obj old : AppIngress)
    (h : (UpdateAppIngress env st obj).2.1 = none)
    (hl : st.lookupAppIngress (ObjectKeyFromObject obj.toObjectMeta) = some old)
    (hne : obj.finalizers ≠ old.finalizers)
    (hd : IsZero obj.deletionTimestamp = false) (he : obj.finalizers = []) :
    (UpdateAppIngress env st obj).1.lookupAppIngress (ObjectKeyFromObject obj.toObjectMeta)
      = none := by
  simp only [UpdateAppIngress] at h ⊢
  cases hf : env.faults (Call.updateAppIngress obj) with
  | some e => simp [hf] at h
  | none =>
    by_cases hrv : obj.resourceVersion = old.resourceVersion
    · simp only [hf, hl, hrv, ne_eq, not_true_eq_false, if_false]
      have hno : ¬ ({ obj with status := old.status } : AppIngress) = old := by
        intro hc
        exact hne (by rw [← hc])
      simp only [hno, if_false, hd, he, Bool.not_false, List.isEmpty_nil, Bool.and_self, if_true]
      exact lookupObject_removeObject_self _ _ _
    · simp [hf, hl, hrv] at h

/-- An update of a Source Resource leaves the other Source Resources as they were. -/
theorem UpdateAppIngress_other (env : Env) (st : Store) (obj : AppIngress)
    (key2 : NamespacedName) (hne : key2 ≠ ObjectKeyFromObject obj.toObjectMeta) :
    (UpdateAppIngress env st obj).1.lookupAppIngress key2 = st.lookupAppIngress key2 := by
  simp only [UpdateAppIngress]
  repeat' split
  all_goals first
    | rfl
    | exact lookupObject_removeObject_other _ _ _ _ hne
    | exact lookupObject_replaceObject_other _ _ _ _ _ rfl hne

/-! ### `UpdateStatus` -/

theorem UpdateStatus_ingresses (env : Env) (st : Store) (obj : AppIngress) :
    (UpdateStatus env st obj).1.ingresses = st.ingresses := by
  simp only [UpdateStatus]
  repeat' split
  all_goals rfl

theorem UpdateStatus_namespaces (env : Env) (st : Store) (obj : AppIngress) :
    (UpdateStatus env st obj).1.namespaces = st.namespaces := by
  simp only [UpdateStatus]
  repeat' split
  all_goals rfl

theorem UpdateStatus_log (env : Env) (st : Store) (obj : AppIngress) :
    (UpdateStatus env st obj).1.log =
      st.log ++ [(Call.updateStatus obj, (UpdateStatus env st obj).2.1)] := by
  simp only [UpdateStatus]
  repeat' split
  all_goals rfl

theorem UpdateStatus_err (env : Env) (st : Store) (obj : AppIngress) (e : APIError)
    (h : (UpdateStatus env st obj).2.1 = some e) :
    (UpdateStatus env st obj).1.appIngresses = st.appIngresses := by
  simp only [UpdateStatus] at h ⊢
  repeat' split
  all_goals first | rfl | skip
  all_goals simp_all

theorem UpdateStatus_fault (env : Env) (st : Store) (obj : AppIngress) (e : APIError)
    (hf : env.faults (Call.updateStatus obj) = some e) :
    (UpdateStatus env st obj).2.1 = some e := by
  simp only [UpdateStatus, hf]

theorem UpdateStatus_succeeds (env : Env) (st : Store) (obj old : AppIngress)
    (hf : env.faults (Call.updateStatus obj) = none)
    (hl : st.lookupAppIngress (ObjectKeyFromObject obj.toObjectMeta) = some old)
    (hrv : obj.resourceVersion = old.resourceVersion) :
    (UpdateStatus env st obj).2.1 = none := by
  simp only [UpdateStatus, hf, hl, hrv, ne_eq, not_true_eq_false, if_false]
  repeat' split
  all_goals rfl

theorem UpdateStatus_ok (env : Env) (st : Store) (obj : AppIngress)
    (h : (UpdateStatus env st obj).2.1 = none) :
    ∃ old, st.lookupAppIngress (ObjectKeyFromObject obj.toObjectMeta) = some old ∧
      (UpdateStatus env st obj).2.2.status = obj.status ∧
      (UpdateStatus env st obj).2.2.spec = old.spec ∧
      (UpdateStatus env st obj).2.2.name = old.name ∧
      (UpdateStatus env st obj).2.2.namespace_ = old.namespace_ ∧
      (UpdateStatus env st obj).2.2.finalizers = old.finalizers ∧
      (UpdateStatus env st obj).2.2.deletionTimestamp = old.deletionTimestamp ∧
      (UpdateStatus env st obj).1.lookupAppIngress (ObjectKeyFromObject obj.toObjectMeta)
          = some (UpdateStatus env st obj).2.2 := by
  simp only [UpdateStatus] at h ⊢
  cases hf : env.faults (Call.updateStatus obj) with
  | some e => simp [hf] at h
  | none =>
    cases hl : st.lookupAppIngress (ObjectKeyFromObject obj.toObjectMeta) with
    | none => simp [hf, hl] at h
    | some old =>
      by_cases hrv : obj.resourceVersion = old.resourceVersion
      · refine ⟨old, rfl, ?_⟩
        simp only [hf, hl, hrv, ne_eq, not_true_eq_false, if_false]
        by_cases hno : ({ old with status := obj.status } : AppIngress) = old
        · simp only [hno, if_true, Store.record_lookupAppIngress, hl, and_true, true_and]
          rw [← hno]
        · simp only [hno, if_false]
          simp only [true_and]
          have hk : ObjectKeyFromObject old.toObjectMeta = ObjectKeyFromObject obj.toObjectMeta :=
            lookupObject_key _ _ _ _ hl
          exact lookupObject_replaceObject_self _ _ _ old _ hl hk
      · simp [hf, hl, hrv] at h

theorem UpdateStatus_other (env : Env) (st : Store) (obj : AppIngress)
    (key2 : NamespacedName) (hne : key2 ≠ ObjectKeyFromObject obj.toObjectMeta) :
    (UpdateStatus env st obj).1.lookupAppIngress key2 = st.lookupAppIngress key2 := by
  simp only [UpdateStatus]
  cases hf : env.faults (Call.updateStatus obj) with
  | some e => rfl
  | none =>
    cases hl : st.lookupAppIngress (ObjectKeyFromObject obj.toObjectMeta) with
    | none => rfl
    | some old =>
      have hk : ObjectKeyFromObject old.toObjectMeta = ObjectKeyFromObject obj.toObjectMeta :=
        lookupObject_key _ _ _ _ hl
      simp only
      repeat' split
      all_goals first
        | rfl
        | exact lookupObject_replaceObject_other _ _ _ _ _ hk hne

/-! ### `GetNamespace` -/

theorem GetNamespace_store (env : Env) (st : Store) (name : String) :
    (GetNamespace env st name).1 =
      st.record (Call.getNamespace name) (GetNamespace env st name).2 := by
  simp only [GetNamespace]
  repeat' split
  all_goals rfl

theorem GetNamespace_found (env : Env) (st : Store) (name : String)
    (hf : env.faults (Call.getNamespace name) = none) (h : name ∈ st.namespaces) :
    (GetNamespace env st name).2 = none := by
  simp only [GetNamespace, hf, h, if_true]

theorem GetNamespace_absent (env : Env) (st : Store) (name : String)
    (hf : env.faults (Call.getNamespace name) = none) (h : name ∉ st.namespaces) :
    (GetNamespace env st name).2 = some (NewNotFound name) := by
  simp only [GetNamespace, hf, h, if_false]

/-! ### Derived Resource calls -/

theorem DeleteIngress_appIngresses (env : Env) (st : Store) (obj : Ingress) :
    (DeleteIngress env st obj).1.appIngresses = st.appIngresses := by
  simp only [DeleteIngress]
  repeat' split
  all_goals rfl

theorem DeleteIngress_namespaces (env : Env) (st : Store) (obj : Ingress) :
    (DeleteIngress env st obj).1.namespaces = st.namespaces := by
  simp only [DeleteIngress]
  repeat' split
  all_goals rfl

theorem DeleteIngress_log (env : Env) (st : Store) (obj : Ingress) :
    (DeleteIngress env st obj).1.log =
      st.log ++ [(Call.deleteIngress (ObjectKeyFromObject obj.toObjectMeta),
        (DeleteIngress env st obj).2)] := by
  simp only [DeleteIngress]
  repeat' split
  all_goals rfl

theorem DeleteIngress_err (env : Env) (st : Store) (obj : Ingress) (e : APIError)
    (h : (DeleteIngress env st obj).2 = some e) :
    (DeleteIngress env st obj).1.ingresses = st.ingresses := by
  simp only [DeleteIngress] at h ⊢
  repeat' split
  all_goals first | rfl | skip
  all_goals simp_all

theorem DeleteIngress_ok (env : Env) (st : Store) (obj : Ingress)
    (h : (DeleteIngress env st obj).2 = none) :
    (DeleteIngress env st obj).1.lookupIngress (ObjectKeyFromObject obj.toObjectMeta) = none := by
  simp only [DeleteIngress] at h ⊢
  cases hf : env.faults (Call.deleteIngress (ObjectKeyFromObject obj.toObjectMeta)) with
  | some e => simp [hf] at h
  | none =>
    cases hl : st.lookupIngress (ObjectKeyFromObject obj.toObjectMeta) with
    | none => simp [hf, hl] at h
    | some old => exact lookupObject_removeObject_self _ _ _

theorem DeleteIngress_succeeds (env : Env) (st : Store) (obj old : Ingress)
    (hf : env.faults (Call.deleteIngress (ObjectKeyFromObject obj.toObjectMeta)) = none)
    (hl : st.lookupIngress (ObjectKeyFromObject obj.toObjectMeta) = some old) :
    (DeleteIngress env st obj).2 = none := by
  simp only [DeleteIngress, hf, hl]

/-- The outcome of a delete depends on the Derived Resources in the store only. -/
theorem DeleteIngress_congr (env : Env) (st1 st2 : Store) (obj : Ingress)
    (h : st1.ingresses = st2.ingresses) :
    (DeleteIngress env st1 obj).2 = (DeleteIngress env st2 obj).2 := by
  simp only [DeleteIngress, Store.lookupIngress, h]
  repeat' split
  all_goals rfl

theorem GetIngress_store (env : Env) (st : Store) (key : NamespacedName) (obj : Ingress) :
    (GetIngress env st key obj).1 =
      st.record (Call.getIngress key) (GetIngress env st key obj).2.1 := by
  simp only [GetIngress]
  repeat' split
  all_goals rfl

theorem GetIngress_ok (env : Env) (st : Store) (key : NamespacedName) (obj : Ingress)
    (h : (GetIngress env st key obj).2.1 = none) :
    st.lookupIngress key = some (GetIngress env st key obj).2.2 := by
  simp only [GetIngress] at h ⊢
  cases hf : env.faults (Call.getIngress key) <;> simp only [hf] at h ⊢
  · cases hl : st.lookupIngress key <;> simp only [hl] at h ⊢
    simp at h
  · simp at h

theorem GetIngress_err (env : Env) (st : Store) (key : NamespacedName) (obj : Ingress)
    (e : APIError) (h : (GetIngress env st key obj).2.1 = some e) :
    (GetIngress env st key obj).2.2 = obj := by
  simp only [GetIngress] at h ⊢
  cases hf : env.faults (Call.getIngress key) <;> simp only [hf] at h ⊢
  cases hl : st.lookupIngress key <;> simp only [hl] at h ⊢
  simp at h

theorem GetIngress_found (env : Env) (st : Store) (key : NamespacedName) (obj d : Ingress)
    (hf : env.faults (Call.getIngress key) = none) (hl : st.lookupIngress key = some d) :
    GetIngress env st key obj = (st.record (Call.getIngress key) none, none, d) := by
  simp only [GetIngress, hf, hl]

theorem GetIngress_absent (env : Env) (st : Store) (key : NamespacedName) (obj : Ingress)
    (hf : env.faults (Call.getIngress key) = none) (hl : st.lookupIngress key = none) :
    GetIngress env st key obj =
      (st.record (Call.getIngress key) (some (NewNotFound key.name)),
        some (NewNotFound key.name), obj) := by
  simp only [GetIngress, hf, hl]

theorem CreateIngress_appIngresses (env : Env) (st : Store) (obj : Ingress) :
    (CreateIngress env st obj).1.appIngresses = st.appIngresses := by
  simp only [CreateIngress]
  repeat' split
  all_goals rfl

theorem CreateIngress_namespaces (env : Env) (st : Store) (obj : Ingress) :
    (CreateIngress env st obj).1.namespaces = st.namespaces := by
  simp only [CreateIngress]
  repeat' split
  all_goals rfl

theorem CreateIngress_err (env : Env) (st : Store) (obj : Ingress) (e : APIError)
    (h : (CreateIngress env st obj).2 = some e) :
    (CreateIngress env st obj).1.ingresses = st.ingresses := by
  simp only [CreateIngress] at h ⊢
  repeat' split
  all_goals first | rfl | skip
  all_goals simp_all

theorem CreateIngress_ok (env : Env) (st : Store) (obj : Ingress)
    (h : (CreateIngress env st obj).2 = none) :
    (CreateIngress env st obj).1.lookupIngress (ObjectKeyFromObject obj.toObjectMeta) =
      some { obj with resourceVersion := 1 } := by
  simp only [CreateIngress] at h ⊢
  cases hf : env.faults (Call.createIngress obj) with
  | some e => simp [hf] at h
  | none =>
    cases hl : st.lookupIngress (ObjectKeyFromObject obj.toObjectMeta) with
    | some old => simp [hf, hl] at h
    | none => exact lookupObject_append_self _ _ _ _ hl rfl

theorem CreateIngress_succeeds (env : Env) (st : Store) (obj : Ingress)
    (hf : env.faults (Call.createIngress obj) = none)
    (hl : st.lookupIngress (ObjectKeyFromObject obj.toObjectMeta) = none) :
    (CreateIngress env st obj).2 = none := by
  simp only [CreateIngress, hf, hl]

theorem UpdateIngress_appIngresses (env : Env) (st : Store) (obj : Ingress) :
    (UpdateIngress env st obj).1.appIngresses = st.appIngresses := by
  simp only [UpdateIngress]
  repeat' split
  all_goals rfl

theorem UpdateIngress_namespaces (env : Env) (st : Store) (obj : Ingress) :
    (UpdateIngress env st obj).1.namespaces = st.namespaces := by
  simp only [UpdateIngress]
  repeat' split
  all_goals rfl

theorem UpdateIngress_err (env : Env) (st : Store) (obj : Ingress) (e : APIError)
    (h : (UpdateIngress env st obj).2 = some e) :
    (UpdateIngress env st obj).1.ingresses = st.ingresses := by
  simp only [UpdateIngress] at h ⊢
  repeat' split
  all_goals first | rfl | skip
  all_goals simp_all

theorem UpdateIngress_ok (env : Env) (st : Store) (obj : Ingress)
    (h : (UpdateIngress env st obj).2 = none) :
    ∃ n, (UpdateIngress env st obj).1.lookupIngress (ObjectKeyFromObject obj.toObjectMeta) =
      some { obj with resourceVersion := n } := by
  simp only [UpdateIngress] at h ⊢
  cases hf : env.faults (Call.updateIngress obj) with
  | some e => simp [hf] at h
  | none =>
    cases hl : st.lookupIngress (ObjectKeyFromObject obj.toObjectMeta) with
    | none => simp [hf, hl] at h
    | some old =>
      by_cases hrv : obj.resourceVersion = old.resourceVersion
      · simp only [hf, hl, hrv, ne_eq, not_true_eq_false, if_false]
        by_cases hno : obj = old
        · subst hno
          refine ⟨obj.resourceVersion, ?_⟩
          simp only [if_true, Store.record_lookupIngress]
          exact hl
        · refine ⟨old.resourceVersion + 1, ?_⟩
          simp only [hno, if_false]
          exact lookupObject_replaceObject_self _ _ _ old _ hl rfl
      · simp [hf, hl, hrv] at h

theorem UpdateIngress_succeeds (env : Env) (st : Store) (obj old : Ingress)
    (hf : env.faults (Call.updateIngress obj) = none)
    (hl : st.lookupIngress (ObjectKeyFromObject obj.toObjectMeta) = some old)
    (hrv : obj.resourceVersion = old.resourceVersion) :
    (UpdateIngress env st obj).2 = none := by
  simp only [UpdateIngress, hf, hl, hrv, ne_eq, not_true_eq_false, if_false]
  repeat' split
  all_goals rfl

/-! ### `CreateOrUpdate` -/

theorem ingressMutateFn_key (a : AppIngress) (o : Ingress) :
    ObjectKeyFromObject (ingressMutateFn a o).toObjectMeta = ObjectKeyFromObject o.toObjectMeta :=
  rfl

theorem mutate_ingressMutateFn (a : AppIngress) (key : NamespacedName) (o : Ingress)
    (hk : ObjectKeyFromObject o.toObjectMeta = key) :
    mutate (ingressMutateFn a) key o = (none, ingressMutateFn a o) := by
  simp only [mutate, ingressMutateFn_key, hk, ne_eq, not_true_eq_false, if_false]

theorem CreateOrUpdate_appIngresses (env : Env) (st : Store) (obj : Ingress)
    (f : Ingress → Ingress) : (CreateOrUpdate env st obj f).1.appIngresses = st.appIngresses := by
  simp only [CreateOrUpdate]
  have hs := GetIngress_store env st (ObjectKeyFromObject obj.toObjectMeta) obj
  rcases hG : GetIngress env st (ObjectKeyFromObject obj.toObjectMeta) obj with ⟨st1, e1, o1⟩
  rw [hG] at hs
  simp only at hs
  subst hs
  cases e1 with
  | some e =>
    simp only
    split
    · rfl
    · rcases hm : mutate f (ObjectKeyFromObject obj.toObjectMeta) o1 with ⟨me, o2⟩
      cases me with
      | some e2 => rfl
      | none => simp only; rw [CreateIngress_appIngresses]; rfl
  | none =>
    simp only
    rcases hm : mutate f (ObjectKeyFromObject obj.toObjectMeta) o1 with ⟨me, o2⟩
    cases me with
    | some e2 => rfl
    | none =>
      simp only
      split
      · rfl
      · rw [UpdateIngress_appIngresses]; rfl

theorem CreateOrUpdate_namespaces (env : Env) (st : Store) (obj : Ingress)
    (f : Ingress → Ingress) : (CreateOrUpdate env st obj f).1.namespaces = st.namespaces := by
  simp only [CreateOrUpdate]
  have hs := GetIngress_store env st (ObjectKeyFromObject obj.toObjectMeta) obj
  rcases hG : GetIngress env st (ObjectKeyFromObject obj.toObjectMeta) obj with ⟨st1, e1, o1⟩
  rw [hG] at hs
  simp only at hs
  subst hs
  cases e1 with
  | some e =>
    simp only
    split
    · rfl
    · rcases hm : mutate f (ObjectKeyFromObject obj.toObjectMeta) o1 with ⟨me, o2⟩
      cases me with
      | some e2 => rfl
      | none => simp only; rw [CreateIngress_namespaces]; rfl
  | none =>
    simp only
    rcases hm : mutate f (ObjectKeyFromObject obj.toObjectMeta) o1 with ⟨me, o2⟩
    cases me with
    | some e2 => rfl
    | none =>
      simp only
      split
      · rfl
      · rw [UpdateIngress_namespaces]; rfl

theorem CreateOrUpdate_err (env : Env) (st : Store) (obj : Ingress)
    (f : Ingress → Ingress) (e : APIError) (h : (CreateOrUpdate env st obj f).2 = some e) :
    (CreateOrUpdate env st obj f).1.ingresses = st.ingresses := by
  simp only [CreateOrUpdate] at h ⊢
  have hs := GetIngress_store env st (ObjectKeyFromObject obj.toObjectMeta) obj
  rcases hG : GetIngress env st (ObjectKeyFromObject obj.toObjectMeta) obj with ⟨st1, e1, o1⟩
  rw [hG] at hs h
  simp only at hs
  subst hs
  cases e1 with
  | some e =>
    simp only at h ⊢
    split
    · rfl
    · rename_i hnf
      simp only [hnf, if_false] at h
      rcases hm : mutate f (ObjectKeyFromObject obj.toObjectMeta) o1 with ⟨me, o2⟩
      rw [hm] at h
      cases me with
      | some e2 => rfl
      | none =>
        simp only at h ⊢
        rw [CreateIngress_err _ _ _ _ h]; rfl
  | none =>
    simp only at h ⊢
    rcases hm : mutate f (ObjectKeyFromObject obj.toObjectMeta) o1 with ⟨me, o2⟩
    rw [hm] at h
    cases me with
    | some e2 => rfl
    | none =>
      simp only at h ⊢
      split
      · rfl
      · rename_i hne
        simp only [hne, if_false] at h
        rw [UpdateIngress_err _ _ _ _ h]; rfl

/-- After a successful create-or-update with the reconciler's mutation, the
store holds the Derived Resource with the template's labels, annotations and
spec. -/
theorem CreateOrUpdate_ok (env : Env) (st : Store) (obj : Ingress) (a : AppIngress)
    (h : (CreateOrUpdate env st obj (ingressMutateFn a)).2 = none) :
    ∃ d, (CreateOrUpdate env st obj (ingressMutateFn a)).1.lookupIngress
          (ObjectKeyFromObject obj.toObjectMeta) = some d ∧
      d.labels = a.spec.template.labels ∧
      d.annotations = a.spec.template.annotations ∧
      d.spec = a.spec.template.spec := by
  simp only [CreateOrUpdate] at h ⊢
  have hs := GetIngress_store env st (ObjectKeyFromObject obj.toObjectMeta) obj
  have hok := GetIngress_ok env st (ObjectKeyFromObject obj.toObjectMeta) obj
  have herr := GetIngress_err env st (ObjectKeyFromObject obj.toObjectMeta) obj
  rcases hG : GetIngress env st (ObjectKeyFromObject obj.toObjectMeta) obj with ⟨st1, e1, o1⟩
  rw [hG] at hs h hok herr
  simp only at hs hok herr
  subst hs
  cases e1 with
  | some e =>
    have ho : o1 = obj := herr e rfl
    subst ho
    simp only at h ⊢
    by_cases hnf : IsNotFound e = true
    · simp only [hnf, Bool.not_true, Bool.false_eq_true, if_false,
        mutate_ingressMutateFn a _ o1 rfl] at h ⊢
      have hc := CreateIngress_ok env _ (ingressMutateFn a o1) h
      exact ⟨_, hc, rfl, rfl, rfl⟩
    · simp [hnf] at h
  | none =>
    have hl := hok rfl
    have hk : ObjectKeyFromObject o1.toObjectMeta = ObjectKeyFromObject obj.toObjectMeta :=
      lookupObject_key _ _ _ _ hl
    simp only [mutate_ingressMutateFn a _ o1 hk] at h ⊢
    by_cases hno : o1 = ingressMutateFn a o1
    · simp only [← hno, if_true, Store.record_lookupIngress]
      refine ⟨o1, hl, ?_, ?_, ?_⟩
      · rw [hno]; rfl
      · rw [hno]; rfl
      · rw [hno]; rfl
    · simp only [hno, if_false] at h ⊢
      obtain ⟨n, hu⟩ := UpdateIngress_ok env _ (ingressMutateFn a o1) h
      rw [ingressMutateFn_key, hk] at hu
      exact ⟨_, hu, rfl, rfl, rfl⟩

/-- Without faults a create-or-update with the reconciler's mutation succeeds. -/
theorem CreateOrUpdate_succeeds (env : Env) (st : Store) (obj : Ingress) (a : AppIngress)
    (hf : ∀ c, env.faults c = none) :
    (CreateOrUpdate env st obj (ingressMutateFn a)).2 = none := by
  simp only [CreateOrUpdate]
  cases hl : st.lookupIngress (ObjectKeyFromObject obj.toObjectMeta) with
  | none =>
    rw [GetIngress_absent env st _ obj (hf _) hl]
    simp only [IsNotFound, NewNotFound, decide_True, Bool.not_true, Bool.false_eq_true, if_false,
      mutate_ingressMutateFn a _ obj rfl]
    exact CreateIngress_succeeds env _ _ (hf _) hl
  | some d =>
    have hk : ObjectKeyFromObject d.toObjectMeta = ObjectKeyFromObject obj.toObjectMeta :=
      lookupObject_key _ _ _ _ hl
    rw [GetIngress_found env st _ obj d (hf _) hl]
    simp only [mutate_ingressMutateFn a _ d hk]
    split
    · rfl
    · refine UpdateIngress_succeeds env _ _ d (hf _) ?_ rfl
      rw [ingressMutateFn_key, hk]
      exact hl

/-- A create-or-update that finds the Derived Resource already equal to the
template issues no write. -/
theorem CreateOrUpdate_noop (env : Env) (st : Store) (obj d : Ingress) (a : AppIngress)
    (hf : env.faults (Call.getIngress (ObjectKeyFromObject obj.toObjectMeta)) = none)
    (hl : st.lookupIngress (ObjectKeyFromObject obj.toObjectMeta) = some d)
    (hfix : ingressMutateFn a d = d) :
    CreateOrUpdate env st obj (ingressMutateFn a) =
      (st.record (Call.getIngress (ObjectKeyFromObject obj.toObjectMeta)) none, none) := by
  have hk : ObjectKeyFromObject d.toObjectMeta = ObjectKeyFromObject obj.toObjectMeta :=
    lookupObject_key _ _ _ _ hl
  simp only [CreateOrUpdate, GetIngress_found env st _ obj d hf hl,
    mutate_ingressMutateFn a _ d hk, hfix, if_true]

theorem GetIngress_congr (env : Env) (st1 st2 : Store) (key : NamespacedName) (obj : Ingress)
    (h : st1.ingresses = st2.ingresses) :
    (GetIngress env st1 key obj).2 = (GetIngress env st2 key obj).2 := by
  simp only [GetIngress, Store.lookupIngress, h]
  repeat' split
  all_goals rfl

theorem CreateIngress_congr (env : Env) (st1 st2 : Store) (obj : Ingress)
    (h : st1.ingresses = st2.ingresses) :
    (CreateIngress env st1 obj).2 = (CreateIngress env st2 obj).2 := by
  simp only [CreateIngress, Store.lookupIngress, h]
  repeat' split
  all_goals rfl

theorem UpdateIngress_congr (env : Env) (st1 st2 : Store) (obj : Ingress)
    (h : st1.ingresses = st2.ingresses) :
    (UpdateIngress env st1 obj).2 = (UpdateIngress env st2 obj).2 := by
  simp only [UpdateIngress, Store.lookupIngress, h]
  repeat' split
  all_goals rfl

/-- The outcome of a create-or-update depends on the Derived Resources in the
store only. -/
theorem CreateOrUpdate_congr (env : Env) (st1 st2 : Store) (obj : Ingress)
    (f : Ingress → Ingress) (h : st1.ingresses = st2.ingresses) :
    (CreateOrUpdate env st1 obj f).2 = (CreateOrUpdate env st2 obj f).2 := by
  simp only [CreateOrUpdate]
  have hs1 := GetIngress_store env st1 (ObjectKeyFromObject obj.toObjectMeta) obj
  have hs2 := GetIngress_store env st2 (ObjectKeyFromObject obj.toObjectMeta) obj
  have hc := GetIngress_congr env st1 st2 (ObjectKeyFromObject obj.toObjectMeta) obj h
  rcases hG1 : GetIngress env st1 (ObjectKeyFromObject obj.toObjectMeta) obj with ⟨a1, e1, o1⟩
  rcases hG2 : GetIngress env st2 (ObjectKeyFromObject obj.toObjectMeta) obj with ⟨a2, e2, o2⟩
  rw [hG1] at hs1 hc
  rw [hG2] at hs2 hc
  simp only [Prod.mk.injEq] at hs1 hs2 hc
  obtain ⟨he, ho⟩ := hc
  subst he ho hs1 hs2
  have hi : (st1.record (Call.getIngress (ObjectKeyFromObject obj.toObjectMeta)) e1).ingresses
      = (st2.record (Call.getIngress (ObjectKeyFromObject obj.toObjectMeta)) e1).ingresses := h
  cases e1 with
  | some e =>
    simp only
    split
    · rfl
    · rcases hm : mutate f (ObjectKeyFromObject obj.toObjectMeta) o1 with ⟨me, o3⟩
      cases me with
      | some e3 => rfl
      | none => exact CreateIngress_congr env _ _ _ hi
  | none =>
    simp only
    rcases hm : mutate f (ObjectKeyFromObject obj.toObjectMeta) o1 with ⟨me, o3⟩
    cases me with
    | some e3 => rfl
    | none =>
      simp only
      split
      · rfl
      · exact UpdateIngress_congr env _ _ _ hi

/-! ### Calls and other identities of the Derived Resource operations -/

theorem lookupObject_append_present {α : Type} (m : α → ObjectMeta) (l : List α)
    (key : NamespacedName) (s d : α) (h : lookupObject m l key = some d) :
    lookupObject m (l ++ [s]) key = some d := by
  unfold lookupObject at *
  rw [List.find?_append, h]
  rfl

theorem lookupObject_replaceObject_present {α : Type} (m : α → ObjectMeta) (l : List α)
    (key key2 : NamespacedName) (s d : α) (hk : ObjectKeyFromObject (m s) = key)
    (h : lookupObject m l key2 = some d) :
    ∃ d2, lookupObject m (replaceObject m l key s) key2 = some d2 := by
  by_cases hne : key2 = key
  · subst hne
    exact ⟨s, lookupObject_replaceObject_self m l key2 d s h hk⟩
  · exact ⟨d, by rw [lookupObject_replaceObject_other m l key key2 s hk hne]; exact h⟩

theorem CreateIngress_log (env : Env) (st : Store) (obj : Ingress) :
    (CreateIngress env st obj).1.log =
      st.log ++ [(Call.createIngress obj, (CreateIngress env st obj).2)] := by
  simp only [CreateIngress]
  repeat' split
  all_goals rfl

theorem UpdateIngress_log (env : Env) (st : Store) (obj : Ingress) :
    (UpdateIngress env st obj).1.log =
      st.log ++ [(Call.updateIngress obj, (UpdateIngress env st obj).2)] := by
  simp only [UpdateIngress]
  repeat' split
  all_goals rfl

theorem CreateIngress_other (env : Env) (st : Store) (obj : Ingress) (key2 : NamespacedName)
    (hne : key2 ≠ ObjectKeyFromObject obj.toObjectMeta) :
    (CreateIngress env st obj).1.lookupIngress key2 = st.lookupIngress key2 := by
  simp only [CreateIngress]
  repeat' split
  all_goals first
    | rfl
    | exact lookupObject_append_other _ _ _ _ _ rfl hne

theorem UpdateIngress_other (env : Env) (st : Store) (obj : Ingress) (key2 : NamespacedName)
    (hne : key2 ≠ ObjectKeyFromObject obj.toObjectMeta) :
    (UpdateIngress env st obj).1.lookupIngress key2 = st.lookupIngress key2 := by
  simp only [UpdateIngress]
  repeat' split
  all_goals first
    | rfl
    | exact lookupObject_replaceObject_other _ _ _ _ _ rfl hne

theorem CreateIngress_present (env : Env) (st : Store) (obj : Ingress) (key2 : NamespacedName)
    (d : Ingress) (h : st.lookupIngress key2 = some d) :
    ∃ d2, (CreateIngress env st obj).1.lookupIngress key2 = some d2 := by
  simp only [CreateIngress]
  repeat' split
  all_goals first
    | exact ⟨d, h⟩
    | exact ⟨d, lookupObject_append_present _ _ _ _ _ h⟩

theorem UpdateIngress_present (env : Env) (st : Store) (obj : Ingress) (key2 : NamespacedName)
    (d : Ingress) (h : st.lookupIngress key2 = some d) :
    ∃ d2, (UpdateIngress env st obj).1.lookupIngress key2 = some d2 := by
  simp only [UpdateIngress]
  repeat' split
  all_goals first
    | exact ⟨d, h⟩
    | exact lookupObject_replaceObject_present _ _ _ _ _ _ rfl h

/-- The calls of a create-or-update with the reconciler's mutation: every call
is a get of the Derived Resource or a create or update of an object with the
identity of `obj`; when it succeeds no call has really failed, and when it
fails its error is the error of a call that really failed. -/
theorem CreateOrUpdate_calls (env : Env) (st : Store) (obj : Ingress) (a : AppIngress) :
    ∃ calls, (CreateOrUpdate env st obj (ingressMutateFn a)).1.log = st.log ++ calls ∧
      (∀ x ∈ calls, (∃ k r, x = (Call.getIngress k, r)) ∨
        (∃ o r, x = (Call.createIngress o, r) ∧
          ObjectKeyFromObject o.toObjectMeta = ObjectKeyFromObject obj.toObjectMeta) ∨
        (∃ o r, x = (Call.updateIngress o, r) ∧
          ObjectKeyFromObject o.toObjectMeta = ObjectKeyFromObject obj.toObjectMeta)) ∧
      ((CreateOrUpdate env st obj (ingressMutateFn a)).2 = none →
        ∀ x ∈ calls, realFailure x = false) ∧
      (∀ e, (CreateOrUpdate env st obj (ingressMutateFn a)).2 = some e →
        ∃ c, (c, some e) ∈ calls ∧ realFailure (c, some e) = true) := by
  simp only [CreateOrUpdate]
  have hs := GetIngress_store env st (ObjectKeyFromObject obj.toObjectMeta) obj
  have hok := GetIngress_ok env st (ObjectKeyFromObject obj.toObjectMeta) obj
  have herr := GetIngress_err env st (ObjectKeyFromObject obj.toObjectMeta) obj
  rcases hG : GetIngress env st (ObjectKeyFromObject obj.toObjectMeta) obj with ⟨st1, e1, o1⟩
  rw [hG] at hs hok herr
  simp only at hs hok herr
  subst hs
  cases e1 with
  | some e =>
    have ho : o1 = obj := herr e rfl
    subst ho
    simp only
    by_cases hnf : IsNotFound e = true
    · simp only [hnf, Bool.not_true, Bool.false_eq_true, if_false,
        mutate_ingressMutateFn a _ o1 rfl]
      refine ⟨[(Call.getIngress (ObjectKeyFromObject o1.toObjectMeta), some e),
        (Call.createIngress (ingressMutateFn a o1),
          (CreateIngress env (st.record (Call.getIngress (ObjectKeyFromObject o1.toObjectMeta))
            (some e)) (ingressMutateFn a o1)).2)], ?_, ?_, ?_, ?_⟩
      · rw [CreateIngress_log]
        simp
      · intro x hx
        simp only [List.mem_cons, List.mem_singleton, List.not_mem_nil, or_false] at hx
        rcases hx with hx | hx
        · exact Or.inl ⟨_, _, hx⟩
        · exact Or.inr (Or.inl ⟨_, _, hx, rfl⟩)
      · intro hr x hx
        simp only [List.mem_cons, List.mem_singleton, List.not_mem_nil, or_false] at hx
        rcases hx with hx | hx
        · subst hx
          simp [realFailure, failed, benignFailure, benignGetIngress, hnf]
        · subst hx
          simp [realFailure, failed, hr]
      · intro e2 hr
        refine ⟨Call.createIngress (ingressMutateFn a o1), ?_, ?_⟩
        · rw [hr]
          simp
        · simp [realFailure, failed, benignFailure, benignGetIngress]
    · have hnf2 : IsNotFound e = false := by simpa using hnf
      simp only [hnf2, Bool.not_false, if_true]
      refine ⟨[(Call.getIngress (ObjectKeyFromObject o1.toObjectMeta), some e)], ?_, ?_, ?_, ?_⟩
      · simp
      · intro x hx
        simp only [List.mem_singleton] at hx
        exact Or.inl ⟨_, _, hx⟩
      · intro hr
        cases hr
      · intro e2 hr
        cases hr
        refine ⟨Call.getIngress (ObjectKeyFromObject o1.toObjectMeta), by simp, ?_⟩
        simp [realFailure, failed, benignFailure, benignGetIngress, hnf2]
  | none =>
    have hl := hok rfl
    have hk : ObjectKeyFromObject o1.toObjectMeta = ObjectKeyFromObject obj.toObjectMeta :=
      lookupObject_key _ _ _ _ hl
    simp only [mutate_ingressMutateFn a _ o1 hk]
    by_cases hno : o1 = ingressMutateFn a o1
    · simp only [← hno, if_true]
      refine ⟨[(Call.getIngress (ObjectKeyFromObject obj.toObjectMeta), none)], ?_, ?_, ?_, ?_⟩
      · simp
      · intro x hx
        simp only [List.mem_singleton] at hx
        exact Or.inl ⟨_, _, hx⟩
      · intro _ x hx
        simp only [List.mem_singleton] at hx
        subst hx
        simp [realFailure, failed]
      · intro e2 hr
        cases hr
    · simp only [hno, if_false]
      refine ⟨[(Call.getIngress (ObjectKeyFromObject obj.toObjectMeta), none),
        (Call.updateIngress (ingressMutateFn a o1),
          (UpdateIngress env (st.record (Call.getIngress (ObjectKeyFromObject obj.toObjectMeta))
            none) (ingressMutateFn a o1)).2)], ?_, ?_, ?_, ?_⟩
      · rw [UpdateIngress_log]
        simp
      · intro x hx
        simp only [List.mem_cons, List.mem_singleton, List.not_mem_nil, or_false] at hx
        rcases hx with hx | hx
        · exact Or.inl ⟨_, _, hx⟩
        · exact Or.inr (Or.inr ⟨_, _, hx, hk⟩)
      · intro hr x hx
        simp only [List.mem_cons, List.mem_singleton, List.not_mem_nil, or_false] at hx
        rcases hx with hx | hx
        · subst hx
          simp [realFailure, failed]
        · subst hx
          simp [realFailure, failed, hr]
      · intro e2 hr
        refine ⟨Call.updateIngress (ingressMutateFn a o1), ?_, ?_⟩
        · rw [hr]
          simp
        · simp [realFailure, failed, benignFailure, benignGetIngress]

/-- A create-or-update leaves the Derived Resources of every other identity
as they were. -/
theorem CreateOrUpdate_other (env : Env) (st : Store) (obj : Ingress) (a : AppIngress)
    (key2 : NamespacedName) (hne : key2 ≠ ObjectKeyFromObject obj.toObjectMeta) :
    (CreateOrUpdate env st obj (ingressMutateFn a)).1.lookupIngress key2 =
      st.lookupIngress key2 := by
  simp only [CreateOrUpdate]
  have hs := GetIngress_store env st (ObjectKeyFromObject obj.toObjectMeta) obj
  have hok := GetIngress_ok env st (ObjectKeyFromObject obj.toObjectMeta) obj
  have herr := GetIngress_err env st (ObjectKeyFromObject obj.toObjectMeta) obj
  rcases hG : GetIngress env st (ObjectKeyFromObject obj.toObjectMeta) obj with ⟨st1, e1, o1⟩
  rw [hG] at hs hok herr
  simp only at hs hok herr
  subst hs
  cases e1 with
  | some e =>
    have ho : o1 = obj := herr e rfl
    subst ho
    simp only
    split
    · rfl
    · simp only [mutate_ingressMutateFn a _ o1 rfl]
      rw [CreateIngress_other env _ (ingressMutateFn a o1) key2 hne]
      rfl
  | none =>
    have hl := hok rfl
    have hk : ObjectKeyFromObject o1.toObjectMeta = ObjectKeyFromObject obj.toObjectMeta :=
      lookupObject_key _ _ _ _ hl
    simp only [mutate_ingressMutateFn a _ o1 hk]
    split
    · rfl
    · rw [UpdateIngress_other env _ (ingressMutateFn a o1) key2
        (by rw [ingressMutateFn_key, hk]; exact hne)]
      rfl

/-- A create-or-update removes no Derived Resource. -/
theorem CreateOrUpdate_present (env : Env) (st : Store) (obj : Ingress) (a : AppIngress)
    (key2 : NamespacedName) (d : Ingress) (h : st.lookupIngress key2 = some d) :
    ∃ d2, (CreateOrUpdate env st obj (ingressMutateFn a)).1.lookupIngress key2 = some d2 := by
  simp only [CreateOrUpdate]
  have hs := GetIngress_store env st (ObjectKeyFromObject obj.toObjectMeta) obj
  have hok := GetIngress_ok env st (ObjectKeyFromObject obj.toObjectMeta) obj
  have herr := GetIngress_err env st (ObjectKeyFromObject obj.toObjectMeta) obj
  rcases hG : GetIngress env st (ObjectKeyFromObject obj.toObjectMeta) obj with ⟨st1, e1, o1⟩
  rw [hG] at hs hok herr
  simp only at hs hok herr
  subst hs
  cases e1 with
  | some e =>
    have ho : o1 = obj := herr e rfl
    subst ho
    simp only
    split
    · exact ⟨d, h⟩
    · simp only [mutate_ingressMutateFn a _ o1 rfl]
      exact CreateIngress_present env _ _ key2 d h
  | none =>
    have hl := hok rfl
    have hk : ObjectKeyFromObject o1.toObjectMeta = ObjectKeyFromObject obj.toObjectMeta :=
      lookupObject_key _ _ _ _ hl
    simp only [mutate_ingressMutateFn a _ o1 hk]
    split
    · exact ⟨d, h⟩
    · exact UpdateIngress_present env _ _ key2 d h

/-! ## Facts about conditions -/

theorem SetStatusCondition_types (l : List Condition) (c : Condition) (now : Time) :
    (SetStatusCondition l c now).map (fun x => x.type) =
      if c.type ∈ l.map (fun x => x.type) then l.map (fun x => x.type)
      else l.map (fun x => x.type) ++ [c.type] := by
  induction l with
  | nil => simp [SetStatusCondition]
  | cons a l ih =>
    by_cases h : a.type = c.type
    · simp [SetStatusCondition, h, mergeCondition]
    · have h2 : ¬ c.type = a.type := fun e => h e.symm
      simp only [SetStatusCondition, h, if_false, List.map_cons, ih, List.mem_cons, h2, false_or]
      split <;> simp

theorem findCondition_SetStatusCondition_other (l : List Condition) (c : Condition) (now : Time)
    (t : String) (h : t ≠ c.type) :
    findCondition (SetStatusCondition l c now) t = findCondition l t := by
  have h3 : ¬ c.type = t := fun e => h e.symm
  induction l with
  | nil => simp [SetStatusCondition, findCondition, h3]
  | cons a l ih =>
    by_cases ha : a.type = c.type
    · have h2 : ¬ a.type = t := by rw [ha]; exact h3
      simp only [SetStatusCondition, if_pos ha, findCondition]
      rw [List.find?_cons_of_neg _ (by simpa [mergeCondition] using h2),
        List.find?_cons_of_neg _ (by simpa using h2)]
    · simp only [SetStatusCondition, if_neg ha]
      by_cases hb : a.type = t
      · simp only [findCondition]
        rw [List.find?_cons_of_pos _ (by simpa using hb),
          List.find?_cons_of_pos _ (by simpa using hb)]
      · simp only [findCondition] at ih ⊢
        rw [List.find?_cons_of_neg _ (by simpa using hb),
          List.find?_cons_of_neg _ (by simpa using hb)]
        exact ih

/-- After setting a condition, the first condition of its type carries the new
status, reason and message; its transition time is the old one when a
condition of the type was there with the same status. -/
theorem findCondition_SetStatusCondition_self (l : List Condition) (c : Condition) (now : Time) :
    ∃ c2, findCondition (SetStatusCondition l c now) c.type = some c2 ∧
      c2.type = c.type ∧ c2.status = c.status ∧ c2.reason = c.reason ∧
      c2.message = c.message ∧ c2.observedGeneration = c.observedGeneration ∧
      (∀ c0, findCondition l c.type = some c0 → c0.status = c.status →
        c2.lastTransitionTime = c0.lastTransitionTime) ∧
      (findCondition l c.type = none → c.lastTransitionTime = 0 →
        c2.lastTransitionTime = now) := by
  induction l with
  | nil =>
    refine ⟨{ c with lastTransitionTime :=
        if c.lastTransitionTime = 0 then now else c.lastTransitionTime }, ?_,
      rfl, rfl, rfl, rfl, rfl, ?_, ?_⟩
    · simp [SetStatusCondition, findCondition]
    · intro c0 h0; simp [findCondition] at h0
    · intro _ h0; simp only [h0, if_true]
  | cons a l ih =>
    by_cases ha : a.type = c.type
    · refine ⟨mergeCondition a c now, ?_, ha, rfl, rfl, rfl, rfl, ?_, ?_⟩
      · simp only [SetStatusCondition, if_pos ha, findCondition]
        exact List.find?_cons_of_pos _ (by simpa [mergeCondition] using ha)
      · intro c0 h0 hs
        simp only [findCondition] at h0
        rw [List.find?_cons_of_pos _ (by simpa using ha)] at h0
        cases h0
        simp [mergeCondition, hs]
      · intro h0
        simp only [findCondition] at h0
        rw [List.find?_cons_of_pos _ (by simpa using ha)] at h0
        cases h0
    · obtain ⟨c2, h1, h2, h3, h4, h5, h6, h7, h8⟩ := ih
      refine ⟨c2, ?_, h2, h3, h4, h5, h6, ?_, ?_⟩
      · simp only [SetStatusCondition, if_neg ha, findCondition] at h1 ⊢
        rw [List.find?_cons_of_neg _ (by simpa using ha)]
        exact h1
      · intro c0 h0 hs
        simp only [findCondition] at h0
        rw [List.find?_cons_of_neg _ (by simpa using ha)] at h0
        exact h7 c0 h0 hs
      · intro h0
        simp only [findCondition] at h0
        rw [List.find?_cons_of_neg _ (by simpa using ha)] at h0
        exact h8 h0

/-- Setting a condition whose status, reason, message and generation are
already those of the first condition of its type changes nothing. -/
theorem SetStatusCondition_same (l : List Condition) (c c0 : Condition) (now : Time)
    (h0 : findCondition l c.type = some c0) (hs : c0.status = c.status)
    (hr : c0.reason = c.reason) (hm : c0.message = c.message)
    (hg : c0.observedGeneration = c.observedGeneration) :
    SetStatusCondition l c now = l := by
  induction l with
  | nil => simp [findCondition] at h0
  | cons a l ih =>
    by_cases ha : a.type = c.type
    · simp only [findCondition] at h0
      rw [List.find?_cons_of_pos _ (by simpa using ha)] at h0
      cases h0
      simp only [SetStatusCondition, if_pos ha, mergeCondition, hs, ne_eq, not_true_eq_false,
        if_false, ← hr, ← hm, ← hg]
      rw [← hs]
    · simp only [findCondition] at h0 ih
      rw [List.find?_cons_of_neg _ (by simpa using ha)] at h0
      simp only [SetStatusCondition, if_neg ha, ih h0]

/-- Setting a condition keeps the transition time of every type whose status
it does not change. -/
theorem SetStatusCondition_keeps_time (l : List Condition) (c : Condition) (now : Time)
    (t : String) (c0 c2 : Condition) (h0 : findCondition l t = some c0)
    (h2 : findCondition (SetStatusCondition l c now) t = some c2)
    (hs : c2.status = c0.status) : c2.lastTransitionTime = c0.lastTransitionTime := by
  by_cases ht : t = c.type
  · subst ht
    obtain ⟨c3, h3, -, h4, -, -, -, h5, -⟩ := findCondition_SetStatusCondition_self l c now
    rw [h2] at h3
    cases h3
    exact h5 c0 h0 (by rw [← hs, h4])
  · rw [findCondition_SetStatusCondition_other l c now t ht, h0] at h2
    cases h2
    rfl

/-- Setting a condition leaves the conditions of every other type as they were. -/
theorem SetStatusCondition_filter_other (l : List Condition) (c : Condition) (now : Time) :
    (SetStatusCondition l c now).filter (fun x => decide (x.type ≠ c.type)) =
      l.filter (fun x => decide (x.type ≠ c.type)) := by
  induction l with
  | nil => simp [SetStatusCondition]
  | cons a l ih =>
    by_cases ha : a.type = c.type
    · simp only [SetStatusCondition, if_pos ha]
      rw [List.filter_cons_of_neg (by simpa [mergeCondition] using ha),
        List.filter_cons_of_neg (by simpa using ha)]
    · simp only [SetStatusCondition, if_neg ha]
      rw [List.filter_cons_of_pos (by simpa using ha),
        List.filter_cons_of_pos (by simpa using ha), ih]

theorem SetStatusCondition_nodup (l : List Condition) (c : Condition) (now : Time)
    (h : (l.map (fun x => x.type)).Nodup) :
    ((SetStatusCondition l c now).map (fun x => x.type)).Nodup := by
  rw [SetStatusCondition_types]
  split
  · exact h
  · rename_i hn
    rw [List.nodup_append]
    refine ⟨h, List.nodup_singleton _, ?_⟩
    intro t ht hs
    rw [List.mem_singleton] at hs
    subst hs
    exact hn ht

theorem SetStatusCondition_types_append (l : List Condition) (c : Condition) (now : Time) :
    ∃ extra, (SetStatusCondition l c now).map (fun x => x.type) =
        l.map (fun x => x.type) ++ extra ∧
      ∀ t ∈ extra, t ∉ l.map (fun x => x.type) := by
  rw [SetStatusCondition_types]
  split
  · exact ⟨[], by simp, by simp⟩
  · rename_i hn
    refine ⟨[c.type], rfl, ?_⟩
    intro t ht
    rw [List.mem_singleton] at ht
    subst ht
    exact hn

/-- Setting two conditions of different types keeps the transition time of
every type whose status is the same afterwards. -/
theorem SetStatusCondition_twice_keeps_time (l : List Condition) (c1 c2 : Condition)
    (n1 n2 : Time) (hne : c1.type ≠ c2.type) (t : String) (c cc : Condition)
    (h0 : findCondition l t = some c)
    (h2 : findCondition (SetStatusCondition (SetStatusCondition l c1 n1) c2 n2) t = some cc)
    (hs : cc.status = c.status) : cc.lastTransitionTime = c.lastTransitionTime := by
  by_cases ht : t = c2.type
  · have ht1 : t ≠ c1.type := by rw [ht]; exact fun h => hne h.symm
    have h1 : findCondition (SetStatusCondition l c1 n1) t = some c := by
      rw [findCondition_SetStatusCondition_other l c1 n1 t ht1, h0]
    exact SetStatusCondition_keeps_time _ c2 n2 t c cc h1 h2 hs
  · rw [findCondition_SetStatusCondition_other _ c2 n2 t ht] at h2
    exact SetStatusCondition_keeps_time l c1 n1 t c cc h0 h2 hs

theorem conditionTypes_ne : ConditionTypeNamespaceValid ≠ ConditionTypeIngressCreated := by
  decide

/-- The conditions a successful pass leaves are left unchanged by the next
successful pass, whatever the clock shows. -/
theorem success_conditions_fixed (l : List Condition) (n1 n2 m1 m2 : Time) :
    SetStatusCondition
      (SetStatusCondition
        (SetStatusCondition (SetStatusCondition l namespaceValidCondition n1)
          ingressCreatedCondition n2)
        namespaceValidCondition m1)
      ingressCreatedCondition m2 =
    SetStatusCondition (SetStatusCondition l namespaceValidCondition n1)
      ingressCreatedCondition n2 := by
  obtain ⟨a, ha, -, ha1, ha2, ha3, ha4, -, -⟩ :=
    findCondition_SetStatusCondition_self l namespaceValidCondition n1
  have ha' : findCondition
      (SetStatusCondition (SetStatusCondition l namespaceValidCondition n1)
        ingressCreatedCondition n2) namespaceValidCondition.type = some a := by
    exact (findCondition_SetStatusCondition_other (SetStatusCondition l namespaceValidCondition n1)
      ingressCreatedCondition n2 namespaceValidCondition.type conditionTypes_ne).trans ha
  rw [SetStatusCondition_same _ namespaceValidCondition a m1 ha' ha1 ha2 ha3 ha4]
  obtain ⟨b, hb, -, hb1, hb2, hb3, hb4, -, -⟩ :=
    findCondition_SetStatusCondition_self (SetStatusCondition l namespaceValidCondition n1)
      ingressCreatedCondition n2
  exact SetStatusCondition_same _ ingressCreatedCondition b m2 hb hb1 hb2 hb3 hb4

/-! ## Steps of `Reconcile` -/

theorem ingressMutateFn_congr (a b : AppIngress) (h : a.spec = b.spec) :
    ingressMutateFn a = ingressMutateFn b := by
  funext o
  simp only [ingressMutateFn, h]

theorem AddFinalizer_key (a : AppIngress) (f : String) :
    ObjectKeyFromObject (AddFinalizer a f).toObjectMeta = ObjectKeyFromObject a.toObjectMeta := by
  unfold AddFinalizer
  split <;> rfl

theorem AddFinalizer_resourceVersion (a : AppIngress) (f : String) :
    (AddFinalizer a f).resourceVersion = a.resourceVersion := by
  unfold AddFinalizer
  split <;> rfl

theorem AddFinalizer_spec (a : AppIngress) (f : String) : (AddFinalizer a f).spec = a.spec := by
  unfold AddFinalizer
  split <;> rfl

theorem AddFinalizer_deletionTimestamp (a : AppIngress) (f : String) :
    (AddFinalizer a f).deletionTimestamp = a.deletionTimestamp := by
  unfold AddFinalizer
  split <;> rfl

theorem AddFinalizer_mem (a : AppIngress) (f : String) : f ∈ (AddFinalizer a f).finalizers := by
  unfold AddFinalizer
  split
  · assumption
  · simp

/-- The finalizer step of `Reconcile` on a stored object that is not being
deleted: either it fails and leaves the Source Resources alone, or the
in-memory object it continues with is the stored one, with the finalizer. -/
theorem ensureFinalizer_step (env : Env) (st : Store) (req : NamespacedName) (src : AppIngress)
    (hl : st.lookupAppIngress req = some src)
    (hz : IsZero src.deletionTimestamp = true) :
    ∃ st2 e2 a2,
      (if (!ContainsFinalizer src finalizerName) = true then
          UpdateAppIngress env st (AddFinalizer src finalizerName)
        else (st, none, src)) = (st2, e2, a2) ∧
      st2.ingresses = st.ingresses ∧ st2.namespaces = st.namespaces ∧
      (∀ key2, key2 ≠ req → st2.lookupAppIngress key2 = st.lookupAppIngress key2) ∧
      (∀ e, e2 = some e → st2.appIngresses = st.appIngresses) ∧
      ((∀ o, env.faults (Call.updateAppIngress o) = none) → e2 = none) ∧
      (e2 = none →
        st2.lookupAppIngress req = some a2 ∧ ObjectKeyFromObject a2.toObjectMeta = req ∧
        a2.status = src.status ∧ a2.spec = src.spec ∧
        a2.finalizers = (AddFinalizer src finalizerName).finalizers ∧
        a2.deletionTimestamp = src.deletionTimestamp) := by
  have hk : ObjectKeyFromObject src.toObjectMeta = req := lookupObject_key _ _ _ _ hl
  by_cases hc : ContainsFinalizer src finalizerName = true
  · refine ⟨st, none, src, by simp [hc], rfl, rfl, fun _ _ => rfl, fun e he => by simp at he,
      fun _ => rfl, fun _ => ⟨hl, hk, rfl, rfl, ?_, rfl⟩⟩
    have : finalizerName ∈ src.finalizers := by simpa [ContainsFinalizer] using hc
    simp [AddFinalizer, this]
  · have hk2 : ObjectKeyFromObject (AddFinalizer src finalizerName).toObjectMeta = req := by
      rw [AddFinalizer_key, hk]
    have hok := UpdateAppIngress_ok env st (AddFinalizer src finalizerName)
    have hkept := UpdateAppIngress_kept env st (AddFinalizer src finalizerName)
    have herr := UpdateAppIngress_err env st (AddFinalizer src finalizerName)
    have hi := UpdateAppIngress_ingresses env st (AddFinalizer src finalizerName)
    have hn := UpdateAppIngress_namespaces env st (AddFinalizer src finalizerName)
    have hoth := UpdateAppIngress_other env st (AddFinalizer src finalizerName)
    have hsuc := UpdateAppIngress_succeeds env st (AddFinalizer src finalizerName) src
    rw [hk2] at hok hkept hoth hsuc
    rcases hU : UpdateAppIngress env st (AddFinalizer src finalizerName) with ⟨st2, e2, a2⟩
    rw [hU] at hok hkept herr hi hn hoth hsuc
    simp only at hok hkept herr hi hn hoth hsuc
    refine ⟨st2, e2, a2, by simp [hc], hi, hn, hoth, herr, ?_, ?_⟩
    · intro hf
      exact hsuc (hf _) hl (AddFinalizer_resourceVersion _ _)
    · intro he
      obtain ⟨old, ho, h1, h2, h3, h4, h5, h6, _⟩ := hok he
      rw [hl] at ho
      cases ho
      have hl2 := hkept he (Or.inl (by rw [AddFinalizer_deletionTimestamp]; exact hz))
      refine ⟨hl2, lookupObject_key _ _ _ _ hl2, h1, ?_, h5, ?_⟩
      · rw [h2, AddFinalizer_spec]
      · rw [h6, AddFinalizer_deletionTimestamp]

theorem setCondition_spec (a : AppIngress) (c : Condition) (now : Time) :
    (setCondition a c now).spec = a.spec := rfl

theorem setCondition_key (a : AppIngress) (c : Condition) (now : Time) :
    ObjectKeyFromObject (setCondition a c now).toObjectMeta = ObjectKeyFromObject a.toObjectMeta :=
  rfl

/-- The outcome of a successful pass: no store call is failed from outside, the
object is not being deleted and its target namespace exists. -/
theorem Reconcile_success (env : Env) (st : Store) (req : NamespacedName) (src : AppIngress)
    (hf : ∀ c, env.faults c = none)
    (hl : st.lookupAppIngress req = some src)
    (hz : IsZero src.deletionTimestamp = true)
    (hns : src.spec.targetNamespace ∈ st.namespaces) :
    (Reconcile env st req).2 = none ∧
    (Reconcile env st req).1.namespaces = st.namespaces ∧
    (∃ src2, (Reconcile env st req).1.lookupAppIngress req = some src2 ∧
      src2.spec = src.spec ∧
      src2.finalizers = (AddFinalizer src finalizerName).finalizers ∧
      src2.deletionTimestamp = src.deletionTimestamp ∧
      src2.status.conditions =
        SetStatusCondition
          (SetStatusCondition src.status.conditions namespaceValidCondition
            env.nowNamespaceValid)
          ingressCreatedCondition env.nowIngressCreated) ∧
    (∃ d, (Reconcile env st req).1.lookupIngress (derivedKey src) = some d ∧
      d.labels = src.spec.template.labels ∧
      d.annotations = src.spec.template.annotations ∧
      d.spec = src.spec.template.spec) ∧
    (∀ d, st.lookupIngress (derivedKey src) = some d → ingressMutateFn src d = d →
      (Reconcile env st req).1.ingresses = st.ingresses) := by
  suffices h : ∃ stF, Reconcile env st req = (stF, none) ∧
      stF.namespaces = st.namespaces ∧
      (∃ src2, stF.lookupAppIngress req = some src2 ∧
        src2.spec = src.spec ∧
        src2.finalizers = (AddFinalizer src finalizerName).finalizers ∧
        src2.deletionTimestamp = src.deletionTimestamp ∧
        src2.status.conditions =
          SetStatusCondition
            (SetStatusCondition src.status.conditions namespaceValidCondition
              env.nowNamespaceValid)
            ingressCreatedCondition env.nowIngressCreated) ∧
      (∃ d, stF.lookupIngress (derivedKey src) = some d ∧
        d.labels = src.spec.template.labels ∧
        d.annotations = src.spec.template.annotations ∧
        d.spec = src.spec.template.spec) ∧
      (∀ d, st.lookupIngress (derivedKey src) = some d → ingressMutateFn src d = d →
        stF.ingresses = st.ingresses) by
    obtain ⟨stF, hR, h1, h2, h3, h4⟩ := h
    rw [hR]
    exact ⟨rfl, h1, h2, h3, h4⟩
  obtain ⟨st2, e2, a2, hstep, hi2, hn2, -, -, hsuc2, hok2⟩ :=
    ensureFinalizer_step env (st.record (Call.getAppIngress req) none) req src hl hz
  have he2 : e2 = none := hsuc2 (fun o => hf _)
  subst he2
  obtain ⟨hl2, hk2, hst2, hsp2, hfin2, hdt2⟩ := hok2 rfl
  simp only [Reconcile, GetAppIngress_found env st req {} src (hf _) hl, hz, Bool.not_true,
    Bool.false_eq_true, if_false, hstep]
  -- namespace lookup
  have hN := GetNamespace_store env st2 a2.spec.targetNamespace
  have hNf := GetNamespace_found env st2 a2.spec.targetNamespace (hf _)
    (by rw [hn2, hsp2]; exact hns)
  rcases hG : GetNamespace env st2 a2.spec.targetNamespace with ⟨st3, e3⟩
  rw [hG] at hN hNf
  simp only at hN hNf
  subst hNf
  subst hN
  simp only [setCondition_spec, ingressMutateFn_congr _ _ (setCondition_spec a2 _ _),
    ingressMutateFn_congr _ _ hsp2, hsp2]
  -- create or update
  have hCs := CreateOrUpdate_succeeds env (st2.record (Call.getNamespace src.spec.targetNamespace) none)
    { name := src.spec.template.name, namespace_ := src.spec.targetNamespace } src hf
  have hCok := CreateOrUpdate_ok env (st2.record (Call.getNamespace src.spec.targetNamespace) none)
    { name := src.spec.template.name, namespace_ := src.spec.targetNamespace } src
  have hCa := CreateOrUpdate_appIngresses env
    (st2.record (Call.getNamespace src.spec.targetNamespace) none)
    { name := src.spec.template.name, namespace_ := src.spec.targetNamespace } (ingressMutateFn src)
  have hCn := CreateOrUpdate_namespaces env
    (st2.record (Call.getNamespace src.spec.targetNamespace) none)
    { name := src.spec.template.name, namespace_ := src.spec.targetNamespace } (ingressMutateFn src)
  rcases hC : CreateOrUpdate env (st2.record (Call.getNamespace src.spec.targetNamespace) none)
    { name := src.spec.template.name, namespace_ := src.spec.targetNamespace }
    (ingressMutateFn src) with ⟨st4, e4⟩
  rw [hC] at hCs hCok hCa hCn
  simp only at hCs hCok hCa hCn
  subst hCs
  simp only
  -- status report
  generalize hobj : setCondition (setCondition a2 _ _) _ _ = obj
  have hkobj : ObjectKeyFromObject obj.toObjectMeta = req := by rw [← hobj]; exact hk2
  have hl4 : st4.lookupAppIngress (ObjectKeyFromObject obj.toObjectMeta) = some a2 := by
    rw [hkobj]
    unfold Store.lookupAppIngress at hl2 ⊢
    rw [hCa]
    exact hl2
  have hrv : obj.resourceVersion = a2.resourceVersion := by rw [← hobj]; rfl
  have hUs := UpdateStatus_succeeds env st4 obj a2 (hf _) hl4 hrv
  have hUok := UpdateStatus_ok env st4 obj
  have hUi := UpdateStatus_ingresses env st4 obj
  have hUn := UpdateStatus_namespaces env st4 obj
  rcases hU : UpdateStatus env st4 obj with ⟨st5, e5, a5⟩
  rw [hU] at hUs hUok hUi hUn
  simp only at hUs hUok hUi hUn
  subst hUs
  obtain ⟨old, ho, h1, h2, h3, h4, h5, h6, h7⟩ := hUok rfl
  rw [hl4] at ho
  cases ho
  rw [hkobj] at h7
  obtain ⟨d, hd, hd1, hd2, hd3⟩ := hCok rfl
  refine ⟨st5, rfl, ?_, ⟨a5, h7, ?_, ?_, ?_, ?_⟩, ⟨d, ?_, hd1, hd2, hd3⟩, ?_⟩
  · rw [hUn, hCn]; exact hn2
  · rw [h2, hsp2]
  · rw [h5, hfin2]
  · rw [h6, hdt2]
  · rw [h1, ← hobj, ← hst2]
    rfl
  · unfold Store.lookupIngress at hd ⊢
    rw [hUi]
    exact hd
  · intro d0 hd0 hfix
    have hno := CreateOrUpdate_noop env (st2.record (Call.getNamespace src.spec.targetNamespace) none)
      { name := src.spec.template.name, namespace_ := src.spec.targetNamespace } d0 src (hf _)
      (by
        unfold Store.lookupIngress at hd0 ⊢
        rw [Store.record_ingresses, hi2]
        exact hd0) hfix
    rw [hC] at hno
    rw [hUi]
    have := congrArg (fun r => r.1.ingresses) hno
    simp only [Store.record_ingresses] at this
    rw [this, hi2]
    rfl

theorem RemoveFinalizer_key (a : AppIngress) (f : String) :
    ObjectKeyFromObject (RemoveFinalizer a f).toObjectMeta = ObjectKeyFromObject a.toObjectMeta :=
  rfl

theorem lookupAppIngress_congr (st1 st2 : Store) (key : NamespacedName)
    (h : st1.appIngresses = st2.appIngresses) :
    st1.lookupAppIngress key = st2.lookupAppIngress key := by
  unfold Store.lookupAppIngress
  rw [h]

theorem lookupIngress_congr (st1 st2 : Store) (key : NamespacedName)
    (h : st1.ingresses = st2.ingresses) :
    st1.lookupIngress key = st2.lookupIngress key := by
  unfold Store.lookupIngress
  rw [h]

/-- The status persist at the end of `Reconcile`: the stored object afterwards
has either the status it had or the status that was sent. -/
theorem statusUpdate_step (env : Env) (st : Store) (req : NamespacedName) (a obj src2 : AppIngress)
    (hl : st.lookupAppIngress req = some a)
    (hk : ObjectKeyFromObject obj.toObjectMeta = req)
    (hl2 : (UpdateStatus env st obj).1.lookupAppIngress req = some src2) :
    (src2.status = a.status ∧ (UpdateStatus env st obj).2.1 ≠ none
      ∨ src2.status = obj.status ∧ (UpdateStatus env st obj).2.1 = none) ∧
    src2.spec = a.spec ∧ src2.finalizers = a.finalizers := by
  cases he : (UpdateStatus env st obj).2.1 with
  | some e =>
    have := UpdateStatus_err env st obj e he
    rw [lookupAppIngress_congr _ _ req this, hl] at hl2
    cases hl2
    exact ⟨Or.inl ⟨rfl, by simp⟩, rfl, rfl⟩
  | none =>
    obtain ⟨old, ho, h1, h2, h3, h4, h5, h6, h7⟩ := UpdateStatus_ok env st obj he
    rw [hk] at ho h7
    rw [hl] at ho
    cases ho
    rw [h7] at hl2
    cases hl2
    exact ⟨Or.inr ⟨h1, rfl⟩, h2, h5⟩

/-- The conditions `Reconcile` leaves on a stored Source Resource: those it
had, or those with NamespaceValid set, or those with NamespaceValid and then
IngressCreated set. -/
theorem Reconcile_conditions (env : Env) (st : Store) (req : NamespacedName)
    (src src2 : AppIngress)
    (hl : st.lookupAppIngress req = some src)
    (hl2 : (Reconcile env st req).1.lookupAppIngress req = some src2) :
    src2.status.conditions = src.status.conditions ∨
    (∃ c, c.type = ConditionTypeNamespaceValid ∧
      src2.status.conditions =
        SetStatusCondition src.status.conditions c env.nowNamespaceValid) ∨
    (∃ c1 c2, c1.type = ConditionTypeNamespaceValid ∧ c2.type = ConditionTypeIngressCreated ∧
      src2.status.conditions =
        SetStatusCondition (SetStatusCondition src.status.conditions c1 env.nowNamespaceValid)
          c2 env.nowIngressCreated) := by
  simp only [Reconcile] at hl2
  have hs := GetAppIngress_store env st req {}
  have hok := GetAppIngress_ok env st req {}
  rcases hG : GetAppIngress env st req {} with ⟨st1, e1, a⟩
  rw [hG] at hs hok hl2
  simp only at hs hok hl2
  subst hs
  cases e1 with
  | some e =>
    simp only at hl2
    split at hl2 <;>
    · rw [Store.record_lookupAppIngress, hl] at hl2
      cases hl2
      exact Or.inl rfl
  | none =>
    have ha := hok rfl
    rw [hl] at ha
    cases ha
    simp only at hl2
    by_cases hz : IsZero src.deletionTimestamp = true
    · simp only [hz, Bool.not_true, Bool.false_eq_true, if_false] at hl2
      obtain ⟨st2, e2, a2, hstep, -, -, -, herr2, -, hok2⟩ :=
        ensureFinalizer_step env (st.record (Call.getAppIngress req) none) req src hl hz
      rw [hstep] at hl2
      cases e2 with
      | some e =>
        simp only at hl2
        rw [lookupAppIngress_congr _ _ req (herr2 e rfl), Store.record_lookupAppIngress, hl] at hl2
        cases hl2
        exact Or.inl rfl
      | none =>
        obtain ⟨hl3, hk3, hst3, -, -, -⟩ := hok2 rfl
        simp only at hl2
        have hN := GetNamespace_store env st2 a2.spec.targetNamespace
        rcases hGN : GetNamespace env st2 a2.spec.targetNamespace with ⟨st3, e3⟩
        rw [hGN] at hN hl2
        simp only at hN
        subst hN
        cases e3 with
        | some e =>
          simp only at hl2
          split at hl2
          · -- namespace missing: status persist
            generalize hobj : setCondition a2 _ _ = obj at hl2
            have hl4 : (UpdateStatus env (st2.record (Call.getNamespace a2.spec.targetNamespace)
                (some e)) obj).1.lookupAppIngress req = some src2 := by
              rcases hU : UpdateStatus env (st2.record (Call.getNamespace a2.spec.targetNamespace)
                (some e)) obj with ⟨st4, e4, a4⟩
              rw [hU] at hl2
              cases e4 <;> exact hl2
            obtain ⟨h1, -, -⟩ := statusUpdate_step env
              (st2.record (Call.getNamespace a2.spec.targetNamespace) (some e)) req a2 obj src2 hl3
              (by rw [← hobj]; exact hk3) hl4
            rcases h1 with ⟨h1, -⟩ | ⟨h1, -⟩
            · exact Or.inl (by rw [h1, hst3])
            · refine Or.inr (Or.inl ⟨namespaceNotFoundCondition, rfl, ?_⟩)
              rw [h1, ← hobj, ← hst3]
              rfl
          · rw [Store.record_lookupAppIngress, hl3] at hl2
            cases hl2
            exact Or.inl (by rw [hst3])
        | none =>
          simp only at hl2
          generalize hing : Ingress.mk _ _ = ing at hl2
          generalize hfn : ingressMutateFn _ = f at hl2
          have hCa := CreateOrUpdate_appIngresses env
            (st2.record (Call.getNamespace a2.spec.targetNamespace) none) ing f
          rcases hC : CreateOrUpdate env
            (st2.record (Call.getNamespace a2.spec.targetNamespace) none) ing f with ⟨st4, e4⟩
          rw [hC] at hCa hl2
          simp only at hCa
          have hl5 : st4.lookupAppIngress req = some a2 := by
            rw [lookupAppIngress_congr _ _ req hCa, Store.record_lookupAppIngress, hl3]
          cases e4 with
          | some e =>
            simp only at hl2
            generalize hobj : setCondition (setCondition a2 _ _) _ _ = obj at hl2
            have hl4 : (UpdateStatus env st4 obj).1.lookupAppIngress req = some src2 := by
              rcases hU : UpdateStatus env st4 obj with ⟨st5, e5, a5⟩
              rw [hU] at hl2
              cases e5 <;> exact hl2
            obtain ⟨h1, -, -⟩ := statusUpdate_step env _ req a2 obj src2 hl5
              (by rw [← hobj]; exact hk3) hl4
            rcases h1 with ⟨h1, -⟩ | ⟨h1, -⟩
            · exact Or.inl (by rw [h1, hst3])
            · refine Or.inr (Or.inr ⟨namespaceValidCondition, ingressErrorCondition e, rfl, rfl, ?_⟩)
              rw [h1, ← hobj, ← hst3]
              rfl
          | none =>
            simp only at hl2
            generalize hobj : setCondition (setCondition a2 _ _) _ _ = obj at hl2
            have hl4 : (UpdateStatus env st4 obj).1.lookupAppIngress req = some src2 := by
              rcases hU : UpdateStatus env st4 obj with ⟨st5, e5, a5⟩
              rw [hU] at hl2
              cases e5 <;> exact hl2
            obtain ⟨h1, -, -⟩ := statusUpdate_step env _ req a2 obj src2 hl5
              (by rw [← hobj]; exact hk3) hl4
            rcases h1 with ⟨h1, -⟩ | ⟨h1, -⟩
            · exact Or.inl (by rw [h1, hst3])
            · refine Or.inr (Or.inr ⟨namespaceValidCondition, ingressCreatedCondition, rfl, rfl, ?_⟩)
              rw [h1, ← hobj, ← hst3]
              rfl
    · have hk : ObjectKeyFromObject src.toObjectMeta = req := lookupObject_key _ _ _ _ hl
      simp only [hz, Bool.not_false, if_true] at hl2
      split at hl2
      · generalize hing : Ingress.mk _ _ = ing at hl2
        have hDa := DeleteIngress_appIngresses env (st.record (Call.getAppIngress req) none) ing
        rcases hD : DeleteIngress env (st.record (Call.getAppIngress req) none) ing with ⟨st2, derr⟩
        rw [hD] at hDa hl2
        simp only at hDa hl2
        have hl3 : st2.lookupAppIngress req = some src := by
          rw [lookupAppIngress_congr _ _ req hDa, Store.record_lookupAppIngress, hl]
        split at hl2
        · rw [hl3] at hl2
          cases hl2
          exact Or.inl rfl
        · have herr := UpdateAppIngress_err env st2 (RemoveFinalizer src finalizerName)
          have hok3 := UpdateAppIngress_ok env st2 (RemoveFinalizer src finalizerName)
          rcases hU : UpdateAppIngress env st2 (RemoveFinalizer src finalizerName)
            with ⟨st3, e3, a3⟩
          rw [hU] at herr hok3 hl2
          simp only at herr hok3
          cases e3 with
          | some e =>
            simp only at hl2
            rw [lookupAppIngress_congr _ _ req (herr e rfl), hl3] at hl2
            cases hl2
            exact Or.inl rfl
          | none =>
            simp only at hl2
            obtain ⟨old, ho, h1, -, -, -, -, -, h7⟩ := hok3 rfl
            rw [RemoveFinalizer_key, hk] at ho h7
            rw [hl3] at ho
            cases ho
            rw [hl2] at h7
            rcases h7 with h7 | h7
            · cases h7
              exact Or.inl (by rw [h1])
            · cases h7
      · rw [Store.record_lookupAppIngress, hl] at hl2
        cases hl2
        exact Or.inl rfl

/-! ### The deletion branch -/

theorem ingressFor_key (a : AppIngress) :
    ObjectKeyFromObject (ingressFor a).toObjectMeta = derivedKey a := rfl

/-- On the deletion branch, a delete error other than "not found" ends the
invocation with that error. -/
theorem Reconcile_delete_blocked (env : Env) (st : Store) (req : NamespacedName)
    (src : AppIngress) (e : APIError)
    (hget : env.faults (Call.getAppIngress req) = none)
    (hl : st.lookupAppIngress req = some src)
    (hz : IsZero src.deletionTimestamp = false)
    (hc : ContainsFinalizer src finalizerName = true)
    (hd : (DeleteIngress env (st.record (Call.getAppIngress req) none) (ingressFor src)).2 = some e)
    (hnf : IsNotFound e = false) :
    Reconcile env st req =
      ((DeleteIngress env (st.record (Call.getAppIngress req) none) (ingressFor src)).1, some e) := by
  simp only [Reconcile, GetAppIngress_found env st req {} src hget hl, hz, hc, Bool.not_false,
    if_true]
  unfold ingressFor at hd ⊢
  simp [hd, Option.filter, hnf]

/-- On the deletion branch, a delete that succeeds or reports "not found" is
followed by the update that removes the finalizer, whose outcome is returned. -/
theorem Reconcile_delete_proceeds (env : Env) (st : Store) (req : NamespacedName)
    (src : AppIngress)
    (hget : env.faults (Call.getAppIngress req) = none)
    (hl : st.lookupAppIngress req = some src)
    (hz : IsZero src.deletionTimestamp = false)
    (hc : ContainsFinalizer src finalizerName = true)
    (hd : ∀ e,
      (DeleteIngress env (st.record (Call.getAppIngress req) none) (ingressFor src)).2 = some e →
      IsNotFound e = true) :
    Reconcile env st req =
      ((UpdateAppIngress env
          (DeleteIngress env (st.record (Call.getAppIngress req) none) (ingressFor src)).1
          (RemoveFinalizer src finalizerName)).1,
        (UpdateAppIngress env
          (DeleteIngress env (st.record (Call.getAppIngress req) none) (ingressFor src)).1
          (RemoveFinalizer src finalizerName)).2.1) := by
  simp only [Reconcile, GetAppIngress_found env st req {} src hget hl, hz, hc, Bool.not_false,
    if_true]
  unfold ingressFor at hd ⊢
  generalize DeleteIngress env (st.record (Call.getAppIngress req) none) _ = D at hd ⊢
  rcases D with ⟨st2, derr⟩
  simp only at hd ⊢
  have hfl : derr.filter (fun err => !IsNotFound err) = none := by
    cases derr with
    | none => rfl
    | some e => simp [Option.filter, hd e rfl]
  simp only [hfl]
  rcases hU : UpdateAppIngress env st2 (RemoveFinalizer src finalizerName) with ⟨st3, e3, a3⟩
  cases e3 <;> rfl

theorem RemoveFinalizer_not_mem (a : AppIngress) (f : String) :
    f ∉ (RemoveFinalizer a f).finalizers := by
  simp [RemoveFinalizer]

theorem RemoveFinalizer_ne (a : AppIngress) (f : String) (h : ContainsFinalizer a f = true) :
    (RemoveFinalizer a f).finalizers ≠ a.finalizers := by
  intro hc
  have h1 : f ∈ a.finalizers := by simpa [ContainsFinalizer] using h
  rw [← hc] at h1
  exact RemoveFinalizer_not_mem a f h1

/-! ### The namespace-missing branch -/

theorem IsNotFound_NewNotFound (name : String) : IsNotFound (NewNotFound name) = true := by
  simp [IsNotFound, NewNotFound]

/-- The outcome of a pass that finds the target namespace missing, when no
store call is failed from outside and the object is not being deleted. -/
theorem Reconcile_namespace_missing (env : Env) (st : Store) (req : NamespacedName)
    (src : AppIngress)
    (hf : ∀ c, env.faults c = none)
    (hl : st.lookupAppIngress req = some src)
    (hz : IsZero src.deletionTimestamp = true)
    (hns : src.spec.targetNamespace ∉ st.namespaces) :
    (Reconcile env st req).2 = none ∧
    (Reconcile env st req).1.ingresses = st.ingresses ∧
    (Reconcile env st req).1.namespaces = st.namespaces ∧
    (∃ src2, (Reconcile env st req).1.lookupAppIngress req = some src2 ∧
      src2.spec = src.spec ∧
      src2.finalizers = (AddFinalizer src finalizerName).finalizers ∧
      src2.deletionTimestamp = src.deletionTimestamp ∧
      src2.status.conditions =
        SetStatusCondition src.status.conditions namespaceNotFoundCondition
          env.nowNamespaceValid) := by
  suffices h : ∃ stF, Reconcile env st req = (stF, none) ∧
      stF.ingresses = st.ingresses ∧ stF.namespaces = st.namespaces ∧
      (∃ src2, stF.lookupAppIngress req = some src2 ∧
        src2.spec = src.spec ∧
        src2.finalizers = (AddFinalizer src finalizerName).finalizers ∧
        src2.deletionTimestamp = src.deletionTimestamp ∧
        src2.status.conditions =
          SetStatusCondition src.status.conditions namespaceNotFoundCondition
            env.nowNamespaceValid) by
    obtain ⟨stF, hR, h1, h2, h3⟩ := h
    rw [hR]
    exact ⟨rfl, h1, h2, h3⟩
  obtain ⟨st2, e2, a2, hstep, hi2, hn2, -, -, hsuc2, hok2⟩ :=
    ensureFinalizer_step env (st.record (Call.getAppIngress req) none) req src hl hz
  have he2 : e2 = none := hsuc2 (fun o => hf _)
  subst he2
  obtain ⟨hl2, hk2, hst2, hsp2, hfin2, hdt2⟩ := hok2 rfl
  simp only [Reconcile, GetAppIngress_found env st req {} src (hf _) hl, hz, Bool.not_true,
    Bool.false_eq_true, if_false, hstep]
  have hN := GetNamespace_store env st2 a2.spec.targetNamespace
  have hNf := GetNamespace_absent env st2 a2.spec.targetNamespace (hf _)
    (by rw [hn2, hsp2]; exact hns)
  rcases hG : GetNamespace env st2 a2.spec.targetNamespace with ⟨st3, e3⟩
  rw [hG] at hN hNf
  simp only at hN hNf
  subst hNf
  subst hN
  simp only [IsNotFound_NewNotFound, if_true]
  generalize hobj : setCondition a2 _ _ = obj
  have hkobj : ObjectKeyFromObject obj.toObjectMeta = req := by rw [← hobj]; exact hk2
  have hl4 : (st2.record (Call.getNamespace a2.spec.targetNamespace)
      (some (NewNotFound a2.spec.targetNamespace))).lookupAppIngress
      (ObjectKeyFromObject obj.toObjectMeta) = some a2 := by
    rw [hkobj, Store.record_lookupAppIngress]
    exact hl2
  have hrv : obj.resourceVersion = a2.resourceVersion := by rw [← hobj]; rfl
  have hUs := UpdateStatus_succeeds env _ obj a2 (hf _) hl4 hrv
  have hUok := UpdateStatus_ok env (st2.record (Call.getNamespace a2.spec.targetNamespace)
      (some (NewNotFound a2.spec.targetNamespace))) obj
  have hUi := UpdateStatus_ingresses env (st2.record (Call.getNamespace a2.spec.targetNamespace)
      (some (NewNotFound a2.spec.targetNamespace))) obj
  have hUn := UpdateStatus_namespaces env (st2.record (Call.getNamespace a2.spec.targetNamespace)
      (some (NewNotFound a2.spec.targetNamespace))) obj
  rcases hU : UpdateStatus env (st2.record (Call.getNamespace a2.spec.targetNamespace)
      (some (NewNotFound a2.spec.targetNamespace))) obj with ⟨st5, e5, a5⟩
  rw [hU] at hUs hUok hUi hUn
  simp only at hUs hUok hUi hUn
  subst hUs
  obtain ⟨old, ho, h1, h2, h3, h4, h5, h6, h7⟩ := hUok rfl
  rw [hl4] at ho
  cases ho
  rw [hkobj] at h7
  refine ⟨st5, rfl, ?_, ?_, ⟨a5, h7, ?_, ?_, ?_, ?_⟩⟩
  · rw [hUi]; exact hi2
  · rw [hUn]; exact hn2
  · rw [h2, hsp2]
  · rw [h5, hfin2]
  · rw [h6, hdt2]
  · rw [h1, ← hobj, ← hst2]
    rfl

/-! ### The convergence-failure branch -/

theorem UpdateStatus_result (env : Env) (st : Store) (obj old : AppIngress)
    (hl : st.lookupAppIngress (ObjectKeyFromObject obj.toObjectMeta) = some old)
    (hrv : obj.resourceVersion = old.resourceVersion) :
    (UpdateStatus env st obj).2.1 = env.faults (Call.updateStatus obj) := by
  cases hf : env.faults (Call.updateStatus obj) with
  | some e => simp only [UpdateStatus, hf]
  | none => exact UpdateStatus_succeeds env st obj old hf hl hrv

/-- The outcome of a pass whose create-or-update fails with `e`: the status
with IngressCreated=False is sent to the store, and the invocation returns the
error of that persist when it fails and `e` otherwise. -/
theorem Reconcile_convergence_failure (env : Env) (st : Store) (req : NamespacedName)
    (src : AppIngress) (e : APIError)
    (hget : env.faults (Call.getAppIngress req) = none)
    (hupd : ∀ o, env.faults (Call.updateAppIngress o) = none)
    (hgns : env.faults (Call.getNamespace src.spec.targetNamespace) = none)
    (hl : st.lookupAppIngress req = some src)
    (hz : IsZero src.deletionTimestamp = true)
    (hns : src.spec.targetNamespace ∈ st.namespaces)
    (hcu : (CreateOrUpdate env st (ingressFor src) (ingressMutateFn src)).2 = some e) :
    ∃ obj,
      obj.status.conditions =
        SetStatusCondition
          (SetStatusCondition src.status.conditions namespaceValidCondition
            env.nowNamespaceValid)
          (ingressErrorCondition e) env.nowIngressCreated ∧
      (Reconcile env st req).1.log.getLast? =
        some (Call.updateStatus obj, env.faults (Call.updateStatus obj)) ∧
      (Reconcile env st req).1.ingresses = st.ingresses ∧
      (env.faults (Call.updateStatus obj) = none →
        (Reconcile env st req).2 = some e ∧
        ∃ s2, (Reconcile env st req).1.lookupAppIngress req = some s2 ∧
          s2.status = obj.status) ∧
      (∀ e2, env.faults (Call.updateStatus obj) = some e2 →
        (Reconcile env st req).2 = some e2 ∧
        ∃ s2, (Reconcile env st req).1.lookupAppIngress req = some s2 ∧
          s2.status = src.status) := by
  obtain ⟨st2, e2, a2, hstep, hi2, hn2, -, -, hsuc2, hok2⟩ :=
    ensureFinalizer_step env (st.record (Call.getAppIngress req) none) req src hl hz
  have he2 : e2 = none := hsuc2 hupd
  subst he2
  obtain ⟨hl2, hk2, hst2, hsp2, hfin2, hdt2⟩ := hok2 rfl
  simp only [Reconcile, GetAppIngress_found env st req {} src hget hl, hz, Bool.not_true,
    Bool.false_eq_true, if_false, hstep]
  have hN := GetNamespace_store env st2 a2.spec.targetNamespace
  have hNf := GetNamespace_found env st2 a2.spec.targetNamespace (by rw [hsp2]; exact hgns)
    (by rw [hn2, hsp2]; exact hns)
  rcases hG : GetNamespace env st2 a2.spec.targetNamespace with ⟨st3, e3⟩
  rw [hG] at hN hNf
  simp only at hN hNf
  subst hNf
  subst hN
  simp only [setCondition_spec, ingressMutateFn_congr _ _ (setCondition_spec a2 _ _),
    ingressMutateFn_congr _ _ hsp2, hsp2]
  have hCe : (CreateOrUpdate env (st2.record (Call.getNamespace src.spec.targetNamespace) none)
      (ingressFor src) (ingressMutateFn src)).2 = some e := by
    rw [CreateOrUpdate_congr env (st2.record (Call.getNamespace src.spec.targetNamespace) none) st
      (ingressFor src) (ingressMutateFn src) (by rw [Store.record_ingresses, hi2]; rfl)]
    exact hcu
  have hCa := CreateOrUpdate_appIngresses env
    (st2.record (Call.getNamespace src.spec.targetNamespace) none)
    (ingressFor src) (ingressMutateFn src)
  have hCi := CreateOrUpdate_err env
    (st2.record (Call.getNamespace src.spec.targetNamespace) none)
    (ingressFor src) (ingressMutateFn src) e hCe
  unfold ingressFor at hCe hCa hCi
  rcases hC : CreateOrUpdate env (st2.record (Call.getNamespace src.spec.targetNamespace) none)
    { name := src.spec.template.name, namespace_ := src.spec.targetNamespace }
    (ingressMutateFn src) with ⟨st4, e4⟩
  rw [hC] at hCe hCa hCi
  simp only at hCe hCa hCi
  subst hCe
  simp only
  generalize hobj : setCondition (setCondition a2 _ _) _ _ = obj
  have hkobj : ObjectKeyFromObject obj.toObjectMeta = req := by rw [← hobj]; exact hk2
  have hl4 : st4.lookupAppIngress (ObjectKeyFromObject obj.toObjectMeta) = some a2 := by
    rw [hkobj, lookupAppIngress_congr _ _ req hCa, Store.record_lookupAppIngress]
    exact hl2
  have hrv : obj.resourceVersion = a2.resourceVersion := by rw [← hobj]; rfl
  have hUr := UpdateStatus_result env st4 obj a2 hl4 hrv
  have hUok := UpdateStatus_ok env st4 obj
  have hUerr := UpdateStatus_err env st4 obj
  have hUi := UpdateStatus_ingresses env st4 obj
  have hUl := UpdateStatus_log env st4 obj
  rcases hU : UpdateStatus env st4 obj with ⟨st5, e5, a5⟩
  rw [hU] at hUr hUok hUerr hUi hUl
  simp only at hUr hUok hUerr hUi hUl
  subst hUr
  have hi5 : st5.ingresses = st.ingresses := by
    rw [hUi, hCi, Store.record_ingresses, hi2]; rfl
  have hcond : obj.status.conditions =
      SetStatusCondition
        (SetStatusCondition src.status.conditions namespaceValidCondition env.nowNamespaceValid)
        (ingressErrorCondition e) env.nowIngressCreated := by
    rw [← hobj, ← hst2]; rfl
  refine ⟨obj, hcond, ?_, ?_, ?_, ?_⟩
  · cases hfe : env.faults (Call.updateStatus obj) <;> simp [hUl, hfe]
  · cases hfe : env.faults (Call.updateStatus obj) <;> exact hi5
  · intro hfe
    simp only [hfe, true_and]
    obtain ⟨old, -, h1, -, -, -, -, -, h7⟩ := hUok hfe
    rw [hkobj] at h7
    exact ⟨a5, h7, h1⟩
  · intro e2 hfe
    simp only [hfe, true_and]
    refine ⟨a2, ?_, hst2⟩
    rw [lookupAppIngress_congr _ _ req (hUerr e2 hfe), ← hkobj]
    exact hl4

/-! ### The calls of one invocation -/

theorem ensureFinalizer_log (env : Env) (st : Store) (src : AppIngress) :
    ((if (!ContainsFinalizer src finalizerName) = true then
          UpdateAppIngress env st (AddFinalizer src finalizerName)
        else (st, none, src)).1.log = st.log ∧
      (if (!ContainsFinalizer src finalizerName) = true then
          UpdateAppIngress env st (AddFinalizer src finalizerName)
        else (st, none, src)).2.1 = none) ∨
    (if (!ContainsFinalizer src finalizerName) = true then
          UpdateAppIngress env st (AddFinalizer src finalizerName)
        else (st, none, src)).1.log =
      st.log ++ [(Call.updateAppIngress (AddFinalizer src finalizerName),
        (if (!ContainsFinalizer src finalizerName) = true then
          UpdateAppIngress env st (AddFinalizer src finalizerName)
        else (st, none, src)).2.1)] := by
  by_cases hc : ContainsFinalizer src finalizerName = true
  · left
    simp [hc]
  · right
    have hc2 : ContainsFinalizer src finalizerName = false := by simpa using hc
    simp only [hc2, Bool.not_false, if_true]
    exact UpdateAppIngress_log env st _

theorem realFailure_ok (c : Call) : realFailure (c, none) = false := by
  simp [realFailure, failed]

theorem realFailure_updateAppIngress (o : AppIngress) (e : APIError) :
    realFailure (Call.updateAppIngress o, some e) = true := by
  simp [realFailure, failed, benignFailure, benignGetIngress]

theorem realFailure_updateStatus (o : AppIngress) (e : APIError) :
    realFailure (Call.updateStatus o, some e) = true := by
  simp [realFailure, failed, benignFailure, benignGetIngress]

theorem realFailure_getAppIngress (k : NamespacedName) (e : APIError) :
    realFailure (Call.getAppIngress k, some e) = !IsNotFound e := by
  simp [realFailure, failed, benignFailure, benignGetIngress]

theorem realFailure_getNamespace (n : String) (e : APIError) :
    realFailure (Call.getNamespace n, some e) = !IsNotFound e := by
  simp [realFailure, failed, benignFailure, benignGetIngress]

theorem realFailure_deleteIngress (k : NamespacedName) (e : APIError) :
    realFailure (Call.deleteIngress k, some e) = !IsNotFound e := by
  simp [realFailure, failed, benignFailure, benignGetIngress]

theorem Propagated_ok (calls : List (Call × Option APIError))
    (h : ∀ x ∈ calls, realFailure x = false) : Propagated calls none := by
  refine ⟨Or.inl ⟨rfl, h⟩, ?_⟩
  intro o e hm
  have := h _ hm
  rw [realFailure_updateAppIngress] at this
  cases this

theorem Propagated_err (calls : List (Call × Option APIError)) (c : Call) (e : APIError)
    (hm : (c, some e) ∈ calls) (hr : realFailure (c, some e) = true)
    (hu : ∀ o e2, (Call.updateAppIngress o, some e2) ∈ calls → e2 = e) :
    Propagated calls (some e) := by
  refine ⟨Or.inr ⟨c, e, rfl, hm, hr⟩, ?_⟩
  intro o e2 hm2
  rw [hu o e2 hm2]

theorem Propagated_err_quiet (calls : List (Call × Option APIError)) (c : Call) (e : APIError)
    (hm : (c, some e) ∈ calls) (hr : realFailure (c, some e) = true)
    (hu : ∀ o e2, (Call.updateAppIngress o, some e2) ∉ calls) :
    Propagated calls (some e) :=
  Propagated_err calls c e hm hr (fun o e2 h => absurd h (hu o e2))

theorem IngressCallsAt_append (key : NamespacedName) (l1 l2 : List (Call × Option APIError))
    (h1 : IngressCallsAt key l1) (h2 : IngressCallsAt key l2) : IngressCallsAt key (l1 ++ l2) := by
  intro x hx
  rcases List.mem_append.mp hx with hx | hx
  · exact h1 x hx
  · exact h2 x hx

theorem IngressCallsAt_getAppIngress (key k : NamespacedName) (r : Option APIError) :
    IngressCallsAt key [(Call.getAppIngress k, r)] := by
  intro x hx
  rw [List.mem_singleton] at hx
  subst hx
  simp

theorem IngressCallsAt_updateAppIngress (key : NamespacedName) (o : AppIngress)
    (r : Option APIError) : IngressCallsAt key [(Call.updateAppIngress o, r)] := by
  intro x hx
  rw [List.mem_singleton] at hx
  subst hx
  simp

theorem IngressCallsAt_updateStatus (key : NamespacedName) (o : AppIngress)
    (r : Option APIError) : IngressCallsAt key [(Call.updateStatus o, r)] := by
  intro x hx
  rw [List.mem_singleton] at hx
  subst hx
  simp

theorem IngressCallsAt_getNamespace (key : NamespacedName) (n : String)
    (r : Option APIError) : IngressCallsAt key [(Call.getNamespace n, r)] := by
  intro x hx
  rw [List.mem_singleton] at hx
  subst hx
  simp

/-- The calls of the get and the finalizer step of an invocation on a stored
object that is not being deleted. -/
theorem ensureFinalizer_calls (env : Env) (st : Store) (req : NamespacedName) (src : AppIngress)
    (st2 : Store) (e2 : Option APIError) (a2 : AppIngress)
    (hstep : (if (!ContainsFinalizer src finalizerName) = true then
          UpdateAppIngress env (st.record (Call.getAppIngress req) none)
            (AddFinalizer src finalizerName)
        else (st.record (Call.getAppIngress req) none, none, src)) = (st2, e2, a2)) :
    ∃ pre, st2.log = st.log ++ pre ∧ IngressCallsAt (derivedKey src) pre ∧
      (e2 = none → ∀ x ∈ pre, realFailure x = false) ∧
      (∀ e, e2 = some e →
        (∃ o, (Call.updateAppIngress o, some e) ∈ pre) ∧
        ∀ o e3, (Call.updateAppIngress o, some e3) ∈ pre → e3 = e) := by
  have hflog := ensureFinalizer_log env (st.record (Call.getAppIngress req) none) src
  rw [hstep] at hflog
  simp only [Store.record_log] at hflog
  rcases hflog with ⟨hlog, he⟩ | hlog
  · subst he
    refine ⟨[(Call.getAppIngress req, none)], hlog, IngressCallsAt_getAppIngress _ _ _, ?_, ?_⟩
    · intro _ x hx
      rw [List.mem_singleton] at hx
      subst hx
      exact realFailure_ok _
    · intro e he
      cases he
  · refine ⟨[(Call.getAppIngress req, none),
        (Call.updateAppIngress (AddFinalizer src finalizerName), e2)], ?_, ?_, ?_, ?_⟩
    · rw [hlog]
      simp
    · exact IngressCallsAt_append _ [_] [_] (IngressCallsAt_getAppIngress _ _ _)
        (IngressCallsAt_updateAppIngress _ _ _)
    · intro he x hx
      subst he
      simp only [List.mem_cons, List.mem_singleton, List.not_mem_nil, or_false] at hx
      rcases hx with hx | hx <;> subst hx <;> exact realFailure_ok _
    · intro e he
      subst he
      refine ⟨⟨AddFinalizer src finalizerName, by simp⟩, ?_⟩
      intro o e3 hm
      simp only [List.mem_cons, List.mem_singleton, List.not_mem_nil, or_false, Prod.mk.injEq,
        Option.some.injEq] at hm
      rcases hm with hm | hm
      · cases hm.1
      · exact hm.2

/-- The calls of an invocation on a stored Source Resource that is not marked
for deletion, whatever calls fail: the propagation policy holds, no Derived
Resource is deleted, only the Derived Resource at
`(template.name, targetNamespace)` is written, and every other Derived
Resource stays as it was. -/
theorem Reconcile_not_deleting_calls (env : Env) (st : Store) (req : NamespacedName)
    (src : AppIngress)
    (hget : env.faults (Call.getAppIngress req) = none)
    (hl : st.lookupAppIngress req = some src)
    (hz : IsZero src.deletionTimestamp = true) :
    ∃ calls, (Reconcile env st req).1.log = st.log ++ calls ∧
      Propagated calls (Reconcile env st req).2 ∧
      IngressCallsAt (derivedKey src) calls ∧
      (∀ key2, key2 ≠ derivedKey src →
        (Reconcile env st req).1.lookupIngress key2 = st.lookupIngress key2) ∧
      (∀ key2 d, st.lookupIngress key2 = some d →
        ∃ d2, (Reconcile env st req).1.lookupIngress key2 = some d2) := by
  suffices h : ∃ stF res, Reconcile env st req = (stF, res) ∧
      ∃ calls, stF.log = st.log ++ calls ∧ Propagated calls res ∧
        IngressCallsAt (derivedKey src) calls ∧
        (∀ key2, key2 ≠ derivedKey src → stF.lookupIngress key2 = st.lookupIngress key2) ∧
        (∀ key2 d, st.lookupIngress key2 = some d → ∃ d2, stF.lookupIngress key2 = some d2) by
    obtain ⟨stF, res, hR, h⟩ := h
    rw [hR]
    exact h
  obtain ⟨st2, e2, a2, hstep, hi2, -, -, -, -, hok2⟩ :=
    ensureFinalizer_step env (st.record (Call.getAppIngress req) none) req src hl hz
  obtain ⟨pre, hpre, hpi, hpq, hpe⟩ := ensureFinalizer_calls env st req src st2 e2 a2 hstep
  rw [Store.record_ingresses] at hi2
  simp only [Reconcile, GetAppIngress_found env st req {} src hget hl, hz, Bool.not_true,
    Bool.false_eq_true, if_false, hstep]
  cases e2 with
  | some e =>
    obtain ⟨⟨o, ho⟩, hu⟩ := hpe e rfl
    exact ⟨st2, some e, rfl, pre, hpre,
      Propagated_err pre _ e ho (realFailure_updateAppIngress o e) hu, hpi,
      fun key2 _ => lookupIngress_congr _ _ key2 hi2,
      fun key2 d hd => ⟨d, by rw [lookupIngress_congr _ _ key2 hi2]; exact hd⟩⟩
  | none =>
    have hq := hpq rfl
    obtain ⟨-, -, -, hsp2, -, -⟩ := hok2 rfl
    simp only
    have hN := GetNamespace_store env st2 a2.spec.targetNamespace
    rcases hG : GetNamespace env st2 a2.spec.targetNamespace with ⟨st3, e3⟩
    rw [hG] at hN
    simp only at hN
    subst hN
    cases e3 with
    | some e =>
      simp only
      by_cases hnf : IsNotFound e = true
      · simp only [hnf, if_true]
        generalize hobj : setCondition a2 _ _ = obj
        have hUi := UpdateStatus_ingresses env
          (st2.record (Call.getNamespace a2.spec.targetNamespace) (some e)) obj
        have hUl := UpdateStatus_log env
          (st2.record (Call.getNamespace a2.spec.targetNamespace) (some e)) obj
        rcases hU : UpdateStatus env
          (st2.record (Call.getNamespace a2.spec.targetNamespace) (some e)) obj with ⟨st5, e5, a5⟩
        rw [hU] at hUi hUl
        simp only [Store.record_ingresses, Store.record_log] at hUi hUl
        have hi5 : st5.ingresses = st.ingresses := by rw [hUi, hi2]
        have hcalls : st5.log = st.log ++ (pre ++ [(Call.getNamespace a2.spec.targetNamespace,
            some e), (Call.updateStatus obj, e5)]) := by
          rw [hUl, hpre]
          simp
        have hing : IngressCallsAt (derivedKey src) (pre ++
            [(Call.getNamespace a2.spec.targetNamespace, some e), (Call.updateStatus obj, e5)]) :=
          IngressCallsAt_append _ _ _ hpi (IngressCallsAt_append _ [_] [_]
            (IngressCallsAt_getNamespace _ _ _) (IngressCallsAt_updateStatus _ _ _))
        have hfr : (∀ key2, key2 ≠ derivedKey src →
              st5.lookupIngress key2 = st.lookupIngress key2) ∧
            (∀ key2 d, st.lookupIngress key2 = some d →
              ∃ d2, st5.lookupIngress key2 = some d2) :=
          ⟨fun key2 _ => lookupIngress_congr _ _ key2 hi5,
            fun key2 d hd => ⟨d, by rw [lookupIngress_congr _ _ key2 hi5]; exact hd⟩⟩
        cases e5 with
        | none =>
          refine ⟨st5, none, rfl, _, hcalls, Propagated_ok _ ?_, hing, hfr.1, hfr.2⟩
          intro x hx
          simp only [List.mem_append, List.mem_cons, List.mem_singleton, List.not_mem_nil,
            or_false] at hx
          rcases hx with hx | hx | hx
          · exact hq x hx
          · subst hx
            rw [realFailure_getNamespace, hnf]
            rfl
          · subst hx
            exact realFailure_ok _
        | some e6 =>
          refine ⟨st5, some e6, rfl, _, hcalls,
            Propagated_err_quiet _ (Call.updateStatus obj) e6 (by simp)
              (realFailure_updateStatus _ _) ?_, hing, hfr.1, hfr.2⟩
          intro o e7 hm
          simp only [List.mem_append, List.mem_cons, List.mem_singleton, List.not_mem_nil,
            or_false, Prod.mk.injEq] at hm
          rcases hm with hm | hm | hm
          · have := hq _ hm
            rw [realFailure_updateAppIngress] at this
            cases this
          · cases hm.1
          · cases hm.1
      · have hnf2 : IsNotFound e = false := by simpa using hnf
        simp only [hnf2, Bool.false_eq_true, if_false]
        refine ⟨_, some e, rfl, pre ++ [(Call.getNamespace a2.spec.targetNamespace, some e)],
          by rw [Store.record_log, hpre]; simp,
          Propagated_err_quiet _ (Call.getNamespace a2.spec.targetNamespace) e (by simp)
            (by rw [realFailure_getNamespace, hnf2]; rfl) ?_,
          IngressCallsAt_append _ _ _ hpi (IngressCallsAt_getNamespace _ _ _),
          fun key2 _ => lookupIngress_congr _ _ key2 hi2,
          fun key2 d hd => ⟨d, by
            rw [lookupIngress_congr _ _ key2 (show (st2.record _ _).ingresses = st.ingresses from hi2)]
            exact hd⟩⟩
        intro o e7 hm
        simp only [List.mem_append, List.mem_singleton, Prod.mk.injEq] at hm
        rcases hm with hm | hm
        · have := hq _ hm
          rw [realFailure_updateAppIngress] at this
          cases this
        · cases hm.1
    | none =>
      simp only [setCondition_spec, ingressMutateFn_congr _ _ (setCondition_spec a2 _ _),
        ingressMutateFn_congr _ _ hsp2, hsp2]
      have hCc := CreateOrUpdate_calls env
        (st2.record (Call.getNamespace src.spec.targetNamespace) none) (ingressFor src) src
      have hCo := CreateOrUpdate_other env
        (st2.record (Call.getNamespace src.spec.targetNamespace) none) (ingressFor src) src
      have hCp := CreateOrUpdate_present env
        (st2.record (Call.getNamespace src.spec.targetNamespace) none) (ingressFor src) src
      unfold ingressFor at hCc hCo hCp
      rcases hC : CreateOrUpdate env (st2.record (Call.getNamespace src.spec.targetNamespace) none)
        { name := src.spec.template.name, namespace_ := src.spec.targetNamespace }
        (ingressMutateFn src) with ⟨st4, e4⟩
      rw [hC] at hCc hCo hCp
      simp only [Store.record_log, Store.record_lookupIngress] at hCc hCo hCp
      obtain ⟨cu, hculog, hcushape, hcuok, hcuerr⟩ := hCc
      have hl2 : ∀ key2, st2.lookupIngress key2 = st.lookupIngress key2 :=
        fun key2 => lookupIngress_congr _ _ key2 hi2
      have hcui : IngressCallsAt (derivedKey src) cu := by
        intro x hx
        rcases hcushape x hx with ⟨k, r, h⟩ | ⟨o, r, h, hk⟩ | ⟨o, r, h, hk⟩
        · subst h
          simp
        · subst h
          refine ⟨by simp, ?_⟩
          intro o2 r2 h2
          rcases h2 with h2 | h2
          · cases h2
            exact hk
          · cases h2
        · subst h
          refine ⟨by simp, ?_⟩
          intro o2 r2 h2
          rcases h2 with h2 | h2
          · cases h2
          · cases h2
            exact hk
      have hcunu : ∀ o e7, (Call.updateAppIngress o, some e7) ∉ cu := by
        intro o e7 hm
        rcases hcushape _ hm with ⟨k, r, h⟩ | ⟨o2, r, h, -⟩ | ⟨o2, r, h, -⟩ <;>
          simp at h
      have hobjgen : ∀ ob : AppIngress, ∃ st5 e5 a5, UpdateStatus env st4 ob = (st5, e5, a5) ∧
          st5.log = st.log ++ (pre ++ [(Call.getNamespace src.spec.targetNamespace, none)] ++ cu ++
            [(Call.updateStatus ob, e5)]) ∧
          IngressCallsAt (derivedKey src) (pre ++
            [(Call.getNamespace src.spec.targetNamespace, none)] ++ cu ++
            [(Call.updateStatus ob, e5)]) ∧
          (∀ key2, key2 ≠ derivedKey src → st5.lookupIngress key2 = st.lookupIngress key2) ∧
          (∀ key2 d, st.lookupIngress key2 = some d → ∃ d2, st5.lookupIngress key2 = some d2) := by
        intro ob
        have hUi := UpdateStatus_ingresses env st4 ob
        have hUl := UpdateStatus_log env st4 ob
        rcases hU : UpdateStatus env st4 ob with ⟨st5, e5, a5⟩
        rw [hU] at hUi hUl
        simp only at hUi hUl
        refine ⟨st5, e5, a5, rfl, ?_, ?_, ?_, ?_⟩
        · rw [hUl, hculog, hpre]
          simp
        · exact IngressCallsAt_append _ _ _ (IngressCallsAt_append _ _ _
            (IngressCallsAt_append _ _ _ hpi (IngressCallsAt_getNamespace _ _ _)) hcui)
            (IngressCallsAt_updateStatus _ _ _)
        · intro key2 hne
          rw [lookupIngress_congr _ _ key2 hUi, hCo key2 hne, hl2]
        · intro key2 d hd
          obtain ⟨d2, hd2⟩ := hCp key2 d (by rw [hl2]; exact hd)
          exact ⟨d2, by rw [lookupIngress_congr _ _ key2 hUi]; exact hd2⟩
      have hnu : ∀ (ob : AppIngress) (e5 : Option APIError) o e7,
          (Call.updateAppIngress o, some e7) ∉ pre ++
            [(Call.getNamespace src.spec.targetNamespace, none)] ++ cu ++
            [(Call.updateStatus ob, e5)] := by
        intro ob e5 o e7 hm
        simp only [List.mem_append, List.mem_singleton, Prod.mk.injEq] at hm
        rcases hm with ((hm | hm) | hm) | hm
        · have := hq _ hm
          rw [realFailure_updateAppIngress] at this
          cases this
        · cases hm.1
        · exact hcunu o e7 hm
        · cases hm.1
      cases e4 with
      | some e =>
        simp only
        obtain ⟨c, hc, hcr⟩ := hcuerr e rfl
        generalize hobj2 : setCondition (setCondition a2 _ _) _ _ = ob
        obtain ⟨st5, e5, a5, hU, hlog, hing, hf1, hf2⟩ := hobjgen ob
        rw [hU]
        cases e5 with
        | none =>
          refine ⟨st5, some e, rfl, _, hlog,
            Propagated_err_quiet _ c e ?_ hcr (hnu ob none), hing, hf1, hf2⟩
          simp only [List.mem_append, List.mem_singleton]
          exact Or.inl (Or.inr hc)
        | some e6 =>
          refine ⟨st5, some e6, rfl, _, hlog,
            Propagated_err_quiet _ (Call.updateStatus ob) e6 (by simp)
              (realFailure_updateStatus _ _) (hnu ob (some e6)), hing, hf1, hf2⟩
      | none =>
        simp only
        have hcq := hcuok rfl
        generalize hobj2 : setCondition (setCondition a2 _ _) _ _ = ob
        obtain ⟨st5, e5, a5, hU, hlog, hing, hf1, hf2⟩ := hobjgen ob
        rw [hU]
        cases e5 with
        | none =>
          refine ⟨st5, none, rfl, _, hlog, Propagated_ok _ ?_, hing, hf1, hf2⟩
          intro x hx
          simp only [List.mem_append, List.mem_singleton] at hx
          rcases hx with ((hx | hx) | hx) | hx
          · exact hq x hx
          · subst hx
            exact realFailure_ok _
          · exact hcq x hx
          · subst hx
            exact realFailure_ok _
        | some e6 =>
          refine ⟨st5, some e6, rfl, _, hlog,
            Propagated_err_quiet _ (Call.updateStatus ob) e6 (by simp)
              (realFailure_updateStatus _ _) (hnu ob (some e6)), hing, hf1, hf2⟩

theorem GetAppIngress_ok_fault (env : Env) (st : Store) (key : NamespacedName) (obj : AppIngress)
    (h : (GetAppIngress env st key obj).2.1 = none) :
    env.faults (Call.getAppIngress key) = none := by
  simp only [GetAppIngress] at h
  cases hf : env.faults (Call.getAppIngress key) with
  | none => rfl
  | some e => simp [hf] at h

/-- When the get of the Source Resource fails, it is the only call of the
invocation, no object in the store changes, and the error is returned unless
it is "not found". -/
theorem Reconcile_get_failed (env : Env) (st : Store) (req : NamespacedName) (e : APIError)
    (h : (GetAppIngress env st req {}).2.1 = some e) :
    Reconcile env st req =
      (st.record (Call.getAppIngress req) (some e), if IsNotFound e then none else some e) := by
  have hs := GetAppIngress_store env st req {}
  simp only [Reconcile]
  rcases hG : GetAppIngress env st req {} with ⟨st1, e1, a⟩
  rw [hG] at hs h
  simp only at hs h
  subst hs
  subst h
  simp only
  split <;> rfl

/-- On the deletion branch without the cleanup finalizer the get is the only call. -/
theorem Reconcile_delete_nothing (env : Env) (st : Store) (req : NamespacedName)
    (src : AppIngress)
    (hget : env.faults (Call.getAppIngress req) = none)
    (hl : st.lookupAppIngress req = some src)
    (hz : IsZero src.deletionTimestamp = false)
    (hc : ContainsFinalizer src finalizerName = false) :
    Reconcile env st req = (st.record (Call.getAppIngress req) none, none) := by
  simp only [Reconcile, GetAppIngress_found env st req {} src hget hl, hz, hc, Bool.not_false,
    if_true, Bool.false_eq_true, if_false]

/-- The propagation policy holds for the calls of an invocation on the
deletion branch with the cleanup finalizer present. -/
theorem Reconcile_delete_calls (env : Env) (st : Store) (req : NamespacedName)
    (src : AppIngress)
    (hget : env.faults (Call.getAppIngress req) = none)
    (hl : st.lookupAppIngress req = some src)
    (hz : IsZero src.deletionTimestamp = false)
    (hc : ContainsFinalizer src finalizerName = true) :
    ∃ calls, (Reconcile env st req).1.log = st.log ++ calls ∧
      Propagated calls (Reconcile env st req).2 := by
  have hP := Reconcile_delete_proceeds env st req src hget hl hz hc
  have hB := fun e => Reconcile_delete_blocked env st req src e hget hl hz hc
  have hdl := DeleteIngress_log env (st.record (Call.getAppIngress req) none) (ingressFor src)
  rcases hDD : DeleteIngress env (st.record (Call.getAppIngress req) none) (ingressFor src)
    with ⟨stD, derr⟩
  rw [hDD] at hP hB hdl
  simp only [Store.record_log, ingressFor_key] at hP hB hdl
  have hul := UpdateAppIngress_log env stD (RemoveFinalizer src finalizerName)
  rcases hUU : UpdateAppIngress env stD (RemoveFinalizer src finalizerName) with ⟨stU, eU, aU⟩
  rw [hUU] at hP hul
  simp only at hP hul
  have hproceed : (∀ e, derr = some e → IsNotFound e = true) →
      ∃ calls, (Reconcile env st req).1.log = st.log ++ calls ∧
        Propagated calls (Reconcile env st req).2 := by
    intro hben
    rw [hP hben]
    refine ⟨[(Call.getAppIngress req, none), (Call.deleteIngress (derivedKey src), derr),
      (Call.updateAppIngress (RemoveFinalizer src finalizerName), eU)], ?_, ?_⟩
    · simp only
      rw [hul, hdl]
      simp
    · simp only
      have hquiet : realFailure (Call.deleteIngress (derivedKey src), derr) = false := by
        cases derr with
        | none => exact realFailure_ok _
        | some e =>
          rw [realFailure_deleteIngress, hben e rfl]
          rfl
      cases eU with
      | none =>
        refine Propagated_ok _ ?_
        intro x hx
        simp only [List.mem_cons, List.mem_singleton, List.not_mem_nil, or_false] at hx
        rcases hx with hx | hx | hx
        · subst hx
          exact realFailure_ok _
        · subst hx
          exact hquiet
        · subst hx
          exact realFailure_ok _
      | some e2 =>
        refine Propagated_err _ (Call.updateAppIngress (RemoveFinalizer src finalizerName))
          e2 (by simp) (realFailure_updateAppIngress _ _) ?_
        intro o e3 hm
        simp only [List.mem_cons, List.mem_singleton, List.not_mem_nil, or_false,
          Prod.mk.injEq, Option.some.injEq] at hm
        rcases hm with hm | hm | hm
        · cases hm.1
        · cases hm.1
        · exact hm.2
  cases derr with
  | none => exact hproceed (fun e he => by cases he)
  | some e =>
    by_cases hnf : IsNotFound e = true
    · exact hproceed (fun e2 he => by cases he; exact hnf)
    · have hnf2 : IsNotFound e = false := by simpa using hnf
      rw [hB e rfl hnf2]
      refine ⟨[(Call.getAppIngress req, none),
        (Call.deleteIngress (derivedKey src), some e)], ?_, ?_⟩
      · simp only
        rw [hdl]
        simp
      · refine Propagated_err_quiet _ (Call.deleteIngress (derivedKey src)) e (by simp)
          (by rw [realFailure_deleteIngress, hnf2]; rfl) ?_
        intro o e3 hm
        simp at hm

/-- The propagation policy holds for the calls of every invocation. -/
theorem Reconcile_calls (env : Env) (st : Store) (req : NamespacedName) :
    ∃ calls, (Reconcile env st req).1.log = st.log ++ calls ∧
      Propagated calls (Reconcile env st req).2 := by
  cases hg : (GetAppIngress env st req {}).2.1 with
  | some e =>
    rw [Reconcile_get_failed env st req e hg]
    refine ⟨[(Call.getAppIngress req, some e)], rfl, ?_⟩
    by_cases hnf : IsNotFound e = true
    · simp only [hnf, if_true]
      refine Propagated_ok _ ?_
      intro x hx
      rw [List.mem_singleton] at hx
      subst hx
      rw [realFailure_getAppIngress, hnf]
      rfl
    · have hnf2 : IsNotFound e = false := by simpa using hnf
      simp only [hnf2, Bool.false_eq_true, if_false]
      refine Propagated_err_quiet _ (Call.getAppIngress req) e (by simp)
        (by rw [realFailure_getAppIngress, hnf2]; rfl) ?_
      intro o e2 hm
      simp at hm
  | none =>
    have hget := GetAppIngress_ok_fault env st req {} hg
    have hl := GetAppIngress_ok env st req {} hg
    generalize (GetAppIngress env st req {}).2.2 = src at hl
    by_cases hz : IsZero src.deletionTimestamp = true
    · obtain ⟨calls, h1, h2, -⟩ := Reconcile_not_deleting_calls env st req src hget hl hz
      exact ⟨calls, h1, h2⟩
    · have hz2 : IsZero src.deletionTimestamp = false := by simpa using hz
      by_cases hc : ContainsFinalizer src finalizerName = true
      · exact Reconcile_delete_calls env st req src hget hl hz2 hc
      · have hc2 : ContainsFinalizer src finalizerName = false := by simpa using hc
        rw [Reconcile_delete_nothing env st req src hget hl hz2 hc2]
        refine ⟨[(Call.getAppIngress req, none)], rfl, Propagated_ok _ ?_⟩
        intro x hx
        rw [List.mem_singleton] at hx
        subst hx
        exact realFailure_ok _

/-! ## The claims -/

theorem updateTemplateSpec_lookup (st : Store) (req : NamespacedName) (P : IngressSpec)
    (a : AppIngress) (hl : st.lookupAppIngress req = some a) :
    ∃ b, (updateTemplateSpec st req P).lookupAppIngress req = some b ∧
      b.spec.template.spec = P ∧
      b.spec.template.name = a.spec.template.name ∧
      b.spec.template.labels = a.spec.template.labels ∧
      b.spec.template.annotations = a.spec.template.annotations ∧
      b.spec.targetNamespace = a.spec.targetNamespace ∧
      b.deletionTimestamp = a.deletionTimestamp ∧
      b.finalizers = a.finalizers ∧
      b.status = a.status := by
  have hk : ObjectKeyFromObject a.toObjectMeta = req := lookupObject_key _ _ _ _ hl
  refine ⟨{ a with
      spec := { a.spec with template := { a.spec.template with spec := P } }
      resourceVersion := a.resourceVersion + 1 }, ?_, rfl, rfl, rfl, rfl, rfl, rfl, rfl, rfl⟩
  · simp only [updateTemplateSpec, hl]
    exact lookupObject_replaceObject_self _ _ _ a _ hl hk

theorem updateTemplateSpec_frame (st : Store) (req : NamespacedName) (P : IngressSpec) :
    (updateTemplateSpec st req P).ingresses = st.ingresses ∧
    (updateTemplateSpec st req P).namespaces = st.namespaces := by
  unfold updateTemplateSpec
  split <;> exact ⟨rfl, rfl⟩

/-- C1 (convergence). For a Source Resource that is not marked for deletion
and whose target namespace exists, from every prior store state, when no store
call fails, one `Reconcile` returns success and leaves at
`(template.name, targetNamespace)` a Derived Resource whose labels,
annotations and spec equal the template's. In particular, after the template's
spec is then changed to `P`, the next `Reconcile` leaves there a Derived
Resource whose spec is `P`. -/
theorem convergence (env env2 : Env) (st : Store) (req : NamespacedName) (src : AppIngress)
    (hf : ∀ c, env.faults c = none) (hf2 : ∀ c, env2.faults c = none)
    (hl : st.lookupAppIngress req = some src)
    (hz : IsZero src.deletionTimestamp = true)
    (hns : src.spec.targetNamespace ∈ st.namespaces) :
    ((Reconcile env st req).2 = none ∧
      ∃ d, (Reconcile env st req).1.lookupIngress (derivedKey src) = some d ∧
        d.labels = src.spec.template.labels ∧
        d.annotations = src.spec.template.annotations ∧
        d.spec = src.spec.template.spec) ∧
    ∀ P : IngressSpec,
      (Reconcile env2 (updateTemplateSpec (Reconcile env st req).1 req P) req).2 = none ∧
      ∃ d, (Reconcile env2 (updateTemplateSpec (Reconcile env st req).1 req P) req).1.lookupIngress
          (derivedKey src) = some d ∧
        d.labels = src.spec.template.labels ∧
        d.annotations = src.spec.template.annotations ∧
        d.spec = P := by
  obtain ⟨h1, h2, ⟨s1, hs1, hsp1, -, hdt1, -⟩, h4, -⟩ := Reconcile_success env st req src hf hl hz hns
  refine ⟨⟨h1, h4⟩, ?_⟩
  intro P
  obtain ⟨b, hb, hb1, hb2, hb3, hb4, hb5, hb6, -, -⟩ :=
    updateTemplateSpec_lookup (Reconcile env st req).1 req P s1 hs1
  obtain ⟨hfr1, hfr2⟩ := updateTemplateSpec_frame (Reconcile env st req).1 req P
  have hkey : derivedKey b = derivedKey src := by
    simp only [derivedKey, hb2, hb5, hsp1]
  obtain ⟨g1, -, -, ⟨d, hd, hd1, hd2, hd3⟩, -⟩ :=
    Reconcile_success env2 (updateTemplateSpec (Reconcile env st req).1 req P) req b hf2 hb
      (by rw [hb6, hdt1]; exact hz)
      (by rw [hfr2, h2, hb5, hsp1]; exact hns)
  rw [hkey] at hd
  refine ⟨g1, d, hd, ?_, ?_, ?_⟩
  · rw [hd1, hb3, hsp1]
  · rw [hd2, hb4, hsp1]
  · rw [hd3, hb1]

theorem convergence_witness :
    (∀ c, quietEnv.faults c = none) ∧ (∀ c, laterEnv.faults c = none) ∧
    exampleStore.lookupAppIngress exampleReq = some exampleSource ∧
    IsZero exampleSource.deletionTimestamp = true ∧
    exampleSource.spec.targetNamespace ∈ exampleStore.namespaces ∧
    (((Reconcile quietEnv exampleStore exampleReq).2 = none ∧
      ∃ d, (Reconcile quietEnv exampleStore exampleReq).1.lookupIngress
          (derivedKey exampleSource) = some d ∧
        d.labels = exampleSource.spec.template.labels ∧
        d.annotations = exampleSource.spec.template.annotations ∧
        d.spec = exampleSource.spec.template.spec) ∧
    ∀ P : IngressSpec,
      (Reconcile laterEnv
        (updateTemplateSpec (Reconcile quietEnv exampleStore exampleReq).1 exampleReq P)
        exampleReq).2 = none ∧
      ∃ d, (Reconcile laterEnv
          (updateTemplateSpec (Reconcile quietEnv exampleStore exampleReq).1 exampleReq P)
          exampleReq).1.lookupIngress (derivedKey exampleSource) = some d ∧
        d.labels = exampleSource.spec.template.labels ∧
        d.annotations = exampleSource.spec.template.annotations ∧
        d.spec = P) :=
  ⟨fun _ => rfl, fun _ => rfl, by decide, by decide, by decide,
    convergence quietEnv laterEnv exampleStore exampleReq exampleSource
      (fun _ => rfl) (fun _ => rfl) (by decide) (by decide) (by decide)⟩

theorem UpdateAppIngress_result (env : Env) (st : Store) (obj old : AppIngress)
    (hl : st.lookupAppIngress (ObjectKeyFromObject obj.toObjectMeta) = some old)
    (hrv : obj.resourceVersion = old.resourceVersion) :
    (UpdateAppIngress env st obj).2.1 = env.faults (Call.updateAppIngress obj) := by
  cases hf : env.faults (Call.updateAppIngress obj) with
  | some e => simp only [UpdateAppIngress, hf]
  | none => exact UpdateAppIngress_succeeds env st obj old hf hl hrv

/-- C2 (deletion safety). For a Source Resource that is marked for deletion,
carries the cleanup finalizer and whose Derived Resource exists, when no store
call fails, one `Reconcile` returns success, the Derived Resource is absent
afterwards, a Source Resource still stored does not carry the cleanup
finalizer, and when the cleanup finalizer was the only one the store has
completed the removal of the Source Resource. -/
theorem deletion_safety (env : Env) (st : Store) (req : NamespacedName) (src : AppIngress)
    (d : Ingress)
    (hf : ∀ c, env.faults c = none)
    (hl : st.lookupAppIngress req = some src)
    (hz : IsZero src.deletionTimestamp = false)
    (hc : ContainsFinalizer src finalizerName = true)
    (hd : st.lookupIngress (derivedKey src) = some d) :
    (Reconcile env st req).2 = none ∧
    (Reconcile env st req).1.lookupIngress (derivedKey src) = none ∧
    (∀ s2, (Reconcile env st req).1.lookupAppIngress req = some s2 →
      ContainsFinalizer s2 finalizerName = false) ∧
    ((∀ f ∈ src.finalizers, f = finalizerName) →
      (Reconcile env st req).1.lookupAppIngress req = none) := by
  have hk : ObjectKeyFromObject src.toObjectMeta = req := lookupObject_key _ _ _ _ hl
  have hds := DeleteIngress_succeeds env (st.record (Call.getAppIngress req) none) (ingressFor src) d
    (hf _) hd
  have hdo := DeleteIngress_ok env (st.record (Call.getAppIngress req) none) (ingressFor src) hds
  have hda := DeleteIngress_appIngresses env (st.record (Call.getAppIngress req) none)
    (ingressFor src)
  rw [Reconcile_delete_proceeds env st req src (hf _) hl hz hc (by rw [hds]; intro e he; cases he)]
  generalize (DeleteIngress env (st.record (Call.getAppIngress req) none) (ingressFor src)).1 = stD
    at hdo hda ⊢
  have hlD : stD.lookupAppIngress (ObjectKeyFromObject (RemoveFinalizer src finalizerName).toObjectMeta)
      = some src := by
    rw [RemoveFinalizer_key, hk, lookupAppIngress_congr _ _ req hda, Store.record_lookupAppIngress, hl]
  have hus := UpdateAppIngress_succeeds env stD (RemoveFinalizer src finalizerName) src (hf _) hlD rfl
  obtain ⟨old, -, -, -, -, -, h5, -, h7⟩ := UpdateAppIngress_ok env stD _ hus
  have hui := UpdateAppIngress_ingresses env stD (RemoveFinalizer src finalizerName)
  rw [RemoveFinalizer_key, hk] at h7
  refine ⟨hus, ?_, ?_, ?_⟩
  · rw [lookupIngress_congr _ _ _ hui]
    exact hdo
  · intro s2 hs2
    simp only at hs2
    rw [hs2] at h7
    rcases h7 with h7 | h7
    · cases h7
      have := RemoveFinalizer_not_mem src finalizerName
      rw [← h5] at this
      simpa [ContainsFinalizer] using this
    · cases h7
  · intro honly
    have he : (RemoveFinalizer src finalizerName).finalizers = [] := by
      simp only [RemoveFinalizer, List.filter_eq_nil_iff]
      intro f hfm
      simp [honly f hfm]
    have := UpdateAppIngress_removed env stD (RemoveFinalizer src finalizerName) src hus hlD
      (RemoveFinalizer_ne src finalizerName hc) hz he
    rw [RemoveFinalizer_key, hk] at this
    exact this

theorem deletion_safety_witness :
    (∀ c, quietEnv.faults c = none) ∧
    deletingStore.lookupAppIngress exampleReq = some deletingSource ∧
    IsZero deletingSource.deletionTimestamp = false ∧
    ContainsFinalizer deletingSource finalizerName = true ∧
    deletingStore.lookupIngress (derivedKey deletingSource) = some exampleIngress ∧
    ((Reconcile quietEnv deletingStore exampleReq).2 = none ∧
    (Reconcile quietEnv deletingStore exampleReq).1.lookupIngress (derivedKey deletingSource) = none ∧
    (∀ s2, (Reconcile quietEnv deletingStore exampleReq).1.lookupAppIngress exampleReq = some s2 →
      ContainsFinalizer s2 finalizerName = false) ∧
    ((∀ f ∈ deletingSource.finalizers, f = finalizerName) →
      (Reconcile quietEnv deletingStore exampleReq).1.lookupAppIngress exampleReq = none)) :=
  ⟨fun _ => rfl, by decide, by decide, by decide, by decide,
    deletion_safety quietEnv deletingStore exampleReq deletingSource exampleIngress
      (fun _ => rfl) (by decide) (by decide) (by decide) (by decide)⟩

/-- C3 (deletion idempotence). For a Source Resource that is marked for
deletion and carries the cleanup finalizer, when the delete of the Derived
Resource fails with a "not found" error, `Reconcile` goes on as after a
successful delete: it issues the update of the Source Resource with the
finalizer removed and returns what that update returns; when the update is
not failed, `Reconcile` returns success and a Source Resource still stored
does not carry the cleanup finalizer. -/
theorem deletion_idempotence (env : Env) (st : Store) (req : NamespacedName) (src : AppIngress)
    (e : APIError)
    (hget : env.faults (Call.getAppIngress req) = none)
    (hl : st.lookupAppIngress req = some src)
    (hz : IsZero src.deletionTimestamp = false)
    (hc : ContainsFinalizer src finalizerName = true)
    (hd : (DeleteIngress env st (ingressFor src)).2 = some e)
    (hnf : IsNotFound e = true) :
    (Reconcile env st req).2 =
      env.faults (Call.updateAppIngress (RemoveFinalizer src finalizerName)) ∧
    (Reconcile env st req).1.log = st.log ++
      [(Call.getAppIngress req, none), (Call.deleteIngress (derivedKey src), some e),
       (Call.updateAppIngress (RemoveFinalizer src finalizerName), (Reconcile env st req).2)] ∧
    (env.faults (Call.updateAppIngress (RemoveFinalizer src finalizerName)) = none →
      (Reconcile env st req).2 = none ∧
      ∀ s2, (Reconcile env st req).1.lookupAppIngress req = some s2 →
        ContainsFinalizer s2 finalizerName = false) := by
  have hk : ObjectKeyFromObject src.toObjectMeta = req := lookupObject_key _ _ _ _ hl
  have hd1 : (DeleteIngress env (st.record (Call.getAppIngress req) none) (ingressFor src)).2
      = some e := by
    rw [DeleteIngress_congr env (st.record (Call.getAppIngress req) none) st (ingressFor src) rfl]
    exact hd
  have hda := DeleteIngress_appIngresses env (st.record (Call.getAppIngress req) none)
    (ingressFor src)
  have hdl := DeleteIngress_log env (st.record (Call.getAppIngress req) none) (ingressFor src)
  rw [hd1] at hdl
  rw [Reconcile_delete_proceeds env st req src hget hl hz hc
    (by rw [hd1]; intro e2 he; cases he; exact hnf)]
  generalize (DeleteIngress env (st.record (Call.getAppIngress req) none) (ingressFor src)).1 = stD
    at hda hdl ⊢
  have hlD : stD.lookupAppIngress (ObjectKeyFromObject (RemoveFinalizer src finalizerName).toObjectMeta)
      = some src := by
    rw [RemoveFinalizer_key, hk, lookupAppIngress_congr _ _ req hda, Store.record_lookupAppIngress, hl]
  have hres := UpdateAppIngress_result env stD (RemoveFinalizer src finalizerName) src hlD rfl
  have hlog := UpdateAppIngress_log env stD (RemoveFinalizer src finalizerName)
  refine ⟨hres, ?_, ?_⟩
  · simp only
    rw [hlog, hdl]
    simp [ingressFor_key]
  · intro hu
    simp only
    rw [hu] at hres
    refine ⟨hres, ?_⟩
    intro s2 hs2
    obtain ⟨old, -, -, -, -, -, h5, -, h7⟩ := UpdateAppIngress_ok env stD _ hres
    rw [RemoveFinalizer_key, hk, hs2] at h7
    rcases h7 with h7 | h7
    · cases h7
      have := RemoveFinalizer_not_mem src finalizerName
      rw [← h5] at this
      simpa [ContainsFinalizer] using this
    · cases h7

theorem deletion_idempotence_witness :
    quietEnv.faults (Call.getAppIngress exampleReq) = none ∧
    goneStore.lookupAppIngress exampleReq = some deletingSource ∧
    IsZero deletingSource.deletionTimestamp = false ∧
    ContainsFinalizer deletingSource finalizerName = true ∧
    (DeleteIngress quietEnv goneStore (ingressFor deletingSource)).2 = some (NewNotFound "ing1") ∧
    IsNotFound (NewNotFound "ing1") = true ∧
    ((Reconcile quietEnv goneStore exampleReq).2 =
      quietEnv.faults (Call.updateAppIngress (RemoveFinalizer deletingSource finalizerName)) ∧
    (Reconcile quietEnv goneStore exampleReq).1.log = goneStore.log ++
      [(Call.getAppIngress exampleReq, none),
       (Call.deleteIngress (derivedKey deletingSource), some (NewNotFound "ing1")),
       (Call.updateAppIngress (RemoveFinalizer deletingSource finalizerName),
         (Reconcile quietEnv goneStore exampleReq).2)] ∧
    (quietEnv.faults (Call.updateAppIngress (RemoveFinalizer deletingSource finalizerName)) = none →
      (Reconcile quietEnv goneStore exampleReq).2 = none ∧
      ∀ s2, (Reconcile quietEnv goneStore exampleReq).1.lookupAppIngress exampleReq = some s2 →
        ContainsFinalizer s2 finalizerName = false)) :=
  ⟨rfl, by decide, by decide, by decide, by decide, by decide,
    deletion_idempotence quietEnv goneStore exampleReq deletingSource (NewNotFound "ing1")
      rfl (by decide) (by decide) (by decide) (by decide) (by decide)⟩

/-- C4. For a Source Resource that is marked for deletion and carries the
cleanup finalizer, when the delete of the Derived Resource fails with an error
`e` that is not "not found", `Reconcile` returns exactly `e`; the only calls it
made are the get of the Source Resource and the failed delete, so no update of
the Source Resource is issued, and the stored Source Resource is unchanged and
still carries the finalizer. -/
theorem delete_error_keeps_finalizer (env : Env) (st : Store) (req : NamespacedName)
    (src : AppIngress) (e : APIError)
    (hget : env.faults (Call.getAppIngress req) = none)
    (hl : st.lookupAppIngress req = some src)
    (hz : IsZero src.deletionTimestamp = false)
    (hc : ContainsFinalizer src finalizerName = true)
    (hd : (DeleteIngress env st (ingressFor src)).2 = some e)
    (hnf : IsNotFound e = false) :
    (Reconcile env st req).2 = some e ∧
    (Reconcile env st req).1.log = st.log ++
      [(Call.getAppIngress req, none), (Call.deleteIngress (derivedKey src), some e)] ∧
    (Reconcile env st req).1.appIngresses = st.appIngresses ∧
    (∃ s2, (Reconcile env st req).1.lookupAppIngress req = some s2 ∧ s2 = src ∧
      ContainsFinalizer s2 finalizerName = true) := by
  have hd1 : (DeleteIngress env (st.record (Call.getAppIngress req) none) (ingressFor src)).2
      = some e := by
    rw [DeleteIngress_congr env (st.record (Call.getAppIngress req) none) st (ingressFor src) rfl]
    exact hd
  have hda := DeleteIngress_appIngresses env (st.record (Call.getAppIngress req) none)
    (ingressFor src)
  have hdl := DeleteIngress_log env (st.record (Call.getAppIngress req) none) (ingressFor src)
  rw [hd1] at hdl
  rw [Reconcile_delete_blocked env st req src e hget hl hz hc hd1 hnf]
  refine ⟨rfl, ?_, hda, src, ?_, rfl, hc⟩
  · simp only
    rw [hdl]
    simp [ingressFor_key]
  · simp only
    rw [lookupAppIngress_congr _ _ req hda, Store.record_lookupAppIngress, hl]

theorem delete_error_keeps_finalizer_witness :
    refusedDeleteEnv.faults (Call.getAppIngress exampleReq) = none ∧
    deletingStore.lookupAppIngress exampleReq = some deletingSource ∧
    IsZero deletingSource.deletionTimestamp = false ∧
    ContainsFinalizer deletingSource finalizerName = true ∧
    (DeleteIngress refusedDeleteEnv deletingStore (ingressFor deletingSource)).2 = some refused ∧
    IsNotFound refused = false ∧
    ((Reconcile refusedDeleteEnv deletingStore exampleReq).2 = some refused ∧
    (Reconcile refusedDeleteEnv deletingStore exampleReq).1.log = deletingStore.log ++
      [(Call.getAppIngress exampleReq, none),
       (Call.deleteIngress (derivedKey deletingSource), some refused)] ∧
    (Reconcile refusedDeleteEnv deletingStore exampleReq).1.appIngresses
      = deletingStore.appIngresses ∧
    (∃ s2, (Reconcile refusedDeleteEnv deletingStore exampleReq).1.lookupAppIngress exampleReq
        = some s2 ∧ s2 = deletingSource ∧ ContainsFinalizer s2 finalizerName = true)) :=
  ⟨rfl, by decide, by decide, by decide, by decide, by decide,
    delete_error_keeps_finalizer refusedDeleteEnv deletingStore exampleReq deletingSource refused
      rfl (by decide) (by decide) (by decide) (by decide) (by decide)⟩

/-- C5, as stated, fails: a Source Resource that was reconciled successfully
before (conditions NamespaceValid=True and IngressCreated=True) and whose
target namespace no longer exists is left by `Reconcile` with two conditions,
NamespaceValid=False/NotFound and the old IngressCreated=True. -/
theorem namespace_missing_two_conditions :
    (∀ c, laterEnv.faults c = none) ∧
    namespaceGoneStore.lookupAppIngress exampleReq = some reconciledSource ∧
    IsZero reconciledSource.deletionTimestamp = true ∧
    reconciledSource.spec.targetNamespace ∉ namespaceGoneStore.namespaces ∧
    (Reconcile laterEnv namespaceGoneStore exampleReq).2 = none ∧
    ((Reconcile laterEnv namespaceGoneStore exampleReq).1.lookupAppIngress exampleReq).map
        (fun s => s.status.conditions) =
      some [{ namespaceNotFoundCondition with lastTransitionTime := 20 },
            { ingressCreatedCondition with lastTransitionTime := 11 }] := by
  refine ⟨fun _ => rfl, ?_, ?_, ?_, ?_, ?_⟩ <;> decide

/-- C5, amended. For a Source Resource that is not marked for deletion and
whose target namespace does not exist, one `Reconcile` with no store call
failing returns success, creates no Derived Resource (the Derived Resources
in the store are unchanged), and leaves on the persisted Source Resource the
NamespaceValid condition with status False and reason "NotFound" while every
condition of another type is kept as it was; the persisted list is exactly
that one condition when the Source Resource had no condition before. -/
theorem namespace_missing (env : Env) (st : Store) (req : NamespacedName) (src : AppIngress)
    (hf : ∀ c, env.faults c = none)
    (hl : st.lookupAppIngress req = some src)
    (hz : IsZero src.deletionTimestamp = true)
    (hns : src.spec.targetNamespace ∉ st.namespaces) :
    (Reconcile env st req).2 = none ∧
    (Reconcile env st req).1.ingresses = st.ingresses ∧
    ∃ s2, (Reconcile env st req).1.lookupAppIngress req = some s2 ∧
      (∃ c, findCondition s2.status.conditions ConditionTypeNamespaceValid = some c ∧
        c.status = ConditionStatus.ConditionFalse ∧ c.reason = "NotFound") ∧
      s2.status.conditions.filter (fun x => decide (x.type ≠ ConditionTypeNamespaceValid)) =
        src.status.conditions.filter (fun x => decide (x.type ≠ ConditionTypeNamespaceValid)) ∧
      (src.status.conditions = [] →
        s2.status.conditions =
          [{ namespaceNotFoundCondition with lastTransitionTime := env.nowNamespaceValid }]) := by
  obtain ⟨h1, h2, -, s2, hs2, -, -, -, hc⟩ :=
    Reconcile_namespace_missing env st req src hf hl hz hns
  refine ⟨h1, h2, s2, hs2, ?_, ?_, ?_⟩
  · obtain ⟨c, hc1, -, hc2, hc3, -⟩ :=
      findCondition_SetStatusCondition_self src.status.conditions namespaceNotFoundCondition
        env.nowNamespaceValid
    rw [← hc] at hc1
    exact ⟨c, hc1, hc2, hc3⟩
  · rw [hc]
    exact SetStatusCondition_filter_other src.status.conditions namespaceNotFoundCondition
      env.nowNamespaceValid
  · intro he
    rw [hc, he]
    rfl

theorem namespace_missing_witness :
    (∀ c, quietEnv.faults c = none) ∧
    namespaceGoneStore.lookupAppIngress exampleReq = some reconciledSource ∧
    IsZero reconciledSource.deletionTimestamp = true ∧
    reconciledSource.spec.targetNamespace ∉ namespaceGoneStore.namespaces ∧
    ((Reconcile quietEnv namespaceGoneStore exampleReq).2 = none ∧
    (Reconcile quietEnv namespaceGoneStore exampleReq).1.ingresses = namespaceGoneStore.ingresses ∧
    ∃ s2, (Reconcile quietEnv namespaceGoneStore exampleReq).1.lookupAppIngress exampleReq
        = some s2 ∧
      (∃ c, findCondition s2.status.conditions ConditionTypeNamespaceValid = some c ∧
        c.status = ConditionStatus.ConditionFalse ∧ c.reason = "NotFound") ∧
      s2.status.conditions.filter (fun x => decide (x.type ≠ ConditionTypeNamespaceValid)) =
        reconciledSource.status.conditions.filter
          (fun x => decide (x.type ≠ ConditionTypeNamespaceValid)) ∧
      (reconciledSource.status.conditions = [] →
        s2.status.conditions =
          [{ namespaceNotFoundCondition with lastTransitionTime := quietEnv.nowNamespaceValid }])) :=
  ⟨fun _ => rfl, by decide, by decide, by decide,
    namespace_missing quietEnv namespaceGoneStore exampleReq reconciledSource
      (fun _ => rfl) (by decide) (by decide) (by decide)⟩

theorem ingressMutateFn_fixed (a : AppIngress) (d : Ingress)
    (h1 : d.labels = a.spec.template.labels) (h2 : d.annotations = a.spec.template.annotations)
    (h3 : d.spec = a.spec.template.spec) : ingressMutateFn a d = d := by
  simp only [ingressMutateFn, ← h1, ← h2, ← h3]

/-- C6 (idempotence). For a Source Resource that is not marked for deletion
and whose target namespace exists, when `Reconcile` is run twice in succession
with no store call failing (at any clock readings, so also at later ones),
the second run returns success and leaves the Derived Resources as the first
run left them, and the condition list after the second run equals the one
after the first: same length, same `lastTransitionTime` values, and no
duplicated type (the list of a Source Resource being unique by type). -/
theorem idempotence (env1 env2 : Env) (st : Store) (req : NamespacedName) (src : AppIngress)
    (hf1 : ∀ c, env1.faults c = none) (hf2 : ∀ c, env2.faults c = none)
    (hl : st.lookupAppIngress req = some src)
    (hz : IsZero src.deletionTimestamp = true)
    (hns : src.spec.targetNamespace ∈ st.namespaces) :
    (Reconcile env2 (Reconcile env1 st req).1 req).2 = none ∧
    (Reconcile env2 (Reconcile env1 st req).1 req).1.ingresses =
      (Reconcile env1 st req).1.ingresses ∧
    (Reconcile env2 (Reconcile env1 st req).1 req).1.lookupIngress (derivedKey src) =
      (Reconcile env1 st req).1.lookupIngress (derivedKey src) ∧
    ∃ s1 s2, (Reconcile env1 st req).1.lookupAppIngress req = some s1 ∧
      (Reconcile env2 (Reconcile env1 st req).1 req).1.lookupAppIngress req = some s2 ∧
      s2.status.conditions = s1.status.conditions ∧
      s2.status.conditions.length = s1.status.conditions.length ∧
      s2.status.conditions.map (fun c => c.lastTransitionTime) =
        s1.status.conditions.map (fun c => c.lastTransitionTime) ∧
      ((src.status.conditions.map (fun c => c.type)).Nodup →
        (s2.status.conditions.map (fun c => c.type)).Nodup) := by
  obtain ⟨-, hn1, ⟨s1, hs1, hsp1, -, hdt1, hc1⟩, ⟨d, hd, hd1, hd2, hd3⟩, -⟩ :=
    Reconcile_success env1 st req src hf1 hl hz hns
  have hkey : derivedKey s1 = derivedKey src := by simp only [derivedKey, hsp1]
  obtain ⟨g1, -, ⟨s2, hs2, -, -, -, hc2⟩, -, g5⟩ :=
    Reconcile_success env2 (Reconcile env1 st req).1 req s1 hf2 hs1
      (by rw [hdt1]; exact hz) (by rw [hn1, hsp1]; exact hns)
  have hi := g5 d (by rw [hkey]; exact hd)
    (ingressMutateFn_fixed s1 d (by rw [hd1, hsp1]) (by rw [hd2, hsp1]) (by rw [hd3, hsp1]))
  have hc : s2.status.conditions = s1.status.conditions := by
    rw [hc2, hc1]
    exact success_conditions_fixed _ _ _ _ _
  refine ⟨g1, hi, lookupIngress_congr _ _ _ hi, s1, s2, hs1, hs2, hc, by rw [hc], by rw [hc], ?_⟩
  intro hu
  rw [hc, hc1]
  exact SetStatusCondition_nodup _ _ _ (SetStatusCondition_nodup _ _ _ hu)

theorem idempotence_witness :
    (∀ c, quietEnv.faults c = none) ∧ (∀ c, laterEnv.faults c = none) ∧
    exampleStore.lookupAppIngress exampleReq = some exampleSource ∧
    IsZero exampleSource.deletionTimestamp = true ∧
    exampleSource.spec.targetNamespace ∈ exampleStore.namespaces ∧
    ((Reconcile laterEnv (Reconcile quietEnv exampleStore exampleReq).1 exampleReq).2 = none ∧
    (Reconcile laterEnv (Reconcile quietEnv exampleStore exampleReq).1 exampleReq).1.ingresses =
      (Reconcile quietEnv exampleStore exampleReq).1.ingresses ∧
    (Reconcile laterEnv (Reconcile quietEnv exampleStore exampleReq).1 exampleReq).1.lookupIngress
        (derivedKey exampleSource) =
      (Reconcile quietEnv exampleStore exampleReq).1.lookupIngress (derivedKey exampleSource) ∧
    ∃ s1 s2, (Reconcile quietEnv exampleStore exampleReq).1.lookupAppIngress exampleReq = some s1 ∧
      (Reconcile laterEnv (Reconcile quietEnv exampleStore exampleReq).1
        exampleReq).1.lookupAppIngress exampleReq = some s2 ∧
      s2.status.conditions = s1.status.conditions ∧
      s2.status.conditions.length = s1.status.conditions.length ∧
      s2.status.conditions.map (fun c => c.lastTransitionTime) =
        s1.status.conditions.map (fun c => c.lastTransitionTime) ∧
      ((exampleSource.status.conditions.map (fun c => c.type)).Nodup →
        (s2.status.conditions.map (fun c => c.type)).Nodup)) :=
  ⟨fun _ => rfl, fun _ => rfl, by decide, by decide, by decide,
    idempotence quietEnv laterEnv exampleStore exampleReq exampleSource
      (fun _ => rfl) (fun _ => rfl) (by decide) (by decide) (by decide)⟩

/-- C7, as stated, fails: when the create-or-update fails with `refused` and
the status persist then fails with a conflict, `Reconcile` returns the
conflict, not the underlying error `refused`. -/
theorem convergence_failure_returns_persist_error :
    refusedCreateConflictEnv.faults (Call.getAppIngress exampleReq) = none ∧
    (∀ o, refusedCreateConflictEnv.faults (Call.updateAppIngress o) = none) ∧
    exampleStore.lookupAppIngress exampleReq = some exampleSource ∧
    IsZero exampleSource.deletionTimestamp = true ∧
    exampleSource.spec.targetNamespace ∈ exampleStore.namespaces ∧
    (CreateOrUpdate refusedCreateConflictEnv exampleStore (ingressFor exampleSource)
      (ingressMutateFn exampleSource)).2 = some refused ∧
    (Reconcile refusedCreateConflictEnv exampleStore exampleReq).2 = some statusConflict ∧
    statusConflict ≠ refused := by
  refine ⟨rfl, fun _ => rfl, ?_, ?_, ?_, ?_, ?_, ?_⟩ <;> decide

/-- C7, amended. For a Source Resource that is not marked for deletion and
whose target namespace exists, when the create-or-update of the Derived
Resource fails with error `e`, `Reconcile` sets the condition IngressCreated to
status False with reason "Error" and the message
"Failed to create/update Ingress: " followed by `e`'s text, and sends that
status to the store as its last call. When this persist succeeds the stored
Source Resource carries the condition and `Reconcile` returns `e`; when the
persist fails with `e2`, `Reconcile` returns `e2`. -/
theorem convergence_failure (env : Env) (st : Store) (req : NamespacedName)
    (src : AppIngress) (e : APIError)
    (hget : env.faults (Call.getAppIngress req) = none)
    (hupd : ∀ o, env.faults (Call.updateAppIngress o) = none)
    (hgns : env.faults (Call.getNamespace src.spec.targetNamespace) = none)
    (hl : st.lookupAppIngress req = some src)
    (hz : IsZero src.deletionTimestamp = true)
    (hns : src.spec.targetNamespace ∈ st.namespaces)
    (hcu : (CreateOrUpdate env st (ingressFor src) (ingressMutateFn src)).2 = some e) :
    ∃ obj c,
      findCondition obj.status.conditions ConditionTypeIngressCreated = some c ∧
      c.status = ConditionStatus.ConditionFalse ∧ c.reason = "Error" ∧
      c.message = "Failed to create/update Ingress: " ++ e.Error ∧
      (Reconcile env st req).1.log.getLast? =
        some (Call.updateStatus obj, env.faults (Call.updateStatus obj)) ∧
      (env.faults (Call.updateStatus obj) = none →
        (Reconcile env st req).2 = some e ∧
        ∃ s2, (Reconcile env st req).1.lookupAppIngress req = some s2 ∧
          findCondition s2.status.conditions ConditionTypeIngressCreated = some c) ∧
      (∀ e2, env.faults (Call.updateStatus obj) = some e2 →
        (Reconcile env st req).2 = some e2) := by
  obtain ⟨obj, hcond, hlog, -, hok, herr⟩ :=
    Reconcile_convergence_failure env st req src e hget hupd hgns hl hz hns hcu
  obtain ⟨c, hc, -, hc1, hc2, hc3, -⟩ :=
    findCondition_SetStatusCondition_self
      (SetStatusCondition src.status.conditions namespaceValidCondition env.nowNamespaceValid)
      (ingressErrorCondition e) env.nowIngressCreated
  rw [← hcond] at hc
  refine ⟨obj, c, hc, hc1, hc2, hc3, hlog, ?_, ?_⟩
  · intro hfe
    obtain ⟨h1, s2, hs2, hst⟩ := hok hfe
    exact ⟨h1, s2, hs2, by rw [hst]; exact hc⟩
  · intro e2 hfe
    exact (herr e2 hfe).1

theorem convergence_failure_witness :
    refusedCreateEnv.faults (Call.getAppIngress exampleReq) = none ∧
    (∀ o, refusedCreateEnv.faults (Call.updateAppIngress o) = none) ∧
    refusedCreateEnv.faults (Call.getNamespace exampleSource.spec.targetNamespace) = none ∧
    exampleStore.lookupAppIngress exampleReq = some exampleSource ∧
    IsZero exampleSource.deletionTimestamp = true ∧
    exampleSource.spec.targetNamespace ∈ exampleStore.namespaces ∧
    (CreateOrUpdate refusedCreateEnv exampleStore (ingressFor exampleSource)
      (ingressMutateFn exampleSource)).2 = some refused ∧
    (Reconcile refusedCreateEnv exampleStore exampleReq).2 = some refused ∧
    (∃ obj c,
      findCondition obj.status.conditions ConditionTypeIngressCreated = some c ∧
      c.status = ConditionStatus.ConditionFalse ∧ c.reason = "Error" ∧
      c.message = "Failed to create/update Ingress: " ++ refused.Error ∧
      (Reconcile refusedCreateEnv exampleStore exampleReq).1.log.getLast? =
        some (Call.updateStatus obj, refusedCreateEnv.faults (Call.updateStatus obj)) ∧
      (refusedCreateEnv.faults (Call.updateStatus obj) = none →
        (Reconcile refusedCreateEnv exampleStore exampleReq).2 = some refused ∧
        ∃ s2, (Reconcile refusedCreateEnv exampleStore exampleReq).1.lookupAppIngress exampleReq
            = some s2 ∧
          findCondition s2.status.conditions ConditionTypeIngressCreated = some c) ∧
      (∀ e2, refusedCreateEnv.faults (Call.updateStatus obj) = some e2 →
        (Reconcile refusedCreateEnv exampleStore exampleReq).2 = some e2)) :=
  ⟨rfl, fun _ => rfl, rfl, by decide, by decide, by decide, by decide, by decide,
    convergence_failure refusedCreateEnv exampleStore exampleReq exampleSource refused
      rfl (fun _ => rfl) rfl (by decide) (by decide) (by decide) (by decide)⟩

/-- C8 (first reconcile of a brand-new object). For a Source Resource that is
not marked for deletion, has no finalizers and no conditions, and whose target
namespace exists, a single `Reconcile` with no store call failing returns
success and leaves the persisted Source Resource carrying exactly the cleanup
finalizer and the conditions NamespaceValid=True (reason "Valid") and
IngressCreated=True (reason "Created"), in that order. -/
theorem first_reconcile (env : Env) (st : Store) (req : NamespacedName) (src : AppIngress)
    (hf : ∀ c, env.faults c = none)
    (hl : st.lookupAppIngress req = some src)
    (hz : IsZero src.deletionTimestamp = true)
    (hns : src.spec.targetNamespace ∈ st.namespaces)
    (hfin : src.finalizers = [])
    (hcond : src.status.conditions = []) :
    (Reconcile env st req).2 = none ∧
    ∃ s2, (Reconcile env st req).1.lookupAppIngress req = some s2 ∧
      s2.finalizers = [finalizerName] ∧
      ContainsFinalizer s2 finalizerName = true ∧
      s2.status.conditions =
        [{ namespaceValidCondition with lastTransitionTime := env.nowNamespaceValid },
         { ingressCreatedCondition with lastTransitionTime := env.nowIngressCreated }] := by
  obtain ⟨h1, -, ⟨s2, hs2, -, hf2, -, hc2⟩, -, -⟩ := Reconcile_success env st req src hf hl hz hns
  have hfin2 : s2.finalizers = [finalizerName] := by
    rw [hf2]
    simp [AddFinalizer, hfin]
  refine ⟨h1, s2, hs2, hfin2, ?_, ?_⟩
  · simp [ContainsFinalizer, hfin2]
  · rw [hc2, hcond]
    simp [SetStatusCondition, namespaceValidCondition, ingressCreatedCondition,
      ConditionTypeNamespaceValid, ConditionTypeIngressCreated]

theorem first_reconcile_witness :
    (∀ c, quietEnv.faults c = none) ∧
    exampleStore.lookupAppIngress exampleReq = some exampleSource ∧
    IsZero exampleSource.deletionTimestamp = true ∧
    exampleSource.spec.targetNamespace ∈ exampleStore.namespaces ∧
    exampleSource.finalizers = [] ∧
    exampleSource.status.conditions = [] ∧
    ((Reconcile quietEnv exampleStore exampleReq).2 = none ∧
    ∃ s2, (Reconcile quietEnv exampleStore exampleReq).1.lookupAppIngress exampleReq = some s2 ∧
      s2.finalizers = [finalizerName] ∧
      ContainsFinalizer s2 finalizerName = true ∧
      s2.status.conditions =
        [{ namespaceValidCondition with lastTransitionTime := quietEnv.nowNamespaceValid },
         { ingressCreatedCondition with lastTransitionTime := quietEnv.nowIngressCreated }]) :=
  ⟨fun _ => rfl, by decide, by decide, by decide, rfl, rfl,
    first_reconcile quietEnv exampleStore exampleReq exampleSource
      (fun _ => rfl) (by decide) (by decide) (by decide) rfl rfl⟩

/-- C9 (transition timestamps reflect status flips only). For every stored
Source Resource and every `Reconcile`, whatever calls fail, each condition type
whose status in the store after the `Reconcile` equals its status before keeps
its previous `lastTransitionTime`. In particular, after a successful reconcile,
a change of the template's spec and a second successful reconcile, both
NamespaceValid and IngressCreated carry the `lastTransitionTime` the first
reconcile left. -/
theorem transition_times (st : Store) (req : NamespacedName) (src : AppIngress)
    (hl : st.lookupAppIngress req = some src) :
    (∀ (env : Env) (s2 : AppIngress) (t : String) (c c2 : Condition),
      (Reconcile env st req).1.lookupAppIngress req = some s2 →
      findCondition src.status.conditions t = some c →
      findCondition s2.status.conditions t = some c2 →
      c2.status = c.status → c2.lastTransitionTime = c.lastTransitionTime) ∧
    (∀ (env1 env2 : Env) (P : IngressSpec),
      (∀ c, env1.faults c = none) → (∀ c, env2.faults c = none) →
      IsZero src.deletionTimestamp = true → src.spec.targetNamespace ∈ st.namespaces →
      ∃ s1 s2 nv1 ic1 nv2 ic2,
        (Reconcile env1 st req).1.lookupAppIngress req = some s1 ∧
        (Reconcile env2 (updateTemplateSpec (Reconcile env1 st req).1 req P) req).1.lookupAppIngress
          req = some s2 ∧
        findCondition s1.status.conditions ConditionTypeNamespaceValid = some nv1 ∧
        findCondition s1.status.conditions ConditionTypeIngressCreated = some ic1 ∧
        findCondition s2.status.conditions ConditionTypeNamespaceValid = some nv2 ∧
        findCondition s2.status.conditions ConditionTypeIngressCreated = some ic2 ∧
        nv2.lastTransitionTime = nv1.lastTransitionTime ∧
        ic2.lastTransitionTime = ic1.lastTransitionTime) := by
  constructor
  · intro env s2 t c c2 hl2 h0 h2 hs
    rcases Reconcile_conditions env st req src s2 hl hl2 with h | ⟨c1, -, h⟩ | ⟨c1, c3, ht1, ht3, h⟩
    · rw [h, h0] at h2
      cases h2
      rfl
    · rw [h] at h2
      exact SetStatusCondition_keeps_time _ c1 _ t c c2 h0 h2 hs
    · rw [h] at h2
      exact SetStatusCondition_twice_keeps_time _ c1 c3 _ _
        (by rw [ht1, ht3]; exact conditionTypes_ne) t c c2 h0 h2 hs
  · intro env1 env2 P hf1 hf2 hz hns
    obtain ⟨-, hn1, ⟨s1, hs1, hsp1, -, hdt1, hc1⟩, -, -⟩ :=
      Reconcile_success env1 st req src hf1 hl hz hns
    obtain ⟨b, hb, -, -, -, -, hb5, hb6, -, hb8⟩ :=
      updateTemplateSpec_lookup (Reconcile env1 st req).1 req P s1 hs1
    obtain ⟨-, hfr2⟩ := updateTemplateSpec_frame (Reconcile env1 st req).1 req P
    obtain ⟨-, -, ⟨s2, hs2, -, -, -, hc2⟩, -, -⟩ :=
      Reconcile_success env2 (updateTemplateSpec (Reconcile env1 st req).1 req P) req b hf2 hb
        (by rw [hb6, hdt1]; exact hz)
        (by rw [hfr2, hn1, hb5, hsp1]; exact hns)
    have hc : s2.status.conditions = s1.status.conditions := by
      rw [hc2, hb8, hc1]
      exact success_conditions_fixed _ _ _ _ _
    obtain ⟨ic, hic, -, -, -, -, -, -, -⟩ :=
      findCondition_SetStatusCondition_self
        (SetStatusCondition src.status.conditions namespaceValidCondition env1.nowNamespaceValid)
        ingressCreatedCondition env1.nowIngressCreated
    obtain ⟨nv, hnv, -, -, -, -, -, -, -⟩ :=
      findCondition_SetStatusCondition_self src.status.conditions namespaceValidCondition
        env1.nowNamespaceValid
    have hnv' : findCondition s1.status.conditions ConditionTypeNamespaceValid = some nv := by
      rw [hc1]
      exact (findCondition_SetStatusCondition_other
        (SetStatusCondition src.status.conditions namespaceValidCondition env1.nowNamespaceValid)
        ingressCreatedCondition env1.nowIngressCreated namespaceValidCondition.type
        conditionTypes_ne).trans hnv
    have hic' : findCondition s1.status.conditions ConditionTypeIngressCreated = some ic := by
      rw [hc1]
      exact hic
    exact ⟨s1, s2, nv, ic, nv, ic, hs1, hs2, hnv', hic', by rw [hc]; exact hnv',
      by rw [hc]; exact hic', rfl, rfl⟩

theorem transition_times_witness :
    failedStore.lookupAppIngress exampleReq = some failedSource ∧
    (Reconcile laterRefusedCreateEnv failedStore exampleReq).1.lookupAppIngress exampleReq =
      some failedAgainSource ∧
    findCondition failedSource.status.conditions ConditionTypeIngressCreated =
      some { ingressErrorCondition timedOut with lastTransitionTime := 11 } ∧
    findCondition failedAgainSource.status.conditions ConditionTypeIngressCreated =
      some { ingressErrorCondition refused with lastTransitionTime := 11 } ∧
    ({ ingressErrorCondition refused with lastTransitionTime := 11 } : Condition).status =
      ({ ingressErrorCondition timedOut with lastTransitionTime := 11 } : Condition).status ∧
    ({ ingressErrorCondition refused with lastTransitionTime := 11 } : Condition).lastTransitionTime =
      ({ ingressErrorCondition timedOut with
          lastTransitionTime := 11 } : Condition).lastTransitionTime ∧
    (∀ c, quietEnv.faults c = none) ∧ (∀ c, laterEnv.faults c = none) ∧
    IsZero failedSource.deletionTimestamp = true ∧
    failedSource.spec.targetNamespace ∈ failedStore.namespaces ∧
    (∀ P : IngressSpec, ∃ s1 s2 nv1 ic1 nv2 ic2,
      (Reconcile quietEnv failedStore exampleReq).1.lookupAppIngress exampleReq = some s1 ∧
      (Reconcile laterEnv (updateTemplateSpec (Reconcile quietEnv failedStore exampleReq).1
        exampleReq P) exampleReq).1.lookupAppIngress exampleReq = some s2 ∧
      findCondition s1.status.conditions ConditionTypeNamespaceValid = some nv1 ∧
      findCondition s1.status.conditions ConditionTypeIngressCreated = some ic1 ∧
      findCondition s2.status.conditions ConditionTypeNamespaceValid = some nv2 ∧
      findCondition s2.status.conditions ConditionTypeIngressCreated = some ic2 ∧
      nv2.lastTransitionTime = nv1.lastTransitionTime ∧
      ic2.lastTransitionTime = ic1.lastTransitionTime) :=
  ⟨by decide, by decide, by decide, by decide, by decide,
    (transition_times failedStore exampleReq failedSource (by decide)).1 laterRefusedCreateEnv
      failedAgainSource ConditionTypeIngressCreated
      { ingressErrorCondition timedOut with lastTransitionTime := 11 }
      { ingressErrorCondition refused with lastTransitionTime := 11 }
      (by decide) (by decide) (by decide) (by decide),
    fun _ => rfl, fun _ => rfl, by decide, by decide,
    fun P => (transition_times failedStore exampleReq failedSource (by decide)).2 quietEnv laterEnv P
      (fun _ => rfl) (fun _ => rfl) (by decide) (by decide)⟩

/-- C10 (type-uniqueness and order-stability of conditions). For every stored
Source Resource whose condition list has at most one condition per type, the
condition list in the store after any `Reconcile`, whatever calls fail, has at
most one condition per type, and its types are the previous types in their
previous positions followed by the types that were not present. -/
theorem conditions_unique_and_stable (env : Env) (st : Store) (req : NamespacedName)
    (src s2 : AppIngress)
    (hl : st.lookupAppIngress req = some src)
    (hl2 : (Reconcile env st req).1.lookupAppIngress req = some s2)
    (hu : (src.status.conditions.map (fun c => c.type)).Nodup) :
    (s2.status.conditions.map (fun c => c.type)).Nodup ∧
    ∃ extra, s2.status.conditions.map (fun c => c.type) =
        src.status.conditions.map (fun c => c.type) ++ extra ∧
      ∀ t ∈ extra, t ∉ src.status.conditions.map (fun c => c.type) := by
  rcases Reconcile_conditions env st req src s2 hl hl2 with h | ⟨c1, -, h⟩ | ⟨c1, c3, -, -, h⟩
  · rw [h]
    exact ⟨hu, [], by simp, by simp⟩
  · rw [h]
    exact ⟨SetStatusCondition_nodup _ _ _ hu, SetStatusCondition_types_append _ _ _⟩
  · rw [h]
    refine ⟨SetStatusCondition_nodup _ _ _ (SetStatusCondition_nodup _ _ _ hu), ?_⟩
    obtain ⟨e1, he1, hd1⟩ :=
      SetStatusCondition_types_append src.status.conditions c1 env.nowNamespaceValid
    obtain ⟨e2, he2, hd2⟩ :=
      SetStatusCondition_types_append
        (SetStatusCondition src.status.conditions c1 env.nowNamespaceValid) c3
        env.nowIngressCreated
    refine ⟨e1 ++ e2, ?_, ?_⟩
    · rw [he2, he1, List.append_assoc]
    · intro t ht
      rcases List.mem_append.mp ht with ht | ht
      · exact hd1 t ht
      · intro hm
        apply hd2 t ht
        rw [he1]
        exact List.mem_append_left _ hm

theorem conditions_unique_and_stable_witness :
    namespaceGoneStore.lookupAppIngress exampleReq = some reconciledSource ∧
    (Reconcile quietEnv namespaceGoneStore exampleReq).1.lookupAppIngress exampleReq =
      some { reconciledSource with
        resourceVersion := 3
        status :=
          { conditions :=
              [{ namespaceNotFoundCondition with lastTransitionTime := 10 },
               { ingressCreatedCondition with lastTransitionTime := 11 }] } } ∧
    (reconciledSource.status.conditions.map (fun c => c.type)).Nodup ∧
    (([{ namespaceNotFoundCondition with lastTransitionTime := 10 },
        { ingressCreatedCondition with lastTransitionTime := 11 }].map
          (fun c => c.type)).Nodup ∧
    ∃ extra, [{ namespaceNotFoundCondition with lastTransitionTime := 10 },
        { ingressCreatedCondition with lastTransitionTime := 11 }].map (fun c => c.type) =
        reconciledSource.status.conditions.map (fun c => c.type) ++ extra ∧
      ∀ t ∈ extra, t ∉ reconciledSource.status.conditions.map (fun c => c.type)) :=
  ⟨by decide, by decide, by decide,
    conditions_unique_and_stable quietEnv namespaceGoneStore exampleReq reconciledSource
      { reconciledSource with
        resourceVersion := 3
        status :=
          { conditions :=
              [{ namespaceNotFoundCondition with lastTransitionTime := 10 },
               { ingressCreatedCondition with lastTransitionTime := 11 }] } }
      (by decide) (by decide) (by decide)⟩

/-- C11, as stated, fails: on the first reconcile of the example Source
Resource the get of the Derived Resource inside create-or-update fails with
"not found", which is none of the three benign failures, and `Reconcile`
returns success. -/
theorem not_found_on_get_of_derived_is_absorbed :
    exampleStore.log = [] ∧
    (Call.getIngress (derivedKey exampleSource), some (NewNotFound "ing1")) ∈
      (Reconcile quietEnv exampleStore exampleReq).1.log ∧
    nonBenignFailure
      (Call.getIngress (derivedKey exampleSource), some (NewNotFound "ing1")) = true ∧
    (Reconcile quietEnv exampleStore exampleReq).2 = none := by
  refine ⟨rfl, ?_, ?_, ?_⟩ <;> decide

/-- C11 (error propagation), amended. For every invocation of `Reconcile`,
with `calls` the store calls it made: when some call failed with an error that
is not benign (benign being "not found" on fetching the Source Resource, on
deleting the Derived Resource, on looking up the target namespace, or on the
get of the Derived Resource inside create-or-update), `Reconcile` returns an
error that is the unmodified error of such a failed call; when no call failed
with an error that is not benign, `Reconcile` returns success; and every error
of the update that adds or removes the finalizer, a conflict included, is
returned. -/
theorem error_propagation (env : Env) (st : Store) (req : NamespacedName) :
    ∃ calls, (Reconcile env st req).1.log = st.log ++ calls ∧
      ((∃ x ∈ calls, realFailure x = true) →
        ∃ c e, (Reconcile env st req).2 = some e ∧ (c, some e) ∈ calls ∧
          realFailure (c, some e) = true) ∧
      ((∀ x ∈ calls, realFailure x = false) → (Reconcile env st req).2 = none) ∧
      (∀ o e, (Call.updateAppIngress o, some e) ∈ calls →
        (Reconcile env st req).2 = some e) := by
  obtain ⟨calls, hlog, hv, hu⟩ := Reconcile_calls env st req
  refine ⟨calls, hlog, ?_, ?_, hu⟩
  · rintro ⟨x, hx, hr⟩
    rcases hv with ⟨-, hq⟩ | h
    · rw [hq x hx] at hr
      cases hr
    · exact h
  · intro hq
    rcases hv with ⟨h, -⟩ | ⟨c, e, -, hm, hr⟩
    · exact h
    · rw [hq _ hm] at hr
      cases hr

/-- C12. A `Reconcile` of a stored Source Resource that is not marked for
deletion, whatever calls fail, issues no delete of a Derived Resource, creates
or updates only objects at the current `(template.name, targetNamespace)`,
leaves the Derived Resource at every other identity as it was, and removes no
Derived Resource. Consequently, in the example, after a successful reconcile,
a change of the template name from "ing1" to "ing2" (or of the target
namespace from "ns1" to the existing "ns2") and a second successful reconcile,
the Derived Resource created under the old identity is still in the store,
unchanged, alongside the new one. -/
theorem old_derived_resource_stays (env : Env) (st : Store) (req : NamespacedName)
    (src : AppIngress)
    (hl : st.lookupAppIngress req = some src)
    (hz : IsZero src.deletionTimestamp = true) :
    (∃ calls, (Reconcile env st req).1.log = st.log ++ calls ∧
      (∀ k r, (Call.deleteIngress k, r) ∉ calls) ∧
      (∀ o r, (Call.createIngress o, r) ∈ calls ∨ (Call.updateIngress o, r) ∈ calls →
        ObjectKeyFromObject o.toObjectMeta = derivedKey src)) ∧
    (∀ key2, key2 ≠ derivedKey src →
      (Reconcile env st req).1.lookupIngress key2 = st.lookupIngress key2) ∧
    (∀ key2 d, st.lookupIngress key2 = some d →
      ∃ d2, (Reconcile env st req).1.lookupIngress key2 = some d2) ∧
    ((Reconcile quietEnv exampleStore exampleReq).2 = none ∧
      (Reconcile quietEnv exampleStore exampleReq).1.lookupIngress
        { namespace_ := "ns1", name := "ing1" } = some exampleIngress ∧
      (Reconcile laterEnv
        (updateTemplateName (Reconcile quietEnv exampleStore exampleReq).1 exampleReq "ing2")
        exampleReq).2 = none ∧
      (Reconcile laterEnv
        (updateTemplateName (Reconcile quietEnv exampleStore exampleReq).1 exampleReq "ing2")
        exampleReq).1.lookupIngress { namespace_ := "ns1", name := "ing1" } =
          some exampleIngress ∧
      (Reconcile laterEnv
        (updateTemplateName (Reconcile quietEnv exampleStore exampleReq).1 exampleReq "ing2")
        exampleReq).1.lookupIngress { namespace_ := "ns1", name := "ing2" } =
          some { exampleIngress with name := "ing2" }) ∧
    ((Reconcile quietEnv twoNamespaceStore exampleReq).2 = none ∧
      (Reconcile quietEnv twoNamespaceStore exampleReq).1.lookupIngress
        { namespace_ := "ns1", name := "ing1" } = some exampleIngress ∧
      (Reconcile laterEnv
        (updateTargetNamespace (Reconcile quietEnv twoNamespaceStore exampleReq).1 exampleReq
          "ns2") exampleReq).2 = none ∧
      (Reconcile laterEnv
        (updateTargetNamespace (Reconcile quietEnv twoNamespaceStore exampleReq).1 exampleReq
          "ns2") exampleReq).1.lookupIngress { namespace_ := "ns1", name := "ing1" } =
          some exampleIngress ∧
      (Reconcile laterEnv
        (updateTargetNamespace (Reconcile quietEnv twoNamespaceStore exampleReq).1 exampleReq
          "ns2") exampleReq).1.lookupIngress { namespace_ := "ns2", name := "ing1" } =
          some { exampleIngress with namespace_ := "ns2" }) := by
  refine ⟨?_, ?_, ?_, ?_, ?_⟩
  · cases hg : (GetAppIngress env st req {}).2.1 with
    | some e =>
      rw [Reconcile_get_failed env st req e hg]
      refine ⟨[(Call.getAppIngress req, some e)], rfl, ?_, ?_⟩
      · intro k r hm
        simp at hm
      · intro o r hm
        simp at hm
    | none =>
      have hget := GetAppIngress_ok_fault env st req {} hg
      obtain ⟨calls, h1, -, h3, -, -⟩ := Reconcile_not_deleting_calls env st req src hget hl hz
      refine ⟨calls, h1, ?_, ?_⟩
      · intro k r hm
        exact (h3 _ hm).1 k r rfl
      · intro o r hm
        rcases hm with hm | hm
        · exact (h3 _ hm).2 o r (Or.inl rfl)
        · exact (h3 _ hm).2 o r (Or.inr rfl)
  · intro key2 hne
    cases hg : (GetAppIngress env st req {}).2.1 with
    | some e =>
      rw [Reconcile_get_failed env st req e hg]
      rfl
    | none =>
      have hget := GetAppIngress_ok_fault env st req {} hg
      obtain ⟨calls, -, -, -, h4, -⟩ := Reconcile_not_deleting_calls env st req src hget hl hz
      exact h4 key2 hne
  · intro key2 d hd
    cases hg : (GetAppIngress env st req {}).2.1 with
    | some e =>
      rw [Reconcile_get_failed env st req e hg]
      exact ⟨d, hd⟩
    | none =>
      have hget := GetAppIngress_ok_fault env st req {} hg
      obtain ⟨calls, -, -, -, -, h5⟩ := Reconcile_not_deleting_calls env st req src hget hl hz
      exact h5 key2 d hd
  · refine ⟨?_, ?_, ?_, ?_, ?_⟩ <;> decide
  · refine ⟨?_, ?_, ?_, ?_, ?_⟩ <;> decide

theorem old_derived_resource_stays_witness :
    reconciledStore.lookupAppIngress exampleReq = some reconciledSource ∧
    IsZero reconciledSource.deletionTimestamp = true ∧
    (∃ calls, (Reconcile laterRefusedCreateEnv reconciledStore exampleReq).1.log =
        reconciledStore.log ++ calls ∧
      (∀ k r, (Call.deleteIngress k, r) ∉ calls) ∧
      (∀ o r, (Call.createIngress o, r) ∈ calls ∨ (Call.updateIngress o, r) ∈ calls →
        ObjectKeyFromObject o.toObjectMeta = derivedKey reconciledSource)) ∧
    (∀ key2, key2 ≠ derivedKey reconciledSource →
      (Reconcile laterRefusedCreateEnv reconciledStore exampleReq).1.lookupIngress key2 =
        reconciledStore.lookupIngress key2) ∧
    (∀ key2 d, reconciledStore.lookupIngress key2 = some d →
      ∃ d2, (Reconcile laterRefusedCreateEnv reconciledStore exampleReq).1.lookupIngress key2 =
        some d2) :=
  ⟨by decide, by decide,
    (old_derived_resource_stays laterRefusedCreateEnv reconciledStore exampleReq reconciledSource
      (by decide) (by decide)).1,
    (old_derived_resource_stays laterRefusedCreateEnv reconciledStore exampleReq reconciledSource
      (by decide) (by decide)).2.1,
    (old_derived_resource_stays laterRefusedCreateEnv reconciledStore exampleReq reconciledSource
      (by decide) (by decide)).2.2.1⟩
end IngressDuplicator
